import Mathlib

/-!
# Netmaker control plane: peer-graph engine

A shallow embedding of `logic/peers.go` (and the helpers it calls) together with
the theorems that settle the specification's claims about it.

Conventions of the embedding
* Go strings are `String`; scanning functions of the Go standard library work on
  the character list of the string.
* A Go byte is a `Fin 256`; a `net.IP` and a `net.IPMask` are byte lists, the nil
  slice being `[]`.
* A Go map that is only looked up and stored into is an association list.
* A Go `(value, error)` result is an `Except Error value`.
* Reads of the record table and calls into packages that are not part of the
  translated sources are fields of `Store`.
-/

namespace Netmaker

/-! ## The Go `net` package -/

/-- A Go byte. -/
abbrev Byte := Fin 256

/-- Go `net.IP`: a byte slice (nil is `[]`). -/
abbrev IP := List Byte

/-- Go `net.IPMask`: a byte slice (nil is `[]`). -/
abbrev IPMask := List Byte

/-- Go `net.IPNet`. -/
structure IPNet where
  IP : IP
  Mask : IPMask
  deriving DecidableEq, Repr

/-- Go `net.UDPAddr` (the zone is never set by the engine). -/
structure UDPAddr where
  IP : IP
  Port : Int
  deriving DecidableEq, Repr

/-- Go `IP.To4`: the 4-byte form of an IPv4 address, nil when `ip` is not IPv4. -/
def To4 (ip : IP) : IP :=
  if ip.length = 4 then ip
  else if ip.length = 16 ∧ (ip.take 10).all (fun b => b == 0) = true
      ∧ (ip.drop 10).take 2 = [255, 255] then ip.drop 12
  else []

/-- The character of a decimal or hexadecimal digit (`hexDigit` of package net). -/
def hexDigit (d : Nat) : Char :=
  if d < 10 then Char.ofNat (48 + d) else Char.ofNat (87 + d)

/-- Go `ubtoa`: decimal form of a byte. -/
def ubtoa (v : Nat) : List Char :=
  if v < 10 then [hexDigit v]
  else if v < 100 then [hexDigit (v / 10), hexDigit (v % 10)]
  else [hexDigit (v / 100), hexDigit (v / 10 % 10), hexDigit (v % 10)]

/-- Go `appendHex`: lower-case hexadecimal form without leading zeros. -/
def appendHex (i : Nat) : List Char :=
  if i = 0 then ['0']
  else (([7, 6, 5, 4, 3, 2, 1, 0] : List Nat).filter (fun j => decide (0 < i >>> (j * 4)))).map
    (fun j => hexDigit ((i >>> (j * 4)) &&& 15))

/-- Go `hexString`: two hexadecimal digits per byte. -/
def hexString (b : List Byte) : List Char :=
  b.flatMap (fun v => [hexDigit (v.val >>> 4), hexDigit (v.val &&& 15)])

/-- Dotted decimal form of a 4-byte address. -/
def dotted (p4 : List Byte) : List Char :=
  List.intercalate ['.'] (p4.map (fun b => ubtoa b.val))

/-- The eight 16-bit groups of a 16-byte address. -/
def groups : List Byte → List Nat
  | a :: b :: rest => (a.val * 256 + b.val) :: groups rest
  | _ => []

/-- Length of the run of zero groups at the head of a list. -/
def zeroRun : List Nat → Nat
  | 0 :: rest => zeroRun rest + 1
  | _ => 0

/-- The first longest run of zero groups, as `(start, end)`; `(0, 0)` when there is
none. This is the search loop of Go `IP.String` (`e0`, `e1` in group units). -/
def longestZeroRun (gs : List Nat) : Nat × Nat :=
  (List.range gs.length).foldl
    (fun (best : Nat × Nat) i =>
      let j := i + zeroRun (gs.drop i)
      if j - i > best.2 - best.1 then (i, j) else best)
    (0, 0)

/-- IPv6 text form of a 16-byte address, with `::` for the longest run of at
least two zero groups. -/
def ip6String (ip : IP) : List Char :=
  let gs := groups ip
  let e := longestZeroRun gs
  if e.2 - e.1 ≤ 1 then List.intercalate [':'] (gs.map appendHex)
  else List.intercalate [':'] ((gs.take e.1).map appendHex) ++ [':', ':']
    ++ List.intercalate [':'] ((gs.drop e.2).map appendHex)

/-- Characters of Go `IP.String()`. -/
def ipChars (ip : IP) : List Char :=
  if ip.length = 0 then "<nil>".toList
  else if (To4 ip).length = 4 then dotted (To4 ip)
  else if ip.length ≠ 16 then '?' :: hexString ip
  else ip6String ip

/-- Go `IP.String()`. -/
def IP.String (ip : IP) : String := String.mk (ipChars ip)

/-- Go `networkNumberAndMask`; `none` stands for the `(nil, nil)` result. -/
def networkNumberAndMask (n : IPNet) : Option (IP × IPMask) :=
  let ip4 := To4 n.IP
  if ip4 = [] ∧ n.IP.length ≠ 16 then none
  else
    let ip := if ip4 = [] then n.IP else ip4
    if n.Mask.length = 4 then
      if ip.length ≠ 4 then none else some (ip, n.Mask)
    else if n.Mask.length = 16 then
      if ip.length = 4 then some (ip, n.Mask.drop 12) else some (ip, n.Mask)
    else none

/-- Number of leading one bits of a byte, together with the byte shifted left by
that many bits (the inner loop of Go `simpleMaskLength`). -/
def leadingOnes : Nat → Nat → Nat × Nat
  | 0, v => (0, v)
  | fuel + 1, v =>
    if v &&& 128 ≠ 0 then
      let r := leadingOnes fuel ((v <<< 1) % 256)
      (r.1 + 1, r.2)
    else (0, v)

/-- Go `simpleMaskLength`: the prefix length of a canonical mask, `none` for `-1`. -/
def simpleMaskLength : IPMask → Option Nat
  | [] => some 0
  | v :: rest =>
    if v = 255 then (simpleMaskLength rest).map (fun n => n + 8)
    else
      let r := leadingOnes 8 v.val
      if r.2 ≠ 0 then none
      else if rest.all (fun b => b == 0) then some r.1 else none

/-- Characters of Go `IPNet.String()`. -/
def ipNetChars (n : IPNet) : List Char :=
  match networkNumberAndMask n with
  | none => "<nil>".toList
  | some (nn, m) =>
    match simpleMaskLength m with
    | none => ipChars nn ++ '/' :: (if m.length = 0 then "<nil>".toList else hexString m)
    | some l => ipChars nn ++ '/' :: Nat.toDigits 10 l

/-- Go `IPNet.String()`. -/
def IPNet.String (n : IPNet) : String := String.mk (ipNetChars n)

/-- Go `IPNet.Contains`. -/
def IPNet.Contains (n : IPNet) (ip : Netmaker.IP) : Bool :=
  let nm := (networkNumberAndMask n).getD ([], [])
  let x := if To4 ip ≠ [] then To4 ip else ip
  if x.length ≠ nm.1.length then false
  else ((nm.1.zip nm.2).zip x).all (fun t => t.1.1 &&& t.1.2 == t.2 &&& t.1.2)

/-- Go `CIDRMask`. -/
def CIDRMask (ones bits : Nat) : IPMask :=
  if bits ≠ 32 ∧ bits ≠ 128 then []
  else if ones > bits then []
  else (List.range (bits / 8)).map (fun i =>
    if ones ≥ 8 * (i + 1) then (255 : Byte)
    else if ones ≤ 8 * i then (0 : Byte)
    else Fin.ofNat (255 - (255 >>> (ones - 8 * i))))

/-- Go `IP.Mask`. -/
def IP.Mask (ip : IP) (mask : IPMask) : IP :=
  let mask := if mask.length = 16 ∧ ip.length = 4 ∧ (mask.take 12).all (fun b => b == 255) = true
    then mask.drop 12 else mask
  let ip := if mask.length = 4 ∧ ip.length = 16
      ∧ ip.take 12 = [0, 0, 0, 0, 0, 0, 0, 0, 0, 0, 255, 255] then ip.drop 12 else ip
  if ip.length ≠ mask.length then []
  else (ip.zip mask).map (fun t => t.1 &&& t.2)

/-- Go `dtoi` loop: value, number of digits read and the unread rest; `none` when
the value reaches `big = 0xFFFFFF`. -/
def dtoiLoop (n c : Nat) : List Char → Option (Nat × Nat × List Char)
  | [] => some (n, c, [])
  | ch :: cs =>
    if 48 ≤ ch.toNat ∧ ch.toNat ≤ 57 then
      if n * 10 + (ch.toNat - 48) ≥ 16777215 then none
      else dtoiLoop (n * 10 + (ch.toNat - 48)) (c + 1) cs
    else some (n, c, ch :: cs)

/-- Go `dtoi`: leading decimal number of a string. -/
def dtoi (s : List Char) : Option (Nat × Nat × List Char) :=
  match dtoiLoop 0 0 s with
  | some (n, c, rest) => if c = 0 then none else some (n, c, rest)
  | none => none

/-- Value of a hexadecimal digit character, `none` for any other character. -/
def hexVal (ch : Char) : Option Nat :=
  if 48 ≤ ch.toNat ∧ ch.toNat ≤ 57 then some (ch.toNat - 48)
  else if 97 ≤ ch.toNat ∧ ch.toNat ≤ 102 then some (ch.toNat - 97 + 10)
  else if 65 ≤ ch.toNat ∧ ch.toNat ≤ 70 then some (ch.toNat - 65 + 10)
  else none

/-- Go `xtoi` loop. -/
def xtoiLoop (n c : Nat) : List Char → Option (Nat × Nat × List Char)
  | [] => some (n, c, [])
  | ch :: cs =>
    match hexVal ch with
    | some d =>
      if n * 16 + d ≥ 16777215 then none else xtoiLoop (n * 16 + d) (c + 1) cs
    | none => some (n, c, ch :: cs)

/-- Go `xtoi`: leading hexadecimal number of a string. -/
def xtoi (s : List Char) : Option (Nat × Nat × List Char) :=
  match xtoiLoop 0 0 s with
  | some (n, c, rest) => if c = 0 then none else some (n, c, rest)
  | none => none

/-- The separator test of Go `parseIPv4`: before every octet but the first the
string must continue with a dot, which is dropped. -/
def skipDot (first : Bool) (s : List Char) : Option (List Char) :=
  if first then some s
  else
    match s with
    | '.' :: t => some t
    | _ => none

/-- The loop of Go `parseIPv4` from octet `i` on: the octets read from `s`, which
must be used up. `k` is the number of octets still to read. -/
def parseIPv4Loop : Nat → Bool → List Char → Option (List Byte)
  | 0, _, s => if s = [] then some [] else none
  | k + 1, first, s =>
    if s = [] then none
    else
      match skipDot first s with
      | none => none
      | some s1 =>
        match dtoi s1 with
        | none => none
        | some (n, c, rest) =>
          if n > 255 then none
          else if c > 1 ∧ s1.head? = some '0' then none
          else (parseIPv4Loop k false rest).map (fun p => Fin.ofNat n :: p)

/-- The 12-byte prefix of an IPv4 address in 16-byte form. -/
def v4InV6Prefix : List Byte := [0, 0, 0, 0, 0, 0, 0, 0, 0, 0, 255, 255]

/-- Go `parseIPv4`: the 16-byte form of a dotted decimal address, nil on failure. -/
def parseIPv4 (s : List Char) : IP :=
  match parseIPv4Loop 4 true s with
  | some p => v4InV6Prefix ++ p
  | none => []

/-- Go `parseIPv6`, the loop: `ip` holds the bytes written so far (so `i` is its
length), `ellipsis` the position of `::` if one was seen. Returns the bytes
written and the ellipsis position; the caller expands the ellipsis. -/
def parseIPv6Loop : Nat → List Byte → Option Nat → List Char → Option (List Byte × Option Nat)
  | 0, ip, ellipsis, s => if s = [] then some (ip, ellipsis) else none
  | fuel + 1, ip, ellipsis, s =>
    if ip.length ≥ 16 then (if s = [] then some (ip, ellipsis) else none)
    else
      match xtoi s with
      | none => none
      | some (n, _, rest) =>
        if n > 65535 then none
        else if rest.head? = some '.' then
          if ellipsis = none ∧ ip.length ≠ 12 then none
          else if ip.length + 4 > 16 then none
          else
            let ip4 := parseIPv4 s
            if ip4 = [] then none else some (ip ++ ip4.drop 12, ellipsis)
        else
          let ip1 := ip ++ [Fin.ofNat (n >>> 8), Fin.ofNat n]
          match rest with
          | [] => some (ip1, ellipsis)
          | c0 :: t =>
            if c0 ≠ ':' ∨ t = [] then none
            else
              match t with
              | ':' :: t2 =>
                if ellipsis.isSome then none
                else if t2 = [] then some (ip1, some ip1.length)
                else parseIPv6Loop fuel ip1 (some ip1.length) t2
              | _ => parseIPv6Loop fuel ip1 ellipsis t

/-- The leading ellipsis test of Go `parseIPv6`: the ellipsis position and the rest
of the string. -/
def leadingEllipsis (s : List Char) : Option Nat × List Char :=
  match s with
  | ':' :: ':' :: t => (some 0, t)
  | _ => (none, s)

/-- The end of Go `parseIPv6`: expand the ellipsis when fewer than 16 bytes were
parsed; an ellipsis that stands for no group is an error. -/
def expandEllipsis (ip : List Byte) (ellipsis : Option Nat) : IP :=
  if ip.length < 16 then
    match ellipsis with
    | none => []
    | some e => ip.take e ++ List.replicate (16 - ip.length) 0 ++ ip.drop e
  else if ellipsis.isSome then []
  else ip

/-- Go `parseIPv6`. -/
def parseIPv6 (s : List Char) : IP :=
  let start := leadingEllipsis s
  if start.1.isSome ∧ start.2 = [] then List.replicate 16 0
  else
    match parseIPv6Loop 16 [] start.1 start.2 with
    | none => []
    | some (ip, ellipsis) => expandEllipsis ip ellipsis

/-- Go `net.ParseIP` (the zone-free textual forms). -/
def parseIPChars (s : List Char) : IP :=
  match s.find? (fun ch => ch = '.' ∨ ch = ':') with
  | some '.' => parseIPv4 s
  | some _ => parseIPv6 s
  | none => []

/-- Go `net.ParseIP`. -/
def ParseIP (s : String) : IP := parseIPChars s.toList

/-- Go `net.ParseCIDR`, the network part of the result; `none` is the error. -/
def parseCIDRChars (s : List Char) : Option IPNet :=
  if '/' ∉ s then none
  else
    let addr := s.takeWhile (fun ch => ch ≠ '/')
    let mask := (s.dropWhile (fun ch => ch ≠ '/')).drop 1
    let ip4 := parseIPv4 addr
    let iplen := if ip4 = [] then 16 else 4
    let ip := if ip4 = [] then parseIPv6 addr else ip4
    match dtoi mask with
    | none => none
    | some (n, _, rest) =>
      if ip = [] ∨ rest ≠ [] ∨ n > 8 * iplen then none
      else some { IP := IP.Mask ip (CIDRMask n (8 * iplen)), Mask := CIDRMask n (8 * iplen) }

/-- Go `net.ParseCIDR`. -/
def ParseCIDR (s : String) : Option IPNet := parseCIDRChars s.toList

/-- Go `strings.Split` on a one-character separator. -/
def splitChars (sep : Char) : List Char → List (List Char)
  | [] => [[]]
  | c :: cs =>
    if c = sep then [] :: splitChars sep cs
    else
      match splitChars sep cs with
      | [] => [[c]]
      | f :: fs => (c :: f) :: fs

/-! ## Data model (`models`) -/

/-- A Go `error`. `nilDereference` and `indexOutOfRange` stand for the run-time
panics of a call that dereferences a nil pointer or indexes past a slice. -/
inductive Error where
  | emptyRecord
  | other (msg : String)
  | nilDereference
  | indexOutOfRange
  deriving DecidableEq, Repr

deriving instance DecidableEq for Except

/-- A `wgtypes.Key`, identified with its `String()` form (base64 of the 32 key
bytes, which determines the key). -/
abbrev Key := String

/-- A Go map with string keys that is only read by key and stored into. -/
abbrev GoMap (β : Type) := List (String × β)

/-- Go `m[k]` with the presence flag. -/
def mapGet {β : Type} (m : GoMap β) (k : String) : Option β :=
  match m with
  | [] => none
  | (k1, v) :: rest => if k1 = k then some v else mapGet rest k

/-- Go `m[k] = v`. -/
def mapSet {β : Type} (m : GoMap β) (k : String) (v : β) : GoMap β :=
  match m with
  | [] => [(k, v)]
  | (k1, v1) :: rest => if k1 = k then (k, v) :: rest else (k1, v1) :: mapSet rest k v

/-- Go `time.Time` as an instant: the nanoseconds since the zero time (January 1,
year 1, 00:00:00 UTC), so `IsZero` is `= 0` and `Before` is `<`. -/
abbrev Time := Int

/-- Modelled from the spec: the declaration of `models.Iface` is not among the
sources; an entry of the `interfaces[]` of a host, with the fields `mq.Ping` uses. -/
structure Iface where
  Name : String := ""
  Address : IPNet := ⟨[], []⟩
  AddressString : String := ""
  deriving DecidableEq, Repr

/-- Modelled from the spec: the declaration of `models.Host` is not among the
sources. The fields are those of the spec's data model that the engine reads, with
the types their uses in `logic/peers.go`, `logic/hosts.go` and `mq/handlers.go`
require; ids are in their string form. -/
structure Host where
  ID : String := ""
  Name : String := ""
  PublicKey : Key := ""
  EndpointIP : IP := []
  ListenPort : Int := 0
  LocalListenPort : Int := 0
  ProxyListenPort : Int := 0
  ProxyEnabled : Bool := false
  IsRelay : Bool := false
  IsRelayed : Bool := false
  RelayedBy : String := ""
  Nodes : List String := []
  Version : String := ""
  OS : String := ""
  HostPass : String := ""
  MTU : Int := 0
  LocalRange : IPNet := ⟨[], []⟩
  MacAddress : List Byte := []
  TrafficKeyPublic : List Byte := []
  InternetGateway : UDPAddr := ⟨[], 0⟩
  IPForwarding : Bool := false
  DaemonInstalled : Bool := false
  Debug : Bool := false
  Interfaces : List Iface := []
  deriving DecidableEq, Repr

/-- Modelled from the spec: the declaration of `models.Node` is not among the
sources. The fields are those of the spec's data model that the engine reads, with
the types their uses in `logic/peers.go` require: the addresses are `net.IPNet`
values (`Address.IP`, `LocalAddress.IP`, `LocalAddress.String()`), and
`IngressGatewayRange` is a single string (it is passed to `strings.Contains` in
`GetPeerUpdateForRelayedNode`). `LastCheckIn` and `Action` are the fields
`mq/handlers.go` sets; ids, `FailoverNode` among them, are in their string form. -/
structure Node where
  ID : String := ""
  HostID : String := ""
  Network : String := ""
  Address : IPNet := ⟨[], []⟩
  Address6 : IPNet := ⟨[], []⟩
  LocalAddress : IPNet := ⟨[], []⟩
  Connected : Bool := false
  PendingDelete : Bool := false
  PersistentKeepalive : Int := 0
  IsIngressGateway : Bool := false
  IsEgressGateway : Bool := false
  IngressGatewayRange : String := ""
  EgressGatewayRanges : List String := []
  Failover : Bool := false
  FailoverNode : String := ""
  Server : String := ""
  LastCheckIn : Time := 0
  Action : String := ""
  deriving DecidableEq, Repr

/-- Modelled from the spec: the declaration of `models.ExtClient` is not among the
sources; all fields the engine reads are strings. -/
structure ExtClient where
  PublicKey : String := ""
  Address : String := ""
  Address6 : String := ""
  InternalIPAddr : String := ""
  InternalIPAddr6 : String := ""
  IngressGatewayID : String := ""
  IngressGatewayEndpoint : String := ""
  ClientID : String := ""
  Network : String := ""
  deriving DecidableEq, Repr

/-- Modelled from the spec: the declaration of `models.Metric` is not among the
sources; the connectivity of one peer, with the fields `updateNodeMetrics` works on.
`PercentUp` (a float64) and `ActualUptime`, which that function derives from
`Uptime` and `TotalTime` and which nothing reads, are left out. -/
structure Metric where
  NodeName : String := ""
  Uptime : Int := 0
  TotalTime : Int := 0
  Latency : Int := 0
  TotalReceived : Int := 0
  TotalSent : Int := 0
  Connected : Bool := false
  CollectedByProxy : Bool := false
  deriving DecidableEq, Repr

/-- Modelled from the spec: the declaration of `models.Metrics` is not among the
sources; the fields read by the engine. A nil `Connectivity` map is `none`: reading
it gives zero values, writing to it panics. -/
structure Metrics where
  NodeName : String := ""
  FailoverPeers : GoMap String := []
  Connectivity : Option (GoMap Metric) := none
  deriving DecidableEq, Repr

/-- Modelled from the spec: the declaration of `models.NodeCheckin` is not among the
sources; the fields `mq.Ping` reads. -/
structure NodeCheckin where
  Version : String := ""
  Connected : Bool := false
  Ifaces : List Iface := []
  deriving DecidableEq, Repr

/-- EnrollmentKey - the key used to register hosts and join them to specific
networks. A nil slice is `none`. -/
structure EnrollmentKey where
  Expiration : Time := 0
  UsesRemaining : Int := 0
  Value : String := ""
  Networks : Option (List String) := none
  Unlimited : Bool := false
  Tags : Option (List String) := none
  Token : String := ""
  deriving DecidableEq, Repr

/-- Modelled from the spec: the declaration of the custom DNS entry
(`models.DNSEntry`) is not among the sources; the fields `getPeerDNS` prints. -/
structure DNSEntry where
  Address : String := ""
  Name : String := ""
  Network : String := ""
  deriving DecidableEq, Repr

/-- Go `wgtypes.PeerConfig`, the fields the engine sets. The pointer
`PersistentKeepaliveInterval` is recorded as the duration it points to when the
function that built the config returns (`none` is the nil pointer). -/
structure PeerConfig where
  PublicKey : Key := ""
  Endpoint : Option UDPAddr := none
  PersistentKeepaliveInterval : Option Int := none
  ReplaceAllowedIPs : Bool := false
  AllowedIPs : List IPNet := []
  deriving DecidableEq, Repr

/-- Modelled from the spec: the declaration of `models.IDandAddr` is not among the
sources; the fields the engine sets. -/
structure IDandAddr where
  Name : String := ""
  Address : String := ""
  ID : String := ""
  IsServer : String := ""
  Network : String := ""
  deriving DecidableEq, Repr

/-- Modelled from the spec: the declaration of `models.NetworkInfo` is not among
the sources; the field the engine sets. -/
structure NetworkInfo where
  DNS : String := ""
  deriving DecidableEq, Repr

/-- Modelled from the spec: the declaration of `models.HostPeerUpdate` is not among
the sources; the fields the engine sets (`ServerAddrs` is always the empty list
and is left out). -/
structure HostPeerUpdate where
  Host : Host := {}
  Network : GoMap NetworkInfo := []
  ServerVersion : String := ""
  PeerIDs : GoMap (GoMap IDandAddr) := []
  Peers : List PeerConfig := []
  deriving DecidableEq, Repr

/-- Modelled from the spec: the declaration of `models.PeerUpdate` is not among the
sources; the fields the engine sets (`ServerAddrs` is always the empty list and is
left out). -/
structure PeerUpdate where
  Network : String := ""
  ServerVersion : String := ""
  Peers : List PeerConfig := []
  DNS : String := ""
  PeerIDs : GoMap IDandAddr := []
  deriving DecidableEq, Repr

/-! ## The store snapshot and the packages outside the translated sources -/

/-- A snapshot of the record table as the engine reads it, with the functions of
packages whose source is not part of the translation. -/
structure Store where
  /-- The `database.FetchRecord` of the hosts table followed by `json.Unmarshal`. -/
  FetchHost : String → Except Error Host
  /-- The call `logic.GetNodeByID`. -/
  GetNodeByID : String → Except Error Node
  /-- The call `logic.GetNetworkNodes`. -/
  GetNetworkNodes : String → Except Error (List Node)
  /-- The call `nodeacls.AreNodesAllowed(network, node1, node2)`. -/
  AreNodesAllowed : String → String → String → Bool
  /-- The call `logic.GetNetworkExtClients`. -/
  GetNetworkExtClients : String → Except Error (List ExtClient)
  /-- The call `logic.GetCustomDNS`. -/
  GetCustomDNS : String → Except Error (List DNSEntry)
  /-- The call `logic.GetMetrics`: the pointer (nil is `none`) and the error. -/
  GetMetrics : String → Option Metrics × Option Error
  /-- The map of `database.GetPeers`; its error is only logged. -/
  GetPeers : String → GoMap String
  /-- The call `logic.IsFailoverPresent`. -/
  IsFailoverPresent : String → Bool
  /-- The call `logic.CheckEndpoint`. -/
  CheckEndpoint : String → Bool
  /-- The call `net.ResolveUDPAddr("udp", _)`. -/
  ResolveUDPAddr : String → Except Error UDPAddr
  /-- The call `strconv.Atoi`. -/
  Atoi : String → Option Int
  /-- The call `wgtypes.ParseKey`. -/
  ParseKey : String → Option Key
  /-- The method `Node.PrimaryAddress`. -/
  PrimaryAddress : Node → String
  /-- The `%s` form of a `net.IPNet` value under `fmt.Sprintf`. -/
  FormatIPNet : IPNet → String
  /-- The flag `servercfg.Is_EE`. -/
  Is_EE : Bool
  /-- The server version (`servercfg.GetVersion()`, `servercfg.Version`). -/
  Version : String
  /-- The constant `ncutils.Version`. -/
  NcVersion : String
  /-- The constant `proxy_models.NmProxyPort`, the canonical proxy port. -/
  NmProxyPort : Int
  /-- The call `logic.GetRelayedHosts`. -/
  GetRelayedHosts : Host → List Host
  /-- The constant `models.WIREGUARD_INTERFACE`. -/
  WireguardInterface : String
  /-- The `database.FetchRecords` of the hosts table: the records by key, each with
  the result of its `json.Unmarshal`. -/
  FetchHosts : Except Error (List (String × Except Error Host))
  /-- The call `logic.GetExtClientsByID(nodeid, network)`. -/
  GetExtClientsByID : String → String → Except Error (List ExtClient)
  /-- The call `logic.GetHostByNodeID`: the pointer, nil is `none`. -/
  GetHostByNodeID : String → Option Host
  /-- The value `int64(math.Abs(float64(a) - float64(b)))`. -/
  Float64AbsDiff : Int → Int → Int

/-- GetHost - gets a host from db given id. -/
def GetHost (s : Store) (hostid : String) : Except Error Host :=
  s.FetchHost hostid

/-- Go `(*Host, error)` result with the error dropped: the pointer, nil on error. -/
def hostPtr (r : Except Error Host) : Option Host :=
  match r with
  | .ok h => some h
  | .error _ => none

/-! ## `logic/peers.go` -/

/-- One iteration of the loop of `getEgressIPs` over `peer.EgressGatewayRanges`.
`host` and `peerHost` are the pointers returned by `GetHost` (nil on error); the
engine dereferences `peerHost` for every range that parses and `host` when it logs
an omitted range. -/
def egressStep (host peerHost : Option Host) (node : Node) (internetGateway : Bool)
    (allowedips : List IPNet) (iprange : String) : Except Error (List IPNet) :=
  match ParseCIDR iprange with
  | none => .ok allowedips
  | some ipnet =>
    match peerHost with
    | none => .error .nilDereference
    | some peerHost =>
      let nodeEndpointArr := splitChars ':' peerHost.EndpointIP.String.toList
      if ipnet.Contains (parseIPChars (nodeEndpointArr.headD [])) && !internetGateway then
        match host with
        | none => .error .nilDereference
        | some _ => .ok allowedips
      else if ipnet.Contains (ParseIP node.LocalAddress.String) && !internetGateway then
        .ok allowedips
      else .ok (allowedips ++ [ipnet])

/-- The loop of `getEgressIPs`. -/
def egressLoop (host peerHost : Option Host) (node : Node) (internetGateway : Bool) :
    List String → List IPNet → Except Error (List IPNet)
  | [], allowedips => .ok allowedips
  | iprange :: rest, allowedips =>
    match egressStep host peerHost node internetGateway allowedips iprange with
    | .error e => .error e
    | .ok allowedips => egressLoop host peerHost node internetGateway rest allowedips

/-- The function `getEgressIPs(node, peer)`. -/
def getEgressIPs (s : Store) (node peer : Node) : Except Error (List IPNet) :=
  let host := hostPtr (GetHost s node.HostID)
  let peerHost := hostPtr (GetHost s peer.HostID)
  let internetGateway :=
    if peer.EgressGatewayRanges.contains "0.0.0.0/0" || peer.EgressGatewayRanges.contains "::/0"
    then true else false
  egressLoop host peerHost node internetGateway peer.EgressGatewayRanges []

/-- The function `getNodeAllowedIPs(peer, node)`. -/
def getNodeAllowedIPs (s : Store) (peer node : Node) : Except Error (List IPNet) :=
  let allowedips : List IPNet := []
  let allowedips :=
    if peer.Address.IP ≠ [] then allowedips ++ [{ IP := peer.Address.IP, Mask := CIDRMask 32 32 }]
    else allowedips
  let allowedips :=
    if peer.Address6.IP ≠ [] then
      allowedips ++ [{ IP := peer.Address6.IP, Mask := CIDRMask 128 128 }]
    else allowedips
  if peer.IsEgressGateway then
    match getEgressIPs s node peer with
    | .error e => .error e
    | .ok egressIPs => .ok (allowedips ++ egressIPs)
  else .ok allowedips

/-- The function `getPeerDNS(network)`. -/
def getPeerDNS (s : Store) (network : String) : String :=
  let dns := ""
  let dns :=
    match s.GetNetworkNodes network with
    | .ok nodes =>
      nodes.foldl (fun dns node =>
        match GetHost s node.HostID with
        | .error _ => dns
        | .ok host => dns ++ (s.FormatIPNet node.Address ++ " " ++ host.Name ++ "." ++ node.Network ++ "\n"))
        dns
    | .error _ => dns
  match s.GetCustomDNS network with
  | .ok customDNSEntries =>
    customDNSEntries.foldl (fun dns entry =>
      dns ++ (entry.Address ++ " " ++ entry.Name ++ "." ++ entry.Network ++ "\n")) dns
  | .error _ => dns

/-- The ranges added for an ingress gateway peer: the loop
`for _, entry := range peer.IngressGatewayRange` runs over the characters of the
string and parses `string(entry)`, the one-character string. -/
def ingressRanges (peer : Node) : List IPNet :=
  peer.IngressGatewayRange.toList.filterMap (fun entry => ParseCIDR (String.mk [entry]))

/-- The allowed IPs that `GetPeerUpdateForHost` and `GetPeerUpdate` compute for one
peer (`allowedips` up to the assignment `peerConfig.AllowedIPs = allowedips`). -/
def peerAllowedIPs (s : Store) (node peer : Node) : Except Error (List IPNet) :=
  match getNodeAllowedIPs s peer node with
  | .error e => .error e
  | .ok allowedips =>
    let allowedips := if peer.IsIngressGateway then allowedips ++ ingressRanges peer else allowedips
    if peer.IsEgressGateway then
      match getEgressIPs s node peer with
      | .error e => .error e
      | .ok egressIPs => .ok (allowedips ++ egressIPs)
    else .ok allowedips

/-- The flag `uselocal` of `GetPeerUpdateForHost` and `GetPeerUpdate`. -/
def useLocal (host peerHost : Host) (node peer : Node) : Bool :=
  let uselocal := false
  if host.EndpointIP.String = peerHost.EndpointIP.String then
    let uselocal := true
    let uselocal := if node.LocalAddress.IP = [] then false else uselocal
    let uselocal := if node.LocalAddress.String = peer.LocalAddress.String then false else uselocal
    uselocal
  else uselocal

/-- The endpoint that `GetPeerUpdateForHost` gives the peer config. -/
def hostPeerEndpoint (s : Store) (host peerHost : Host) (node peer : Node) : UDPAddr :=
  let endpoint : UDPAddr := { IP := peerHost.EndpointIP, Port := peerHost.ListenPort }
  let endpoint :=
    if !host.ProxyEnabled && peerHost.ProxyEnabled then
      if peerHost.ProxyListenPort = 0 then { endpoint with Port := s.NmProxyPort }
      else { endpoint with Port := peerHost.ProxyListenPort }
    else endpoint
  if useLocal host peerHost node peer then { endpoint with IP := peer.LocalAddress.IP }
  else endpoint

/-- The duration behind `&peer.PersistentKeepalive` when `GetPeerUpdateForHost` or
`GetPeerUpdate` returns. `peer` is the one variable of the loop
`for _, peer := range currentPeers`, so every config built in the loop points at the
same field, and once the loop is through that field holds the keepalive of the last
node of `currentPeers`, the nodes of the network of `node`. -/
def rangeKeepalive (s : Store) (node : Node) : Int :=
  match s.GetNetworkNodes node.Network with
  | .ok currentPeers =>
    match currentPeers.getLast? with
    | some peer => peer.PersistentKeepalive
    | none => 0
  | .error _ => 0

/-- The local state of `GetPeerUpdateForHost`: the update under construction and
`peerIndexMap`. -/
structure HostLoop where
  upd : HostPeerUpdate
  peerIndexMap : GoMap Nat
  deriving DecidableEq, Repr

/-- The entry stored in `PeerIDs[peerHost.PublicKey][peer.ID]`. -/
def idAndAddr (s : Store) (peerHost : Host) (peer : Node) : IDandAddr :=
  { ID := peer.ID, Address := s.PrimaryAddress peer, Name := peerHost.Name, Network := peer.Network }

/-- The body of the peer loop of `GetPeerUpdateForHost` after the skips: build the
peer config and coalesce it by public key. The keepalive of the config is the
pointer `&peer.PersistentKeepalive` to the range variable of the loop, read as
`rangeKeepalive` gives it. -/
def addPeer (s : Store) (host : Host) (node : Node) (st : HostLoop) (peer : Node)
    (peerHost : Host) : Except Error HostLoop :=
  match peerAllowedIPs s node peer with
  | .error e => .error e
  | .ok allowedips =>
    let peerConfig : PeerConfig :=
      { PublicKey := peerHost.PublicKey
        PersistentKeepaliveInterval := some (rangeKeepalive s node)
        ReplaceAllowedIPs := true
        Endpoint := some (hostPeerEndpoint s host peerHost node peer)
        AllowedIPs := allowedips }
    match mapGet st.upd.PeerIDs peerHost.PublicKey with
    | none =>
      let peers := st.upd.Peers ++ [peerConfig]
      .ok { upd := { st.upd with
                Peers := peers
                PeerIDs := mapSet st.upd.PeerIDs peerHost.PublicKey
                  (mapSet [] peer.ID (idAndAddr s peerHost peer)) }
            peerIndexMap := mapSet st.peerIndexMap peerHost.PublicKey (peers.length - 1) }
    | some ids =>
      let idx := (mapGet st.peerIndexMap peerHost.PublicKey).getD 0
      match st.upd.Peers.get? idx with
      | none => .error .indexOutOfRange
      | some p =>
        .ok { st with
          upd := { st.upd with
            Peers := st.upd.Peers.set idx { p with AllowedIPs := p.AllowedIPs ++ allowedips }
            PeerIDs := mapSet st.upd.PeerIDs peerHost.PublicKey
              (mapSet ids peer.ID (idAndAddr s peerHost peer)) } }

/-- One iteration of the loop over `currentPeers` in `GetPeerUpdateForHost`. -/
def peerStep (s : Store) (host : Host) (node : Node) (st : HostLoop) (peer : Node) :
    Except Error HostLoop :=
  if peer.ID = node.ID then .ok st
  else
    match GetHost s peer.HostID with
    | .error e => .error e
    | .ok peerHost =>
      if !peer.Connected then .ok st
      else if !s.AreNodesAllowed node.Network node.ID peer.ID then .ok st
      else addPeer s host node st peer peerHost

/-- The loop over `currentPeers` in `GetPeerUpdateForHost`. -/
def peerLoop (s : Store) (host : Host) (node : Node) :
    List Node → HostLoop → Except Error HostLoop
  | [], st => .ok st
  | peer :: rest, st =>
    match peerStep s host node st peer with
    | .error e => .error e
    | .ok st => peerLoop s host node rest st

/-- One iteration of the loop over `host.Nodes` in `GetPeerUpdateForHost`. -/
def nodeStep (s : Store) (host : Host) (st : HostLoop) (nodeID : String) :
    Except Error HostLoop :=
  match s.GetNodeByID nodeID with
  | .error _ => .ok st
  | .ok node =>
    if !node.Connected then .ok st
    else
      let st := { st with upd := { st.upd with
        Network := mapSet st.upd.Network node.Network { DNS := getPeerDNS s node.Network } } }
      match s.GetNetworkNodes node.Network with
      | .error e => .error e
      | .ok currentPeers => peerLoop s host node currentPeers st

/-- The loop over `host.Nodes` in `GetPeerUpdateForHost`. -/
def nodeLoop (s : Store) (host : Host) : List String → HostLoop → Except Error HostLoop
  | [], st => .ok st
  | nodeID :: rest, st =>
    match nodeStep s host st nodeID with
    | .error e => .error e
    | .ok st => nodeLoop s host rest st

/-- GetPeerUpdateForHost - gets the consolidated peer update for the host from all
networks. The argument is the `*models.Host` pointer. -/
def GetPeerUpdateForHost (s : Store) (host : Option Host) : Except Error HostPeerUpdate :=
  match host with
  | none => .error (.other "host is nil")
  | some host =>
    let hostPeerUpdate : HostPeerUpdate :=
      { Host := host, Network := [], PeerIDs := [], ServerVersion := s.Version }
    match nodeLoop s host host.Nodes { upd := hostPeerUpdate, peerIndexMap := [] } with
    | .error e => .error e
    | .ok st => .ok st.upd

/-- The endpoint that `GetPeerUpdate` gives the peer config. -/
def nodePeerEndpoint (host peerHost : Host) (node peer : Node) : UDPAddr :=
  let endpoint : UDPAddr := { IP := peerHost.EndpointIP, Port := peerHost.ListenPort }
  let endpoint :=
    if !host.ProxyEnabled && peerHost.ProxyEnabled then
      { endpoint with Port := peerHost.ProxyListenPort }
    else endpoint
  if useLocal host peerHost node peer then { endpoint with IP := peer.LocalAddress.IP }
  else endpoint

/-- One iteration of the loop of `GetPeerUpdate`. The keepalive of the config is the
pointer `&peer.PersistentKeepalive` to the range variable of the loop, read as
`rangeKeepalive` gives it. -/
def updateStep (s : Store) (node : Node) (host : Host) (peers : List PeerConfig) (peer : Node) :
    Except Error (List PeerConfig) :=
  match GetHost s peer.HostID with
  | .error e => .error e
  | .ok peerHost =>
    if peer.ID = node.ID then .ok peers
    else if !peer.Connected then .ok peers
    else if !s.AreNodesAllowed node.Network node.ID peer.ID then .ok peers
    else
      match peerAllowedIPs s node peer with
      | .error e => .error e
      | .ok allowedips =>
        .ok (peers ++ [{ PublicKey := peerHost.PublicKey
                         PersistentKeepaliveInterval := some (rangeKeepalive s node)
                         ReplaceAllowedIPs := true
                         Endpoint := some (nodePeerEndpoint host peerHost node peer)
                         AllowedIPs := allowedips }])

/-- The loop of `GetPeerUpdate`. -/
def updateLoop (s : Store) (node : Node) (host : Host) :
    List Node → List PeerConfig → Except Error (List PeerConfig)
  | [], peers => .ok peers
  | peer :: rest, peers =>
    match updateStep s node host peers peer with
    | .error e => .error e
    | .ok peers => updateLoop s node host rest peers

/-- GetPeerUpdate - gets a wireguard peer config for each peer of a node. -/
def GetPeerUpdate (s : Store) (node : Node) (host : Host) : Except Error PeerUpdate :=
  match s.GetNetworkNodes node.Network with
  | .error e => .error e
  | .ok currentPeers =>
    match updateLoop s node host currentPeers [] with
    | .error e => .error e
    | .ok peers =>
      .ok { Network := node.Network, ServerVersion := s.NcVersion
            DNS := getPeerDNS s node.Network, Peers := peers }

/-- The allowed IP `{ParseIP(addr), CIDRMask(ones, bits)}` that `getExtPeers` adds
when the address is set and parses. -/
def extAllowed (addr : String) (ones bits : Nat) : List IPNet :=
  if addr ≠ "" then
    if ParseIP addr ≠ [] ∧ CIDRMask ones bits ≠ [] then
      [{ IP := ParseIP addr, Mask := CIDRMask ones bits }]
    else []
  else []

/-- The allowed IPs that `getExtPeers` gives one external client. -/
def extAllowedIPs (forIngressNode : Bool) (extPeer : ExtClient) : List IPNet :=
  let allowedips : List IPNet := []
  let allowedips :=
    if forIngressNode then allowedips ++ extAllowed extPeer.Address 32 32 else allowedips
  let allowedips :=
    if forIngressNode then allowedips ++ extAllowed extPeer.Address6 128 128 else allowedips
  if !forIngressNode then
    allowedips ++ extAllowed extPeer.InternalIPAddr 32 32 ++ extAllowed extPeer.InternalIPAddr6 32 32
  else allowedips

/-- One iteration of the loop of `getExtPeers`: the peer and id entry appended for an
external client, `none` when the client is skipped. -/
def extPeerStep (s : Store) (host : Host) (forIngressNode : Bool) (extPeer : ExtClient) :
    Option (PeerConfig × IDandAddr) :=
  match s.ParseKey extPeer.PublicKey with
  | none => none
  | some pubkey =>
    if host.PublicKey = extPeer.PublicKey then none
    else
      let primaryAddr := if extPeer.Address = "" then extPeer.Address6 else extPeer.Address
      some ({ PublicKey := pubkey, ReplaceAllowedIPs := true
              AllowedIPs := extAllowedIPs forIngressNode extPeer },
            { ID := pubkey, Address := primaryAddr })

/-- The function `getExtPeers(node, forIngressNode)`; on an error the two slices it
returns are nil. -/
def getExtPeers (s : Store) (node : Node) (forIngressNode : Bool) :
    Except Error (List PeerConfig × List IDandAddr) :=
  match s.GetNetworkExtClients node.Network with
  | .error e => .error e
  | .ok extPeers =>
    match GetHost s node.HostID with
    | .error e => .error e
    | .ok host =>
      let out := extPeers.filterMap (extPeerStep s host forIngressNode)
      .ok (out.map Prod.fst, out.map Prod.snd)

/-- The loop `for k := range metrics.FailoverPeers` of `GetAllowedIPs` (in the
order of the association list). -/
def failoverLoop (s : Store) (peer : Node) (metrics : Metrics) :
    List (String × String) → List IPNet → Except Error (List IPNet)
  | [], allowedips => .ok allowedips
  | (k, _) :: rest, allowedips =>
    if (mapGet metrics.FailoverPeers k).getD "" = peer.ID then
      match s.GetNodeByID k with
      | .error _ => failoverLoop s peer metrics rest allowedips
      | .ok nodeToFailover =>
        match s.GetMetrics nodeToFailover.ID with
        | (some failoverNodeMetrics, none) =>
          if failoverNodeMetrics.NodeName.length > 0 then
            match getNodeAllowedIPs s nodeToFailover peer with
            | .error e => .error e
            | .ok ips => failoverLoop s peer metrics rest (allowedips ++ ips)
          else failoverLoop s peer metrics rest allowedips
        | _ => failoverLoop s peer metrics rest allowedips
    else failoverLoop s peer metrics rest allowedips

/-- GetAllowedIPs - calculates the wireguard allowedip field for a peer of a node
based on the peer and node settings. `metrics` is the pointer argument. -/
def GetAllowedIPs (s : Store) (node peer : Node) (metrics : Option Metrics)
    (_fetchRelayedIps : Bool) : Except Error (List IPNet) :=
  match getNodeAllowedIPs s peer node with
  | .error e => .error e
  | .ok allowedips =>
    if peer.IsIngressGateway then
      let extPeers :=
        match getExtPeers s peer false with
        | .ok r => r.1
        | .error _ => []
      let allowedips := allowedips ++ extPeers.flatMap (fun extPeer => extPeer.AllowedIPs)
      match metrics with
      | some metrics =>
        if peer.Failover then failoverLoop s peer metrics metrics.FailoverPeers allowedips
        else .ok allowedips
      | none => .ok allowedips
    else .ok allowedips

/-- Go `sort.SliceStable`, insertion step: `x` goes before the first element that
is not less than it. -/
def insertStable {α : Type} (less : α → α → Bool) (x : α) : List α → List α
  | [] => [x]
  | y :: ys => if less y x then y :: insertStable less x ys else x :: y :: ys

/-- Go `sort.SliceStable`: the stable sort by `less` (stable insertion sort; the
result of a stable sort does not depend on the algorithm). -/
def sliceStable {α : Type} (less : α → α → Bool) : List α → List α
  | [] => []
  | x :: xs => insertStable less x (sliceStable less xs)

/-- The comparison `peers[i].PublicKey.String() < peers[j].PublicKey.String()`. -/
def keyLess (a b : PeerConfig) : Bool :=
  decide (a.PublicKey.toList < b.PublicKey.toList)

/-- The state of the peer loop of `GetPeerUpdateLegacy`. -/
structure LegacyLoop where
  peers : List PeerConfig
  peerMap : GoMap IDandAddr
  deriving DecidableEq, Repr

/-- The listen port of the peer host after the UDP hole punching adjustments of
`GetPeerUpdateLegacy`. -/
def legacyListenPort (s : Store) (udppeers : GoMap String) (peerHost : Host) : Int :=
  let endpointstring := (mapGet udppeers peerHost.PublicKey).getD ""
  let r : Bool × Int :=
    if s.CheckEndpoint endpointstring then
      match splitChars ':' endpointstring.toList with
      | [_, port] =>
        match s.Atoi (String.mk port) with
        | some port => (true, port)
        | none => (false, peerHost.ListenPort)
      | _ => (false, peerHost.ListenPort)
    else (false, peerHost.ListenPort)
  if (!r.1 || r.2 = 0) && peerHost.LocalListenPort ≠ 0 then peerHost.LocalListenPort else r.2

/-- One iteration of the peer loop of `GetPeerUpdateLegacy`. -/
def legacyStep (s : Store) (node : Node) (metrics : Metrics) (udppeers : GoMap String)
    (st : LegacyLoop) (peer : Node) : Except Error LegacyLoop :=
  match GetHost s peer.HostID with
  | .error e => .error e
  | .ok peerHost =>
    if peer.ID = node.ID then .ok st
    else if node.Connected then .ok st
    else if !s.AreNodesAllowed node.Network node.ID peer.ID then .ok st
    else if ((mapGet metrics.FailoverPeers peer.ID).getD "").length > 0
        && s.IsFailoverPresent node.Network then .ok st
    else
      match GetHost s node.HostID with
      | .error e => .error e
      | .ok host =>
        let adjusted : Option Host :=
          if host.EndpointIP.String = peerHost.EndpointIP.String then
            if node.LocalAddress.String ≠ peer.LocalAddress.String ∧ peer.LocalAddress.IP ≠ [] then
              some { peerHost with
                EndpointIP := peer.LocalAddress.IP
                ListenPort := if peerHost.LocalListenPort ≠ 0 then peerHost.LocalListenPort
                  else peerHost.ListenPort }
            else none
          else some peerHost
        match adjusted with
        | none => .ok st
        | some peerHost =>
          let peerHost := { peerHost with ListenPort := legacyListenPort s udppeers peerHost }
          let endpoint := peerHost.EndpointIP.String ++ ":" ++ toString peerHost.ListenPort
          match s.ResolveUDPAddr endpoint with
          | .error e => .error e
          | .ok address =>
            let fetchRelayedIps := if host.ProxyEnabled then false else true
            match GetAllowedIPs s node peer (some metrics) fetchRelayedIps with
            | .error e => .error e
            | .ok allowedips =>
              let keepalive : Int :=
                if node.PersistentKeepalive ≠ 0 then node.PersistentKeepalive else 0
              .ok { peers := st.peers ++ [{ PublicKey := peerHost.PublicKey
                                            Endpoint := some address
                                            ReplaceAllowedIPs := true
                                            AllowedIPs := allowedips
                                            PersistentKeepaliveInterval := some keepalive }]
                    peerMap := mapSet st.peerMap peerHost.PublicKey
                      { Name := peerHost.Name, ID := peer.ID
                        Address := s.PrimaryAddress peer, IsServer := "no" } }

/-- The peer loop of `GetPeerUpdateLegacy`. -/
def legacyLoop (s : Store) (node : Node) (metrics : Metrics) (udppeers : GoMap String) :
    List Node → LegacyLoop → Except Error LegacyLoop
  | [], st => .ok st
  | peer :: rest, st =>
    match legacyStep s node metrics udppeers st peer with
    | .error e => .error e
    | .ok st => legacyLoop s node metrics udppeers rest st

/-- The metrics `GetPeerUpdateLegacy` works with: those of the node on an
enterprise server when present, the zero value otherwise. -/
def legacyMetrics (s : Store) (node : Node) : Metrics :=
  let metrics : Option Metrics := if s.Is_EE then (s.GetMetrics node.ID).1 else none
  match metrics with
  | some m => m
  | none => {}

/-- The peers and peer map of `GetPeerUpdateLegacy` before the sort: the host
peers followed, for an ingress gateway, by the external-client peers. -/
def legacyCollect (s : Store) (node : Node) : Except Error LegacyLoop :=
  match s.GetNetworkNodes node.Network with
  | .error e => .error e
  | .ok currentPeers =>
    match legacyLoop s node (legacyMetrics s node) (s.GetPeers node.Network) currentPeers
        { peers := [], peerMap := [] } with
    | .error e => .error e
    | .ok st =>
      if node.IsIngressGateway then
        match getExtPeers s node true with
        | .ok (extPeers, idsAndAddr) =>
          .ok { peers := st.peers ++ extPeers
                peerMap := idsAndAddr.foldl (fun m e => mapSet m e.ID e) st.peerMap }
        | .error _ => .ok st
      else .ok st

/-- GetPeerUpdateLegacy - gets a wireguard peer config for each peer of a node. -/
def GetPeerUpdateLegacy (s : Store) (node : Node) : Except Error PeerUpdate :=
  match legacyCollect s node with
  | .error e => .error e
  | .ok st =>
    .ok { Network := node.Network, ServerVersion := s.Version
          Peers := sliceStable keyLess st.peers
          DNS := getPeerDNS s node.Network, PeerIDs := st.peerMap }

/-- The peers of `GetPeerUpdateForRelayedNode` before the sort. The slice
`allowedips` is never filled, so the four filtering loops over it do not run; what
is left is the external-client peers of an ingress gateway. -/
def relayedCollect (s : Store) (node : Node) : List PeerConfig :=
  if node.IsIngressGateway then
    match getExtPeers s node true with
    | .ok (extPeers, _) => extPeers
    | .error _ => []
  else []

/-- GetPeerUpdateForRelayedNode - calculates peer update for a relayed node. -/
def GetPeerUpdateForRelayedNode (s : Store) (node : Node) (_udppeers : GoMap String) :
    Except Error PeerUpdate :=
  .ok { Network := node.Network, ServerVersion := s.Version
        Peers := sliceStable keyLess (relayedCollect s node)
        DNS := getPeerDNS s node.Network }

/-! ## `logic/peers.go`: the proxy update -/

/-- Go `int32(x)` of an `int`: the low 32 bits, read as a signed number. -/
def toInt32 (x : Int) : Int := (x + 2 ^ 31) % 2 ^ 32 - 2 ^ 31

/-- The type `proxy_models.ProxyAction` of the netclient library; the engine sets
`ProxyUpdate` only, the zero value is `NoAction`. -/
inductive ProxyAction where
  | NoAction
  | ProxyUpdate
  deriving DecidableEq, Repr

/-- The type `proxy_models.NetworkInfo` of the netclient library: the field the
engine sets. -/
structure ProxyNetworkInfo where
  Address : IP := []
  deriving DecidableEq, Repr

/-- The type `proxy_models.PeerConf` of the netclient library: the fields the
engine sets. A nil `*net.UDPAddr` is `none`. -/
structure PeerConf where
  Proxy : Bool := false
  PublicListenPort : Int := 0
  NetworkInfo : GoMap ProxyNetworkInfo := []
  IsRelayed : Bool := false
  RelayedTo : Option UDPAddr := none
  deriving DecidableEq, Repr

/-- The type `proxy_models.RelayedConf` of the netclient library. -/
structure RelayedConf where
  RelayedPeerEndpoint : Option UDPAddr := none
  RelayedPeerPubKey : String := ""
  Peers : List PeerConfig := []
  deriving DecidableEq, Repr

/-- The type `proxy_models.ProxyManagerPayload` of the netclient library: the
fields the engine sets. -/
structure ProxyManagerPayload where
  Action : ProxyAction := .NoAction
  InterfaceName : String := ""
  IsRelayed : Bool := false
  RelayedTo : Option UDPAddr := none
  IsRelay : Bool := false
  RelayedPeerConf : GoMap RelayedConf := []
  PeerMap : GoMap PeerConf := []
  deriving DecidableEq, Repr

/-- The listen port `GetProxyUpdateForHost` computes for a host record (the block
that starts with `listenPort := h.LocalListenPort`, written out four times in the
function). -/
def proxyListenPort (s : Store) (h : Host) : Int :=
  let listenPort := h.LocalListenPort
  if h.ProxyEnabled then
    let listenPort := h.ProxyListenPort
    if listenPort = 0 then s.NmProxyPort else listenPort
  else if listenPort = 0 then h.ListenPort
  else listenPort

/-- The text `fmt.Sprintf("%s:%d", ip, port)`. -/
def hostPort (ip : IP) (port : Int) : String :=
  ip.String ++ ":" ++ toString port

/-- Go `(*net.UDPAddr, error)` result with the error dropped: the pointer, nil on
error. -/
def udpPtr (r : Except Error UDPAddr) : Option UDPAddr :=
  match r with
  | .ok a => some a
  | .error _ => none

/-- The `if host.IsRelayed` block of `GetProxyUpdateForHost`: when the relay host
loads, the payload is marked relayed and carries whatever the resolver returned. -/
def relayedBlock (s : Store) (host : Host) (proxyPayload : ProxyManagerPayload) :
    ProxyManagerPayload :=
  if host.IsRelayed then
    match GetHost s host.RelayedBy with
    | .ok relayHost =>
      let listenPort := proxyListenPort s relayHost
      let relayEndpoint := udpPtr (s.ResolveUDPAddr (hostPort relayHost.EndpointIP listenPort))
      { proxyPayload with IsRelayed := true, RelayedTo := relayEndpoint }
    | .error _ => proxyPayload
  else proxyPayload

/-- One turn of the loop over the relayed hosts of a relay. A panic inside
`GetPeerUpdateForHost` is not an `err` the loop could test: it leaves the function. -/
def relayStep (s : Store) (relayPeersMap : GoMap RelayedConf) (relayedHost : Host) :
    Except Error (GoMap RelayedConf) :=
  match GetPeerUpdateForHost s (some relayedHost) with
  | .error .nilDereference => .error .nilDereference
  | .error .indexOutOfRange => .error .indexOutOfRange
  | .error _ => .ok relayPeersMap
  | .ok payload =>
    let listenPort := proxyListenPort s relayedHost
    match s.ResolveUDPAddr (hostPort relayedHost.EndpointIP listenPort) with
    | .error _ => .ok relayPeersMap
    | .ok relayedEndpoint =>
      .ok (mapSet relayPeersMap relayedHost.PublicKey
        { RelayedPeerEndpoint := some relayedEndpoint
          RelayedPeerPubKey := relayedHost.PublicKey
          Peers := payload.Peers })

/-- The loop over `GetRelayedHosts(host)`. -/
def relayLoop (s : Store) : List Host → GoMap RelayedConf → Except Error (GoMap RelayedConf)
  | [], relayPeersMap => .ok relayPeersMap
  | relayedHost :: rest, relayPeersMap =>
    match relayStep s relayPeersMap relayedHost with
    | .error e => .error e
    | .ok relayPeersMap => relayLoop s rest relayPeersMap

/-- The `if host.IsRelay` block of `GetProxyUpdateForHost`. -/
def relayBlock (s : Store) (host : Host) (proxyPayload : ProxyManagerPayload) :
    Except Error ProxyManagerPayload :=
  if host.IsRelay then
    match relayLoop s (s.GetRelayedHosts host) [] with
    | .error e => .error e
    | .ok relayPeersMap =>
      .ok { proxyPayload with IsRelay := true, RelayedPeerConf := relayPeersMap }
  else .ok proxyPayload

/-- One turn of the inner loop of `GetProxyUpdateForHost` over the peers of a
network. -/
def proxyPeerStep (s : Store) (host : Host) (node : Node) (peerConfMap : GoMap PeerConf)
    (peer : Node) : GoMap PeerConf :=
  if peer.ID = node.ID then peerConfMap
  else
    match GetHost s peer.HostID with
    | .error _ => peerConfMap
    | .ok peerHost =>
      let proxyStatus := peerHost.ProxyEnabled
      let listenPort := proxyListenPort s peerHost
      let currPeerConf : PeerConf :=
        match mapGet peerConfMap peerHost.PublicKey with
        | some found => found
        | none =>
          { Proxy := proxyStatus, PublicListenPort := toInt32 listenPort, NetworkInfo := [] }
      let currPeerConf : PeerConf :=
        { currPeerConf with
          NetworkInfo := mapSet currPeerConf.NetworkInfo peer.Network
            { Address := ParseIP (s.PrimaryAddress peer) } }
      let currPeerConf : PeerConf :=
        if peerHost.IsRelayed ∧ peerHost.RelayedBy ≠ host.ID then
          match GetHost s peerHost.RelayedBy with
          | .error _ => currPeerConf
          | .ok relayHost =>
            let listenPort := proxyListenPort s peerHost
            match s.ResolveUDPAddr (hostPort relayHost.EndpointIP listenPort) with
            | .error _ => currPeerConf
            | .ok relayTo => { currPeerConf with IsRelayed := true, RelayedTo := some relayTo }
        else currPeerConf
      mapSet peerConfMap peerHost.PublicKey currPeerConf

/-- One turn of the loop of `GetProxyUpdateForHost` over `host.Nodes`. -/
def proxyNodeStep (s : Store) (host : Host) (peerConfMap : GoMap PeerConf)
    (nodeID : String) : GoMap PeerConf :=
  match s.GetNodeByID nodeID with
  | .error _ => peerConfMap
  | .ok node =>
    match s.GetNetworkNodes node.Network with
    | .error _ => peerConfMap
    | .ok currentPeers => currentPeers.foldl (proxyPeerStep s host node) peerConfMap

/-- GetProxyUpdateForHost - gets the proxy update for host. The error the function
returns is always nil; `.error` is a panic. -/
def GetProxyUpdateForHost (s : Store) (host : Option Host) :
    Except Error ProxyManagerPayload :=
  match host with
  | none => .error .nilDereference
  | some host =>
    let proxyPayload : ProxyManagerPayload := { Action := .ProxyUpdate }
    let proxyPayload := relayedBlock s host proxyPayload
    match relayBlock s host proxyPayload with
    | .error e => .error e
    | .ok proxyPayload =>
      let peerConfMap := host.Nodes.foldl (proxyNodeStep s host) []
      .ok { proxyPayload with
            PeerMap := peerConfMap, InterfaceName := s.WireguardInterface }

/-! ## `logic/hosts.go` -/

/-- The string form of `uuid.Nil`. -/
def uuidNil : String := "00000000-0000-0000-0000-000000000000"

/-- ErrHostExists error indicating that host exists when trying to create new host. -/
def ErrHostExists : Error := .other "host already exists"

/-- ErrInvalidHostID. -/
def ErrInvalidHostID : Error := .other "invalid host id"

/-- The writing side of the packages outside the translated sources: each function
gets the store it runs on and gives the store it leaves, with the Go error it
returns (`none` is nil). -/
structure Driver where
  /-- The error of `json.Marshal` or of `database.Insert` into the hosts table for
  a host record, nil when the record is written. -/
  InsertHostError : Store → Host → Option Error
  /-- The call `logic.createNode(n)`: it may write to the node through the pointer. -/
  createNode : Store → Node → Store × Node × Option Error
  /-- The call `logic.deleteNodeByID(n)`. -/
  deleteNodeByID : Store → Node → Store × Option Error
  /-- The call `logic.RemoveStringSlice(slice, i)`. -/
  RemoveStringSlice : List String → Nat → List String
  /-- The call `servercfg.GetServer()`. -/
  GetServer : String
  /-- The call `bcrypt.GenerateFromPassword(password, cost)`. -/
  GenerateFromPassword : String → Int → Except Error String
  /-- The call `logic.UpdateNode(currentNode, newNode)`. -/
  UpdateNode : Store → Node → Node → Store × Option Error

/-- Modelled from the spec: `database.Insert` is not among the sources. The record
table of the spec maps keys to values with atomic single-key writes: after the
insert of a host, fetching its id gives that host, the records of the table list it
under its id, and every other key and table is as before. -/
def insertHost (s : Store) (h : Host) : Store :=
  { s with
    FetchHost := fun hostid => if hostid = h.ID then .ok h else s.FetchHost hostid
    FetchHosts :=
      match s.FetchHosts with
      | .ok records => .ok (mapSet records h.ID (.ok h))
      | .error err => if err = .emptyRecord then .ok [(h.ID, .ok h)] else .error err }

/-- UpdateHost - updates host data by field. Every assignment of the function
writes a field of `newHost` that no other assignment reads or writes, so the
record it leaves is given field by field, in the order of the source. The result is
the pair of the records behind the two pointers after the call. -/
def UpdateHost (newHost currentHost : Host) : Host × Host :=
  ({ newHost with
      -- unchangeable fields via API here
      DaemonInstalled := currentHost.DaemonInstalled
      OS := currentHost.OS
      IPForwarding := currentHost.IPForwarding
      HostPass := currentHost.HostPass
      MacAddress := currentHost.MacAddress
      Debug := currentHost.Debug
      Nodes := currentHost.Nodes
      PublicKey := currentHost.PublicKey
      InternetGateway := currentHost.InternetGateway
      TrafficKeyPublic := currentHost.TrafficKeyPublic
      -- changeable fields
      Version := if newHost.Version.length = 0 then currentHost.Version else newHost.Version
      Name := if newHost.Name.length = 0 then currentHost.Name else newHost.Name
      LocalRange :=
        if newHost.LocalRange.String ≠ currentHost.LocalRange.String then
          currentHost.LocalRange
        else newHost.LocalRange
      MTU := if newHost.MTU = 0 then currentHost.MTU else newHost.MTU
      ListenPort := if newHost.ListenPort = 0 then currentHost.ListenPort else newHost.ListenPort
      ProxyListenPort :=
        if newHost.ProxyListenPort = 0 then currentHost.ProxyListenPort
        else newHost.ProxyListenPort },
   currentHost)

/-- UpsertHost - upserts into DB a given host model, does not check for existence. -/
def UpsertHost (d : Driver) (s : Store) (h : Host) : Store × Option Error :=
  match d.InsertHostError s h with
  | some err => (s, some err)
  | none => (insertHost s h, none)

/-- What a call that takes a node and a host by pointer leaves: the store, the two
records behind the pointers, and the error it returns. -/
structure HostNodeResult where
  store : Store
  n : Node
  h : Host
  err : Option Error

/-- AssociateNodeToHost - associates and creates a node with a given host. -/
def AssociateNodeToHost (d : Driver) (s : Store) (n : Node) (h : Host) : HostNodeResult :=
  if h.ID.length = 0 ∨ h.ID = uuidNil then
    { store := s, n := n, h := h, err := some ErrInvalidHostID }
  else
    let n := { n with HostID := h.ID }
    match d.createNode s n with
    | (s, n, some err) => { store := s, n := n, h := h, err := some err }
    | (s, n, none) =>
      let h := { h with Nodes := h.Nodes ++ [n.ID] }
      match UpsertHost d s h with
      | (s, err) => { store := s, n := n, h := h, err := err }

/-- The loop of `DissasociateNodeFromHost` that looks for the node id: the first index
holding it, `none` for the `-1` the loop starts from. -/
def nodeIndex (id : String) : List String → Option Nat
  | [] => none
  | x :: rest => if x = id then some 0 else (nodeIndex id rest).map (· + 1)

/-- DissasociateNodeFromHost - deletes a node and removes from host nodes. -/
def DissasociateNodeFromHost (d : Driver) (s : Store) (n : Node) (h : Host) :
    HostNodeResult :=
  if h.ID.length = 0 ∨ h.ID = uuidNil then
    { store := s, n := n, h := h, err := some ErrInvalidHostID }
  else if n.HostID ≠ h.ID then
    { store := s, n := n, h := h, err := some (.other "node is not associated with host") }
  else if h.Nodes.length = 0 then
    { store := s, n := n, h := h, err := some (.other "no nodes present in given host") }
  else
    let removed : Except Error Host :=
      match nodeIndex n.ID h.Nodes with
      | none =>
        if h.Nodes.length = 0 then
          .error (.other ("node " ++ n.ID ++ ", not found in host, " ++ h.ID))
        else .ok h
      | some index => .ok { h with Nodes := d.RemoveStringSlice h.Nodes index }
    match removed with
    | .error err => { store := s, n := n, h := h, err := some err }
    | .ok h =>
      match d.deleteNodeByID s n with
      | (s, some err) => { store := s, n := n, h := h, err := some err }
      | (s, none) =>
        match UpsertHost d s h with
        | (s, err) => { store := s, n := n, h := h, err := err }

/-- The scan of `UpdateHostNetwork` over `h.Nodes`: the first node that loads, is not
pending delete and is on the network. -/
def scanHostNodes (s : Store) (network : String) : List String → Option Node
  | [] => none
  | nodeID :: rest =>
    match s.GetNodeByID nodeID with
    | .error _ => scanHostNodes s network rest
    | .ok node =>
      if node.PendingDelete then scanHostNodes s network rest
      else if node.Network = network then some node
      else scanHostNodes s network rest

/-- What `UpdateHostNetwork` leaves: the store, the host behind the pointer, and the
pair it returns. -/
structure HostNetworkResult where
  store : Store
  h : Host
  node : Option Node
  err : Option Error

/-- UpdateHostNetwork - adds/deletes host from a network. -/
def UpdateHostNetwork (d : Driver) (s : Store) (h : Host) (network : String) (add : Bool) :
    HostNetworkResult :=
  match scanHostNodes s network h.Nodes with
  | some node =>
    if !add then { store := s, h := h, node := some node, err := none }
    else
      { store := s, h := h, node := none
        err := some (.other ("host already part of network " ++ network)) }
  | none =>
    if !add then
      { store := s, h := h, node := none
        err := some (.other ("host not part of the network " ++ network)) }
    else
      let newNode : Node := {}
      let newNode := { newNode with Server := d.GetServer }
      let newNode := { newNode with Network := network }
      let r := AssociateNodeToHost d s newNode h
      match r.err with
      | some err => { store := r.store, h := r.h, node := none, err := some err }
      | none => { store := r.store, h := r.h, node := some r.n, err := none }

/-- The host `CreateHost` and its like leave behind the pointer, with the store and
the error returned. -/
structure HostResult where
  store : Store
  h : Host
  err : Option Error

/-- The loop of `GetHostsMap` over the records, in list order (Go leaves the order
of a map open; the map it builds does not depend on it unless a record fails to
decode). -/
def hostsMapLoop : List (String × Except Error Host) → GoMap Host → Except Error (GoMap Host)
  | [], currHostMap => .ok currHostMap
  | (_, .error err) :: _, _ => .error err
  | (_, .ok h) :: rest, currHostMap => hostsMapLoop rest (mapSet currHostMap h.ID h)

/-- GetHostsMap - gets all the current hosts on machine in a map. -/
def GetHostsMap (s : Store) : Except Error (GoMap Host) :=
  match s.FetchHosts with
  | .error err => if err ≠ .emptyRecord then .error err else .ok []
  | .ok records => hostsMapLoop records []

/-- GetAllHosts - returns all hosts in flat list or error. The list is in the order
of the association list. -/
def GetAllHosts (s : Store) : Except Error (List Host) :=
  match GetHostsMap s with
  | .error err => .error err
  | .ok currHostMap => .ok (currHostMap.map (fun kv => kv.2))

/-- CreateHost - creates a host if not exist. -/
def CreateHost (d : Driver) (s : Store) (h : Host) : HostResult :=
  match GetHost s h.ID with
  | .ok _ => { store := s, h := h, err := some ErrHostExists }
  | .error err =>
    if err ≠ .emptyRecord then { store := s, h := h, err := some ErrHostExists }
    else
      -- encrypt that password so we never see it
      match d.GenerateFromPassword h.HostPass 5 with
      | .error err => { store := s, h := h, err := some err }
      | .ok hash =>
        match UpsertHost d s { h with HostPass := hash } with
        | (s, err) => { store := s, h := { h with HostPass := hash }, err := err }

/-- The loop of `GetHostNetworks` over the node ids of a host: `none` when a node
does not load. -/
def hostNetworksLoop (s : Store) : List String → List String → Option (List String)
  | [], nets => some nets
  | nodeID :: rest, nets =>
    match s.GetNodeByID nodeID with
    | .error _ => none
    | .ok n => hostNetworksLoop s rest (nets ++ [n.Network])

/-- GetHostNetworks - fetches all the networks. The nil slice it returns on an error
is the empty list. -/
def GetHostNetworks (s : Store) (hostID : String) : List String :=
  match GetHost s hostID with
  | .error _ => []
  | .ok currHost => (hostNetworksLoop s currHost.Nodes []).getD []

/-- One turn of the loop of `GetRelatedHosts` over all hosts. -/
def relatedStep (s : Store) (hostID : String) (networkMap : GoMap Unit)
    (relatedHosts : List Host) (host : Host) : List Host :=
  if host.ID = hostID then relatedHosts
  else
    let networks := GetHostNetworks s host.ID
    if networks.any (fun network => (mapGet networkMap network).isSome) then
      relatedHosts ++ [host]
    else relatedHosts

/-- GetRelatedHosts - fetches related hosts of a given host. -/
def GetRelatedHosts (s : Store) (hostID : String) : List Host :=
  let relatedHosts : List Host := []
  let networks := GetHostNetworks s hostID
  let networkMap : GoMap Unit := networks.foldl (fun m network => mapSet m network ()) []
  match GetAllHosts s with
  | .error _ => relatedHosts
  | .ok hosts => hosts.foldl (relatedStep s hostID networkMap) relatedHosts

/-! ## `models/enrollment_key.go` -/

/-- EnrollmentKeyLength - the length of an enrollment key - 62^16 unique
possibilities. -/
def EnrollmentKeyLength : Nat := 32

/-- EnrollmentKey.IsValid - checks if the key is still valid to use. `now` is the
value of `time.Now()`, a nil receiver is `none`. -/
def EnrollmentKey.IsValid (now : Time) (k : Option EnrollmentKey) : Bool :=
  match k with
  | none => false
  | some k =>
    if k.UsesRemaining > 0 then true
    else if !(decide (k.Expiration = 0)) && decide (now < k.Expiration) then true
    else k.Unlimited

/-- EnrollmentKey.Validate - validate's an EnrollmentKey. On a nil receiver the
first field access panics. -/
def EnrollmentKey.Validate (now : Time) (k : Option EnrollmentKey) : Except Error Bool :=
  match k with
  | none => .error .nilDereference
  | some k =>
    .ok (k.Networks.isSome && k.Tags.isSome &&
      decide (k.Value.utf8ByteSize = EnrollmentKeyLength) &&
      EnrollmentKey.IsValid now (some k))

/-! ## `mq/handlers.go` -/

/-- The functions of package `mq` and of the libraries that the handlers call and
that are not part of the translation. -/
structure Broker where
  /-- The call `getID(topic)`. -/
  getID : String → Except Error String
  /-- The call `decryptMsg(node, payload)`. -/
  decryptMsg : Node → List Byte → Except Error (List Byte)
  /-- The `json.Unmarshal` of a decrypted payload into a `models.NodeCheckin`. -/
  UnmarshalCheckin : List Byte → Except Error NodeCheckin
  /-- The value of `time.Now()` that `Node.SetLastCheckIn` stores. -/
  Now : Time
  /-- The call `uuid.Parse`, in string form. -/
  uuidParse : String → Except Error String
  /-- The constant `models.NODE_DELETE`. -/
  NODE_DELETE : String
  /-- The call `mq.NodeUpdate(node)`. -/
  NodeUpdate : Store → Node → Store × Option Error

/-- What `Ping` leaves: the store, and the record behind its local pointer `host`
when the handler got as far as filling it. -/
structure PingResult where
  store : Store
  host : Option Host

/-- The part of `Ping` that follows a loaded node; it is written out twice in the
handler. -/
def pingCheckin (b : Broker) (d : Driver) (s : Store) (node : Node) (payload : List Byte) :
    PingResult :=
  match b.decryptMsg node payload with
  | .error _ => { store := s, host := none }
  | .ok decrypted =>
    match b.UnmarshalCheckin decrypted with
    | .error _ => { store := s, host := none }
    | .ok checkin =>
      match GetHost s node.HostID with
      | .error _ => { store := s, host := none }
      | .ok host =>
        let node := { node with LastCheckIn := b.Now, Connected := checkin.Connected }
        let host :=
          { host with
            Version := checkin.Version
            Interfaces := checkin.Ifaces.map
              (fun iface => { iface with AddressString := iface.Address.String }) }
        match d.UpdateNode s node node with
        | (s, _) => { store := s, host := some host }

/-- Ping message Handler -- handles ping topic from client nodes. -/
def Ping (b : Broker) (d : Driver) (s : Store) (topic : String) (payload : List Byte) :
    PingResult :=
  match b.getID topic with
  | .error _ => { store := s, host := none }
  | .ok id =>
    match s.GetNodeByID id with
    | .error _ =>
      match s.GetNodeByID id with
      | .error err =>
        if err = .emptyRecord then
          match s.GetHostByNodeID id with
          | some _ =>
            let fakeNode : Node :=
              { ID := (match b.uuidParse id with
                       | .ok u => u
                       | .error _ => uuidNil)
                Action := b.NODE_DELETE, PendingDelete := true }
            { store := (b.NodeUpdate s fakeNode).1, host := none }
          | none => { store := s, host := none }
        else { store := s, host := none }
      | .ok node => pingCheckin b d s node payload
    | .ok node => pingCheckin b d s node payload

/-- Go `int64(x)`: the low 64 bits, read as a signed number. -/
def toInt64 (x : Int) : Int := (x + 2 ^ 63) % 2 ^ 64 - 2 ^ 63

/-- Go `len(u)` of a `uuid.UUID`, an array of 16 bytes (the model keeps ids in their
string form; `node.FailoverNode.String()` in `updateNodeMetrics` shows the type). -/
def uuidLen (_u : String) : Nat := 16

/-- Go `delete(m, k)`. -/
def mapDelete {β : Type} (m : GoMap β) (k : String) : GoMap β :=
  m.filter (fun kv => kv.1 ≠ k)

/-- Go `m[k]` on a connectivity map that may be nil: the zero value when absent. -/
def connGet (conn : Option (GoMap Metric)) (k : String) : Metric :=
  match conn with
  | some m => (mapGet m k).getD {}
  | none => {}

/-- One turn of the loop of `updateNodeMetrics` over the attached clients. -/
def attachClient (conn : GoMap Metric) (client : ExtClient) : GoMap Metric :=
  let extMetric := (mapGet conn client.PublicKey).getD {}
  let extMetric :=
    if extMetric.NodeName.length = 0 ∧
        ((mapGet conn client.ClientID).getD {}).NodeName.length > 0 then
      -- cover server clients
      let extMetric := (mapGet conn client.ClientID).getD {}
      if extMetric.TotalReceived > 0 ∧ extMetric.TotalSent > 0 then
        { extMetric with Connected := true }
      else extMetric
    else extMetric
  let extMetric := { extMetric with NodeName := client.ClientID }
  mapSet (mapDelete conn client.PublicKey) client.ClientID extMetric

/-- The loop over the attached clients; storing into a nil map panics. -/
def attachClients (conn : Option (GoMap Metric)) (attachedClients : List ExtClient) :
    Except Error (Option (GoMap Metric)) :=
  match attachedClients, conn with
  | [], _ => .ok conn
  | _ :: _, none => .error .nilDereference
  | clients, some m => .ok (some (clients.foldl attachClient m))

/-- The counters of one connectivity entry after the old ones are added. -/
def accumulate (s : Store) (currMetric oldMetric : Metric) : Metric :=
  let currMetric :=
    { currMetric with
      TotalTime := toInt64 (currMetric.TotalTime + oldMetric.TotalTime)
      -- get the total uptime for this connection
      Uptime := toInt64 (currMetric.Uptime + oldMetric.Uptime) }
  if currMetric.CollectedByProxy then
    { currMetric with
      TotalReceived := toInt64 (currMetric.TotalReceived + oldMetric.TotalReceived)
      TotalSent := toInt64 (currMetric.TotalSent + oldMetric.TotalSent) }
  else
    { currMetric with
      TotalReceived :=
        if currMetric.TotalReceived < oldMetric.TotalReceived then
          toInt64 (currMetric.TotalReceived + oldMetric.TotalReceived)
        else
          toInt64 (currMetric.TotalReceived
            + s.Float64AbsDiff currMetric.TotalReceived oldMetric.TotalReceived)
      TotalSent :=
        if currMetric.TotalSent < oldMetric.TotalSent then
          toInt64 (currMetric.TotalSent + oldMetric.TotalSent)
        else
          toInt64 (currMetric.TotalSent
            + s.Float64AbsDiff currMetric.TotalSent oldMetric.TotalSent) }

/-- One turn of the loop `for k := range newMetrics.Connectivity`: the new and the
old connectivity map after it. -/
def metricStep (s : Store) (st : GoMap Metric × Option (GoMap Metric)) (k : String) :
    GoMap Metric × Option (GoMap Metric) :=
  let currMetric := (mapGet st.1 k).getD {}
  let oldMetric := connGet st.2 k
  -- remove from old data
  (mapSet st.1 k (accumulate s currMetric oldMetric), st.2.map (fun m => mapDelete m k))

/-- The loop `for k := range newMetrics.Connectivity`, over the keys in the order of
the association list; a nil map has no keys. -/
def metricLoop (s : Store) (conn oldConn : Option (GoMap Metric)) :
    Option (GoMap Metric) × Option (GoMap Metric) :=
  match conn with
  | none => (none, oldConn)
  | some m =>
    let st := (m.map (fun kv => kv.1)).foldl (metricStep s) (m, oldConn)
    (some st.1, st.2)

/-- The test of `updateNodeMetrics` for a node that needs failover. -/
def needsFailover (conn : Option (GoMap Metric)) (node : Node) : Bool :=
  !(connGet conn node.ID).Connected &&
    decide ((connGet conn node.ID).NodeName.length > 0) &&
    node.Connected &&
    decide (uuidLen node.FailoverNode > 0) &&
    !node.Failover

/-- One turn of the loop that adds the nodes that need failover. -/
def failoverPeersStep (conn : Option (GoMap Metric)) (failoverPeers : GoMap String)
    (node : Node) : GoMap String :=
  if needsFailover conn node then mapSet failoverPeers node.ID node.FailoverNode
  else failoverPeers

/-- One turn of the loop `for k, v := range oldMetrics.FailoverPeers`: the new
failover peers and `shouldUpdate` after it. -/
def mergeStep (st : GoMap String × Bool) (kv : String × String) : GoMap String × Bool :=
  let shouldUpdate :=
    if ((mapGet st.1 kv.1).getD "").length > 0 ∧ kv.2.length = 0 then true else st.2
  if kv.2.length > 0 ∧ ((mapGet st.1 kv.1).getD "").length = 0 then
    (mapSet st.1 kv.1 kv.2, shouldUpdate)
  else (st.1, shouldUpdate)

/-- The slice `attachedClients` of `updateNodeMetrics`: the external clients of an
ingress gateway, nil when they cannot be read. -/
def attachedClients (s : Store) (currentNode : Node) : List ExtClient :=
  if currentNode.IsIngressGateway then
    match s.GetExtClientsByID currentNode.ID currentNode.Network with
    | .ok clients => clients
    | .error _ => []
  else []

/-- The function `updateNodeMetrics(currentNode, newMetrics)`: the metrics behind
the pointer `newMetrics` when it returns, and the flag returned; `.error` is a
panic. A nil `FailoverPeers` map and the empty one it is replaced by are both `[]`. -/
def updateNodeMetrics (s : Store) (currentNode : Node) (newMetrics : Metrics) :
    Except Error (Metrics × Bool) :=
  match s.GetMetrics currentNode.ID with
  | (_, some _) => .ok (newMetrics, false)
  | (none, none) => .error .nilDereference
  | (some oldMetrics, none) =>
    -- associate ext clients with IDs
    match attachClients newMetrics.Connectivity (attachedClients s currentNode) with
    | .error e => .error e
    | .ok conn =>
      -- run through metrics for each peer
      match metricLoop s conn oldMetrics.Connectivity with
      | (conn, oldConn) =>
        -- add nodes that need failover
        match s.GetNetworkNodes currentNode.Network with
        | .error _ => .ok ({ newMetrics with Connectivity := conn }, false)
        | .ok nodes =>
          let failoverPeers := nodes.foldl (failoverPeersStep conn) newMetrics.FailoverPeers
          let shouldUpdate :=
            decide (oldMetrics.FailoverPeers.length = 0) && decide (failoverPeers.length > 0)
          match oldMetrics.FailoverPeers.foldl mergeStep (failoverPeers, shouldUpdate) with
          | (failoverPeers, shouldUpdate) =>
            -- cleanup any left over data, self healing
            let conn :=
              conn.map (fun m =>
                ((oldConn.getD []).map (fun kv => kv.1)).foldl mapDelete m)
            .ok ({ newMetrics with Connectivity := conn, FailoverPeers := failoverPeers },
              shouldUpdate)

/-! ## The specification's view of the per-host update -/

/-- A scan entry: a node of the host, a peer node of its network and the peer's
host. -/
abbrev Entry := Node × Node × Host

/-- The admissible peer nodes of one connected node, in the order of the node list
of its network: not the node itself, host record readable, connected, allowed by
the ACL. -/
def admissiblePeers (s : Store) (node : Node) (currentPeers : List Node) : List Entry :=
  currentPeers.filterMap (fun peer =>
    if peer.ID = node.ID then none
    else
      match GetHost s peer.HostID with
      | .error _ => none
      | .ok peerHost =>
        if peer.Connected && s.AreNodesAllowed node.Network node.ID peer.ID then
          some (node, peer, peerHost)
        else none)

/-- The admissible peer nodes of a host in scan order: for each node id of the host
that loads as a connected node, the admissible peers of its network. -/
def admissibleScan (s : Store) (host : Host) : List Entry :=
  host.Nodes.flatMap (fun nodeID =>
    match s.GetNodeByID nodeID with
    | .error _ => []
    | .ok node =>
      if node.Connected then
        match s.GetNetworkNodes node.Network with
        | .ok currentPeers => admissiblePeers s node currentPeers
        | .error _ => []
      else [])

/-- Admissibility of `peer` (with host `peerHost`) as seen from `node`: `node` is a
connected node of `host`, `peer` is another node of its network, connected and
allowed by the ACL. -/
def Admissible (s : Store) (host : Host) (node peer : Node) (peerHost : Host) : Prop :=
  ∃ nodeID ∈ host.Nodes, s.GetNodeByID nodeID = .ok node ∧ node.Connected = true ∧
    ∃ currentPeers, s.GetNetworkNodes node.Network = .ok currentPeers ∧ peer ∈ currentPeers ∧
      peer.ID ≠ node.ID ∧ peer.Connected = true ∧
      s.AreNodesAllowed node.Network node.ID peer.ID = true ∧
      GetHost s peer.HostID = .ok peerHost

/-- The allowed IPs computed for a scan entry (empty when the computation fails). -/
def entryAllowedIPs (s : Store) (e : Entry) : List IPNet :=
  match peerAllowedIPs s e.1 e.2.1 with
  | .ok allowedips => allowedips
  | .error _ => []

/-- The peer config built for a scan entry, with the keepalive the update returns
behind its pointer. -/
def entryConfig (s : Store) (host : Host) (e : Entry) : PeerConfig :=
  { PublicKey := e.2.2.PublicKey
    PersistentKeepaliveInterval := some (rangeKeepalive s e.1)
    ReplaceAllowedIPs := true
    Endpoint := some (hostPeerEndpoint s host e.2.2 e.1 e.2.1)
    AllowedIPs := entryAllowedIPs s e }

/-- Coalescing by public key: merge the allowed IPs into the entry with the same
key, or push the config when the key is new. -/
def coalesce : List PeerConfig → PeerConfig → List PeerConfig
  | [], pc => [pc]
  | q :: qs, pc =>
    if q.PublicKey = pc.PublicKey then { q with AllowedIPs := q.AllowedIPs ++ pc.AllowedIPs } :: qs
    else q :: coalesce qs pc

/-- Consistency of the local state of `GetPeerUpdateForHost`: the keys of `Peers`
are distinct, `PeerIDs` has exactly those keys, and `peerIndexMap` gives the
position of each key. -/
structure LoopWF (st : HostLoop) : Prop where
  nodup : (st.upd.Peers.map (fun p => p.PublicKey)).Nodup
  ids : ∀ k, (mapGet st.upd.PeerIDs k).isSome = true ↔ k ∈ st.upd.Peers.map (fun p => p.PublicKey)
  index : ∀ k, k ∈ st.upd.Peers.map (fun p => p.PublicKey) →
    ∃ i p, mapGet st.peerIndexMap k = some i ∧ st.upd.Peers.get? i = some p ∧ p.PublicKey = k

/-- Every entry of `PeerIDs` comes from an entry of `es`. -/
def IdsFrom (es : List Entry) (ids : GoMap (GoMap IDandAddr)) : Prop :=
  ∀ k m pid v, mapGet ids k = some m → mapGet m pid = some v →
    ∃ e ∈ es, e.2.2.PublicKey = k ∧ e.2.1.ID = pid

/-- The two omission tests of `getEgressIPs` for a parsed range: the range contains
the IP parsed from the first `:`-separated field of the peer host's endpoint
string, or the IP parsed from the string of the node's local address, and the peer
is not an internet gateway. -/
def egressSkips (peerHost : Host) (node : Node) (internetGateway : Bool) (ipnet : IPNet) : Bool :=
  (ipnet.Contains (parseIPChars ((splitChars ':' peerHost.EndpointIP.String.toList).headD []))
      && !internetGateway)
    || (ipnet.Contains (ParseIP node.LocalAddress.String) && !internetGateway)

/-- The flag `internetGateway` of `getEgressIPs`: one of the ranges is the string
`0.0.0.0/0` or `::/0`. -/
def isInternetGateway (peer : Node) : Bool :=
  peer.EgressGatewayRanges.contains "0.0.0.0/0" || peer.EgressGatewayRanges.contains "::/0"

/-- The node `UpdateHostNetwork` hands to `createNode` when it adds a network: the
zero node with the server and the network, and the id of the host that
`AssociateNodeToHost` sets. -/
def newHostNode (d : Driver) (h : Host) (network : String) : Node :=
  { Server := d.GetServer, Network := network, HostID := h.ID }

/-! ## The specification's view of hosts and their nodes -/

/-- The nodes behind a list of node ids: the records that load, in list order. -/
def loadedNodes (s : Store) (ids : List String) : List Node :=
  ids.filterMap (fun id =>
    match s.GetNodeByID id with
    | .ok node => some node
    | .error _ => none)

/-- The nodes the scan of `UpdateHostNetwork` looks at: the records that load and are
not pending delete, in list order. -/
def liveNodes (s : Store) (ids : List String) : List Node :=
  (loadedNodes s ids).filter (fun node => !node.PendingDelete)

/-- No two nodes listed under the ids are on the same network. -/
def OneNodePerNetwork (s : Store) (ids : List String) : Prop :=
  ((loadedNodes s ids).map (fun node => node.Network)).Nodup

/-- No two nodes listed under the ids that are not pending delete are on the same
network. -/
def OneLiveNodePerNetwork (s : Store) (ids : List String) : Prop :=
  ((liveNodes s ids).map (fun node => node.Network)).Nodup

/-- Modelled from the spec: `createNode` is not among the sources. Association
"creates n", a node being a record of the node table under its id: the node keeps
its `host_id` and `network`, a successful creation stores the node it leaves under
that node's id, and no other node record and no host record changes. -/
structure CreatesNode (d : Driver) : Prop where
  keeps_host : ∀ s n, (d.createNode s n).2.1.HostID = n.HostID
  keeps_network : ∀ s n, (d.createNode s n).2.1.Network = n.Network
  stores : ∀ s n, (d.createNode s n).2.2 = none →
    (d.createNode s n).1.GetNodeByID (d.createNode s n).2.1.ID = .ok (d.createNode s n).2.1
  others : ∀ s n id, id ≠ (d.createNode s n).2.1.ID →
    (d.createNode s n).1.GetNodeByID id = s.GetNodeByID id
  hosts : ∀ s n, (d.createNode s n).1.FetchHost = s.FetchHost

/-- Modelled from the spec: `deleteNodeByID` is not among the sources.
Disassociation "deletes n": after a successful deletion the id of the node no
longer loads. -/
def DeletesNode (d : Driver) : Prop :=
  ∀ s n, (d.deleteNodeByID s n).2 = none →
    ∃ e, (d.deleteNodeByID s n).1.GetNodeByID n.ID = .error e

/-- Modelled from the spec: `RemoveStringSlice` is not among the sources. It
"removes n.id from h.nodes (order not preserved)": the result is a rearrangement of
the list without the element at the index. -/
def RemovesIndex (d : Driver) : Prop :=
  ∀ (l : List String) (i : Nat), i < l.length → (d.RemoveStringSlice l i).Perm (l.eraseIdx i)

/-- The port the specification gives for the relay of a relayed host: the proxy
port (the canonical one when zero) if the relay has the proxy enabled, its listen
port otherwise. -/
def specRelayPort (s : Store) (relayHost : Host) : Int :=
  if relayHost.ProxyEnabled then
    if relayHost.ProxyListenPort = 0 then s.NmProxyPort else relayHost.ProxyListenPort
  else relayHost.ListenPort

/-- The contract of Go `net.ResolveUDPAddr` on a literal: the text `ip:port` of an
IPv4 address and a port resolves to the address of that text, as `ParseIP` gives it,
with that port. -/
def ResolvesLiteral (s : Store) (ip : IP) (port : Int) : Prop :=
  To4 ip ≠ [] ∧
    s.ResolveUDPAddr (hostPort ip port) = .ok { IP := ParseIP ip.String, Port := port }

/-! ## The specification's view of related hosts -/

/-- The networks that contain a node of the host: those of the nodes it lists that
load. -/
def hostNodeNetworks (s : Store) (g : Host) : List String :=
  (loadedNodes s g.Nodes).map (fun node => node.Network)

/-! ## Concrete snapshots -/

/-- A store snapshot holding the given host, node and external-client records.
Every record of the lists can be read; `denied` lists the ordered node pairs the
ACL forbids. -/
def tableStore (hosts : List Host) (nodes : List Node) (clients : List ExtClient)
    (denied : List (String × String)) : Store :=
  { FetchHost := fun id =>
      match hosts.find? (fun h => h.ID = id) with
      | some h => .ok h
      | none => .error .emptyRecord
    GetNodeByID := fun id =>
      match nodes.find? (fun n => n.ID = id) with
      | some n => .ok n
      | none => .error .emptyRecord
    GetNetworkNodes := fun network => .ok (nodes.filter (fun n => n.Network = network))
    AreNodesAllowed := fun _ a b => !(denied.contains (a, b))
    GetNetworkExtClients := fun network => .ok (clients.filter (fun c => c.Network = network))
    GetCustomDNS := fun _ => .ok []
    GetMetrics := fun _ => (none, some .emptyRecord)
    GetPeers := fun _ => []
    IsFailoverPresent := fun _ => false
    CheckEndpoint := fun _ => false
    ResolveUDPAddr := fun _ => .error (.other "no resolver")
    Atoi := fun _ => none
    ParseKey := fun k => if k.length = 44 then some k else none
    PrimaryAddress := fun n => if n.Address.IP ≠ [] then n.Address.IP.String else n.Address6.IP.String
    FormatIPNet := fun n =>
      "\x7b" ++ n.IP.String ++ " "
        ++ (if n.Mask.length = 0 then "<nil>" else String.mk (hexString n.Mask)) ++ "\x7d"
    Is_EE := false
    Version := "v0.18.0"
    NcVersion := "v0.18.0"
    NmProxyPort := 51722
    GetRelayedHosts := fun relay =>
      hosts.filter (fun h => h.IsRelayed && decide (h.RelayedBy = relay.ID))
    WireguardInterface := "netmaker"
    FetchHosts :=
      if hosts.isEmpty then .error .emptyRecord else .ok (hosts.map (fun h => (h.ID, .ok h)))
    GetExtClientsByID := fun nodeid network =>
      .ok (clients.filter (fun c => c.IngressGatewayID = nodeid && c.Network = network))
    GetHostByNodeID := fun nodeid => hosts.find? (fun h => h.Nodes.contains nodeid)
    Float64AbsDiff := fun a b => (a - b).natAbs }

/-- Public key of host A in the scenarios. -/
def keyA : Key := "AAAAAAAAAAAAAAAAAAAAAAAAAAAAAAAAAAAAAAAAAAA="

/-- Public key of host B in the scenarios. -/
def keyB : Key := "BAAAAAAAAAAAAAAAAAAAAAAAAAAAAAAAAAAAAAAAAAA="

/-- Public key of the external client EC in scenario S3. -/
def keyE : Key := "EAAAAAAAAAAAAAAAAAAAAAAAAAAAAAAAAAAAAAAAAAA="

/-- Host A of the scenarios: endpoint 1.1.1.1:51820. -/
def hostA : Host :=
  { ID := "host-a", Name := "A", PublicKey := keyA, EndpointIP := [1, 1, 1, 1]
    ListenPort := 51820, Nodes := ["node-a"] }

/-- Host B of the scenarios: endpoint 2.2.2.2:51820. -/
def hostB : Host :=
  { ID := "host-b", Name := "B", PublicKey := keyB, EndpointIP := [2, 2, 2, 2]
    ListenPort := 51820, Nodes := ["node-b"] }

/-- Node of host A in `net1`, address 10.0.0.1, connected. -/
def nodeA : Node :=
  { ID := "node-a", HostID := "host-a", Network := "net1"
    Address := { IP := [10, 0, 0, 1], Mask := [255, 255, 255, 0] }, Connected := true }

/-- Node of host B in `net1`, address 10.0.0.2, connected. -/
def nodeB : Node :=
  { ID := "node-b", HostID := "host-b", Network := "net1"
    Address := { IP := [10, 0, 0, 2], Mask := [255, 255, 255, 0] }, Connected := true }

/-- Scenario S1: two hosts, one network, the ACL permits everything. -/
def scenarioS1 : Store := tableStore [hostA, hostB] [nodeA, nodeB] [] []

/-- Node of host A as the ingress gateway of scenario S3, range 10.100.0.0/24. -/
def ingressA : Node :=
  { nodeA with IsIngressGateway := true, IngressGatewayRange := "10.100.0.0/24" }

/-- The external client EC of scenario S3, address 10.100.0.5, attached to A. -/
def clientEC : ExtClient :=
  { PublicKey := keyE, Address := "10.100.0.5", IngressGatewayID := "node-a"
    Network := "net1", ClientID := "ec" }

/-- Scenario S3: A is an ingress gateway with one external client. -/
def scenarioS3 : Store := tableStore [hostA, hostB] [ingressA, nodeB] [clientEC] []

/-- Node of host A with the local address 192.168.1.10/24. -/
def lanA : Node :=
  { nodeA with LocalAddress := { IP := [192, 168, 1, 10], Mask := [255, 255, 255, 0] } }

/-- Node of host B as an egress gateway for the given ranges. -/
def egressB (ranges : List String) : Node :=
  { nodeB with IsEgressGateway := true, EgressGatewayRanges := ranges }

/-- A snapshot in which B is an egress gateway for `ranges` and A has a local
address. -/
def egressStore (ranges : List String) : Store :=
  tableStore [hostA, hostB] [lanA, egressB ranges] [] []

/-- A snapshot like S1 in which the host record of B is missing. -/
def missingHostStore : Store := tableStore [hostA] [nodeA, nodeB] [] []

/-- The peer config for B in the per-host update of host A in scenario S1. -/
def s1PeerB : PeerConfig :=
  { PublicKey := keyB, Endpoint := some { IP := [2, 2, 2, 2], Port := 51820 }
    PersistentKeepaliveInterval := some 0, ReplaceAllowedIPs := true
    AllowedIPs := [{ IP := [10, 0, 0, 2], Mask := [255, 255, 255, 255] }] }

/-- The per-host update of host A in scenario S1. -/
def s1UpdateA : HostPeerUpdate :=
  { Host := hostA
    Network := [("net1", { DNS := getPeerDNS scenarioS1 "net1" })]
    ServerVersion := "v0.18.0"
    PeerIDs := [(keyB, [("node-b", { Name := "B", Address := "10.0.0.2", ID := "node-b",
                                      Network := "net1" })])]
    Peers := [s1PeerB] }

/-- Host B of scenario S2: the same public endpoint as host A. -/
def lanHostB : Host := { hostB with EndpointIP := [1, 1, 1, 1] }

/-- Node of host B with the local address 192.168.1.20/24. -/
def lanB : Node :=
  { nodeB with LocalAddress := { IP := [192, 168, 1, 20], Mask := [255, 255, 255, 0] } }

/-- Scenario S2: A and B behind the same public endpoint, with different local
addresses. -/
def scenarioS2 : Store := tableStore [hostA, lanHostB] [lanA, lanB] [] []

/-- The peers of the per-host update of host A in scenario S2. -/
def s2PeersA : List PeerConfig :=
  [{ PublicKey := keyB, Endpoint := some { IP := [192, 168, 1, 20], Port := 51820 }
     PersistentKeepaliveInterval := some 0, ReplaceAllowedIPs := true
     AllowedIPs := [{ IP := [10, 0, 0, 2], Mask := [255, 255, 255, 255] }] }]

/-- The per-host update of host A in scenario S2. -/
def s2UpdateA : HostPeerUpdate := { s1UpdateA with Peers := s2PeersA }

/-- Host B with an endpoint inside 10.0.0.0/8. -/
def innerHostB : Host := { hostB with EndpointIP := [10, 1, 1, 1] }

/-- A snapshot in which B, an egress gateway for `ranges`, has the endpoint
10.1.1.1. -/
def innerEgressStore (ranges : List String) : Store :=
  tableStore [hostA, innerHostB] [lanA, egressB ranges] [] []

/-- The legacy per-node update of the ingress gateway A in scenario S3. -/
def s3LegacyA : PeerUpdate :=
  { Network := "net1"
    ServerVersion := "v0.18.0"
    Peers := [{ PublicKey := keyE, ReplaceAllowedIPs := true
                AllowedIPs := [{ IP := [0, 0, 0, 0, 0, 0, 0, 0, 0, 0, 255, 255, 10, 100, 0, 5]
                                 Mask := [255, 255, 255, 255] }] }]
    DNS := getPeerDNS scenarioS3 "net1"
    PeerIDs := [(keyE, { ID := keyE, Address := "10.100.0.5" })] }

/-! ## Concrete drivers -/

/-- A resolver for the texts `a.b.c.d:port` with a dotted IPv4 literal and a decimal
port below 65536; anything else is an error. -/
def resolveLiteral (addr : String) : Except Error UDPAddr :=
  match splitChars ':' addr.toList with
  | [host, port] =>
    match dtoi port with
    | some (n, _, []) =>
      if parseIPv4 host ≠ [] ∧ n < 65536 then .ok { IP := parseIPv4 host, Port := n }
      else .error (.other "no such host")
    | _ => .error (.other "invalid port")
  | _ => .error (.other "missing port in address")

/-- A driver over the snapshots: every insert succeeds, `createNode` gives the node
the id `<host id>/<network>` and stores it, `deleteNodeByID` removes the record of
the id, `RemoveStringSlice` keeps the order of the other elements, the hash of a
password is the password behind a bcrypt-like prefix, and `UpdateNode` stores the
new node under the id of the current one. -/
def tableDriver : Driver :=
  { InsertHostError := fun _ _ => none
    createNode := fun s n =>
      ({ s with
          GetNodeByID := fun id =>
            if id = n.HostID ++ "/" ++ n.Network then
              .ok { n with ID := n.HostID ++ "/" ++ n.Network }
            else s.GetNodeByID id },
        { n with ID := n.HostID ++ "/" ++ n.Network }, none)
    deleteNodeByID := fun s n =>
      ({ s with
          GetNodeByID := fun id => if id = n.ID then .error .emptyRecord else s.GetNodeByID id },
        none)
    RemoveStringSlice := fun l i => l.eraseIdx i
    GetServer := "server"
    GenerateFromPassword := fun password cost =>
      .ok ("$2a$" ++ toString cost ++ "$" ++ password)
    UpdateNode := fun s currentNode newNode =>
      ({ s with
          GetNodeByID := fun id =>
            if id = currentNode.ID then .ok newNode else s.GetNodeByID id },
        none) }

/-- The driver of the snapshots with a `createNode` that fails and writes nothing. -/
def failingDriver : Driver :=
  { tableDriver with createNode := fun s n => (s, n, some (.other "node creation failed")) }

/-- A host id in the form of a UUID. -/
def uuidA : String := "0a000000-0000-4000-8000-00000000000a"

/-- Host A of the scenarios under a UUID, with no node yet. -/
def hostU : Host := { hostA with ID := uuidA, Nodes := [] }

/-- Host A of the scenarios under a UUID, with the node of the scenarios. -/
def hostV : Host := { hostA with ID := uuidA }

/-- The node of the scenarios as a node of `hostV`. -/
def nodeV : Node := { nodeA with HostID := uuidA }

/-- The node of the scenarios as a node of `hostV`, marked for deletion. -/
def pendingV : Node := { nodeV with PendingDelete := true }

/-- A snapshot in which the one node of `hostV` is pending delete. -/
def pendingStore : Store := tableStore [hostV] [pendingV] [] []

/-- A snapshot in which the one node of `hostV` is live. -/
def liveStore : Store := tableStore [hostV] [nodeV] [] []

/-- The relay R of scenario S4: endpoint 3.3.3.3, listen port 51820, local listen
port 51821, no proxy. -/
def relayR : Host :=
  { ID := "host-r", Name := "R", PublicKey := keyE, EndpointIP := [3, 3, 3, 3]
    ListenPort := 51820, LocalListenPort := 51821, IsRelay := true }

/-- Host A of the scenarios, relayed by R. -/
def relayedA : Host := { hostA with IsRelayed := true, RelayedBy := "host-r" }

/-- Scenario S4: R relays A; the resolver reads IPv4 literals. -/
def scenarioS4 : Store :=
  { tableStore [relayedA, relayR, hostB] [nodeA, nodeB] [] [] with
    ResolveUDPAddr := resolveLiteral }

/-- Host A of the scenarios, relayed by R and itself a relay. -/
def relayingA : Host := { relayedA with IsRelay := true }

/-- Host B of the scenarios, relayed by A. -/
def relayedB : Host := { hostB with IsRelayed := true, RelayedBy := "host-a" }

/-- Scenario S4 with a second hop: R relays A, and A relays B. -/
def scenarioS4R : Store :=
  { tableStore [relayingA, relayR, relayedB] [nodeA, nodeB] [] [] with
    ResolveUDPAddr := resolveLiteral }

/-- Public key of host C and of the external client CC in the scenarios. -/
def keyC : Key := "CAAAAAAAAAAAAAAAAAAAAAAAAAAAAAAAAAAAAAAAAAA="

/-- Host A with a node in `net1` and a node in `net2`. -/
def dualA : Host := { hostA with Nodes := ["node-a", "node-a2"] }

/-- Host B with a node in `net1` and a node in `net2`. -/
def dualB : Host := { hostB with Nodes := ["node-b", "node-b2"] }

/-- Host C of the scenarios: endpoint 4.4.4.4:51820, one node in `net1`. -/
def hostC : Host :=
  { ID := "host-c", Name := "C", PublicKey := keyC, EndpointIP := [4, 4, 4, 4]
    ListenPort := 51820, Nodes := ["node-c"] }

/-- Node of host C in `net1`, address 10.0.0.3, connected. -/
def nodeC : Node :=
  { ID := "node-c", HostID := "host-c", Network := "net1"
    Address := { IP := [10, 0, 0, 3], Mask := [255, 255, 255, 0] }, Connected := true }

/-- Node of host A in `net2`, address 10.1.0.1, connected. -/
def nodeA2 : Node :=
  { ID := "node-a2", HostID := "host-a", Network := "net2"
    Address := { IP := [10, 1, 0, 1], Mask := [255, 255, 255, 0] }, Connected := true }

/-- Node of host B in `net2`, address 10.1.0.2, connected. -/
def nodeB2 : Node :=
  { ID := "node-b2", HostID := "host-b", Network := "net2"
    Address := { IP := [10, 1, 0, 2], Mask := [255, 255, 255, 0] }, Connected := true }

/-- Scenario S1 with host C, the nodes of B and C having the keepalives 20 and 25. -/
def keepaliveStore : Store :=
  tableStore [hostA, hostB, hostC]
    [nodeA, { nodeB with PersistentKeepalive := 20 }, { nodeC with PersistentKeepalive := 25 }]
    [] []

/-- Scenario S5: A and B share the networks `net1` and `net2`, C is in `net1`. -/
def scenarioS5 : Store :=
  tableStore [dualA, dualB, hostC] [nodeA, nodeB, nodeC, nodeA2, nodeB2] [] []

/-- The per-host update of host A in scenario S5: one peer for B, which carries the
allowed IPs of both nodes of B, and one peer for C. -/
def s5UpdateA : HostPeerUpdate :=
  { Host := dualA
    Network := [("net1", { DNS := getPeerDNS scenarioS5 "net1" }),
                ("net2", { DNS := getPeerDNS scenarioS5 "net2" })]
    ServerVersion := "v0.18.0"
    PeerIDs := [(keyB, [("node-b", { Name := "B", Address := "10.0.0.2", ID := "node-b",
                                      Network := "net1" }),
                        ("node-b2", { Name := "B", Address := "10.1.0.2", ID := "node-b2",
                                       Network := "net2" })]),
                (keyC, [("node-c", { Name := "C", Address := "10.0.0.3", ID := "node-c",
                                      Network := "net1" })])]
    Peers := [{ PublicKey := keyB, Endpoint := some { IP := [2, 2, 2, 2], Port := 51820 }
                PersistentKeepaliveInterval := some 0, ReplaceAllowedIPs := true
                AllowedIPs := [{ IP := [10, 0, 0, 2], Mask := [255, 255, 255, 255] },
                               { IP := [10, 1, 0, 2], Mask := [255, 255, 255, 255] }] },
              { PublicKey := keyC, Endpoint := some { IP := [4, 4, 4, 4], Port := 51820 }
                PersistentKeepaliveInterval := some 0, ReplaceAllowedIPs := true
                AllowedIPs := [{ IP := [10, 0, 0, 3], Mask := [255, 255, 255, 255] }] }] }

/-- Node of host A with the local address 192.168.1.10 and no mask. -/
def bareA : Node := { nodeA with LocalAddress := { IP := [192, 168, 1, 10], Mask := [] } }

/-- Node of host B with the local address 192.168.1.20 and no mask. -/
def bareB : Node := { nodeB with LocalAddress := { IP := [192, 168, 1, 20], Mask := [] } }

/-- Scenario S2 with local addresses that have no mask: A and B behind the same
public endpoint, with different local addresses. -/
def bareStore : Store := tableStore [hostA, lanHostB] [bareA, bareB] [] []

/-- The ingress gateway of scenario S3, not connected. -/
def idleIngressA : Node := { ingressA with Connected := false }

/-- A second external client CC, address 10.100.0.6, attached to A. -/
def clientCC : ExtClient :=
  { PublicKey := keyC, Address := "10.100.0.6", IngressGatewayID := "node-a"
    Network := "net1", ClientID := "cc" }

/-- Scenario S3 with two external clients, stored EC before CC, and the ingress
gateway A not connected. -/
def scenarioS3B : Store :=
  { tableStore [hostA, hostB] [idleIngressA, nodeB] [clientEC, clientCC] [] with
    ResolveUDPAddr := resolveLiteral }

/-- The legacy per-node update of the ingress gateway A in scenario S3 with two
external clients: the peers B, CC, EC. -/
def s3bLegacyA : PeerUpdate :=
  { Network := "net1"
    ServerVersion := "v0.18.0"
    Peers := [{ PublicKey := keyB
                Endpoint := some { IP := ParseIP "2.2.2.2", Port := 51820 }
                PersistentKeepaliveInterval := some 0, ReplaceAllowedIPs := true
                AllowedIPs := [{ IP := [10, 0, 0, 2], Mask := [255, 255, 255, 255] }] },
              { PublicKey := keyC, ReplaceAllowedIPs := true
                AllowedIPs := [{ IP := [0, 0, 0, 0, 0, 0, 0, 0, 0, 0, 255, 255, 10, 100, 0, 6]
                                 Mask := [255, 255, 255, 255] }] },
              { PublicKey := keyE, ReplaceAllowedIPs := true
                AllowedIPs := [{ IP := [0, 0, 0, 0, 0, 0, 0, 0, 0, 0, 255, 255, 10, 100, 0, 5]
                                 Mask := [255, 255, 255, 255] }] }]
    DNS := getPeerDNS scenarioS3B "net1"
    PeerIDs := [(keyB, { Name := "B", Address := "10.0.0.2", ID := "node-b", IsServer := "no" }),
                (keyE, { ID := keyE, Address := "10.100.0.5" }),
                (keyC, { ID := keyC, Address := "10.100.0.6" })] }

/-! ## Concrete brokers and metrics -/

/-- A broker over the snapshots: the topic is the node id, payloads are not
encrypted, and a payload of one byte decodes to a checkin of version `v0.18.1` with
one interface, connected unless the byte is zero. -/
def tableBroker : Broker :=
  { getID := fun topic => .ok topic
    decryptMsg := fun _ payload => .ok payload
    UnmarshalCheckin := fun decrypted =>
      match decrypted with
      | [c] =>
        .ok { Version := "v0.18.1", Connected := decide (c ≠ 0)
              Ifaces := [{ Name := "eth0"
                           Address := { IP := [192, 168, 1, 10], Mask := [255, 255, 255, 0] } }] }
      | _ => .error (.other "unexpected end of JSON input")
    Now := 63800000000000000000
    uuidParse := fun id => .ok id
    NODE_DELETE := "delete"
    NodeUpdate := fun s _ => (s, none) }

/-- A second host id in the form of a UUID. -/
def uuidB : String := "0b000000-0000-4000-8000-00000000000b"

/-- A host that is not in the snapshots, with a password. -/
def hostW : Host := { hostB with ID := uuidB, HostPass := "secret", Nodes := [] }

/-- The snapshot of scenario S1 on an enterprise server that has the given metrics
stored for every node. -/
def metricsStore (nodes : List Node) (oldMetrics : Metrics) : Store :=
  { tableStore [hostA, hostB] nodes [] [] with
    Is_EE := true
    GetMetrics := fun _ => (some oldMetrics, none) }

/-- Node B of the scenarios with no failover node: the field holds the nil UUID. -/
def plainB : Node := { nodeB with FailoverNode := uuidNil }

/-- Node B of the scenarios with node A as its failover node. -/
def failoverB : Node := { nodeB with FailoverNode := "node-a" }

/-- The metrics a node reports when it cannot reach B. -/
def downB : Metrics :=
  { Connectivity := some [("node-b", { NodeName := "B", Connected := false })] }

/-- The metrics a node reports when it reaches B. -/
def upB : Metrics :=
  { Connectivity := some [("node-b", { NodeName := "B", Connected := true })] }

/-- Stored metrics that carry the failover assignment of B to A. -/
def staleMetrics : Metrics := { FailoverPeers := [("node-b", "node-a")] }

/-- Host A of the scenarios, relayed by R and listening on 51830. -/
def relayedP : Host := { hostA with IsRelayed := true, RelayedBy := "host-r", ListenPort := 51830 }

/-- The relay R with its listen port 51820 only. -/
def relayQ : Host := { relayR with LocalListenPort := 0 }

/-- Scenario S4 as host B sees it: its peer A is relayed by R. -/
def scenarioS4B : Store :=
  { tableStore [relayedP, relayQ, hostB] [nodeA, nodeB] [] [] with
    ResolveUDPAddr := resolveLiteral }

/-! ## Theorems -/

/-! ### Association lists -/

theorem mapGet_mapSet {β : Type} (m : GoMap β) (k k1 : String) (v : β) :
    mapGet (mapSet m k v) k1 = if k = k1 then some v else mapGet m k1 := by
  induction m with
  | nil => simp [mapSet, mapGet]
  | cons hd tl ih =>
    obtain ⟨a, b⟩ := hd
    by_cases h : a = k
    · subst h
      by_cases h1 : a = k1 <;> simp [mapSet, mapGet, h1]
    · by_cases h1 : k = k1
      · subst h1
        simp [mapSet, mapGet, h, ih]
      · by_cases h2 : a = k1
        · subst h2
          simp [mapSet, mapGet, h, h1]
        · simp [mapSet, mapGet, h, h1, h2, ih]

/-! ### Coalescing -/

theorem coalesce_keys (qs : List PeerConfig) (pc : PeerConfig) :
    (coalesce qs pc).map (fun p => p.PublicKey) =
      if pc.PublicKey ∈ qs.map (fun p => p.PublicKey) then qs.map (fun p => p.PublicKey)
      else qs.map (fun p => p.PublicKey) ++ [pc.PublicKey] := by
  induction qs with
  | nil => simp [coalesce]
  | cons q qs ih =>
    by_cases h : q.PublicKey = pc.PublicKey
    · simp [coalesce, h]
    · have h1 : ¬ pc.PublicKey = q.PublicKey := fun e => h e.symm
      by_cases h2 : pc.PublicKey ∈ qs.map (fun p => p.PublicKey)
      · simp only [coalesce, h, if_false, List.map_cons, ih, if_pos h2, List.mem_cons, h1, false_or]
      · simp only [coalesce, h, if_false, List.map_cons, ih, if_neg h2, List.mem_cons, h1, false_or,
          List.cons_append]

theorem coalesce_new (qs : List PeerConfig) (pc : PeerConfig)
    (h : pc.PublicKey ∉ qs.map (fun p => p.PublicKey)) : coalesce qs pc = qs ++ [pc] := by
  induction qs with
  | nil => simp [coalesce]
  | cons q qs ih =>
    simp only [List.map_cons, List.mem_cons, not_or] at h
    have h1 : ¬ q.PublicKey = pc.PublicKey := fun e => h.1 e.symm
    simp [coalesce, h1, ih h.2]

theorem coalesce_at (qs : List PeerConfig) (pc p : PeerConfig) (i : Nat)
    (hn : (qs.map (fun p => p.PublicKey)).Nodup) (hi : qs.get? i = some p)
    (hk : p.PublicKey = pc.PublicKey) :
    coalesce qs pc = qs.set i { p with AllowedIPs := p.AllowedIPs ++ pc.AllowedIPs } := by
  induction qs generalizing i with
  | nil => simp at hi
  | cons q qs ih =>
    cases i with
    | zero =>
      simp only [List.get?_cons_zero, Option.some.injEq] at hi
      subst hi
      simp [coalesce, hk]
    | succ i =>
      simp only [List.get?_cons_succ] at hi
      simp only [List.map_cons, List.nodup_cons] at hn
      have hmem : p.PublicKey ∈ qs.map (fun p => p.PublicKey) :=
        List.mem_map.mpr ⟨p, List.get?_mem hi, rfl⟩
      have h1 : ¬ q.PublicKey = pc.PublicKey := by
        intro e
        apply hn.1
        rw [e, ← hk]
        exact hmem
      simp [coalesce, h1, ih i hn.2 hi]

/-! ### The loops of `GetPeerUpdateForHost` -/

theorem idsFrom_nil (es : List Entry) : IdsFrom es [] := by
  intro k m pid v h
  simp [mapGet] at h

theorem idsFrom_mono {es es1 : List Entry} {ids : GoMap (GoMap IDandAddr)}
    (h : IdsFrom es ids) (hsub : ∀ e ∈ es, e ∈ es1) : IdsFrom es1 ids := by
  intro k m pid v h1 h2
  obtain ⟨e, he, hk⟩ := h k m pid v h1 h2
  exact ⟨e, hsub e he, hk⟩

theorem set_same_key (qs : List PeerConfig) (i : Nat) (p q : PeerConfig)
    (h : qs.get? i = some p) (hk : q.PublicKey = p.PublicKey) :
    (qs.set i q).map (fun p => p.PublicKey) = qs.map (fun p => p.PublicKey) := by
  induction qs generalizing i with
  | nil => simp at h
  | cons a qs ih =>
    cases i with
    | zero =>
      simp only [List.get?_cons_zero, Option.some.injEq] at h
      subst h
      simp [hk]
    | succ i =>
      simp only [List.get?_cons_succ] at h
      simp [ih i h]

theorem get?_set_same (qs : List PeerConfig) (i : Nat) (p q : PeerConfig)
    (h : qs.get? i = some p) : (qs.set i q).get? i = some q := by
  induction qs generalizing i with
  | nil => simp at h
  | cons a qs ih =>
    cases i with
    | zero => simp
    | succ i =>
      simp only [List.get?_cons_succ] at h
      simpa using ih i h

theorem get?_set_other (qs : List PeerConfig) (i j : Nat) (q : PeerConfig) (h : i ≠ j) :
    (qs.set i q).get? j = qs.get? j := by
  induction qs generalizing i j with
  | nil => simp
  | cons a qs ih =>
    cases i with
    | zero =>
      cases j with
      | zero => exact absurd rfl h
      | succ j => simp
    | succ i =>
      cases j with
      | zero => simp
      | succ j =>
        have : i ≠ j := fun e => h (by rw [e])
        simpa using ih i j this

theorem get?_append_new (qs : List PeerConfig) (q : PeerConfig) :
    (qs ++ [q]).get? qs.length = some q := by
  induction qs with
  | nil => simp
  | cons a qs ih => simp

theorem get?_append_old (qs : List PeerConfig) (q p : PeerConfig) (i : Nat)
    (h : qs.get? i = some p) : (qs ++ [q]).get? i = some p := by
  induction qs generalizing i with
  | nil => simp at h
  | cons a qs ih =>
    cases i with
    | zero => simpa using h
    | succ i =>
      simp only [List.get?_cons_succ] at h
      simpa using ih i h

/-- A successful `addPeer` coalesces the entry's config into `Peers` and keeps the
state consistent. -/
theorem addPeer_ok {s : Store} {host : Host} {node peer : Node} {peerHost : Host}
    {st st1 : HostLoop} (hwf : LoopWF st)
    (h : addPeer s host node st peer peerHost = .ok st1) :
    (∃ ips, peerAllowedIPs s node peer = .ok ips) ∧ LoopWF st1 ∧
      st1.upd.Peers = coalesce st.upd.Peers (entryConfig s host (node, peer, peerHost)) ∧
      (∀ es, IdsFrom es st.upd.PeerIDs → IdsFrom (es ++ [(node, peer, peerHost)]) st1.upd.PeerIDs) := by
  unfold addPeer at h
  cases hips : peerAllowedIPs s node peer with
  | error e => simp [hips] at h
  | ok ips =>
    refine ⟨⟨ips, rfl⟩, ?_⟩
    have hcfg : entryConfig s host (node, peer, peerHost) =
        { PublicKey := peerHost.PublicKey
          PersistentKeepaliveInterval := some (rangeKeepalive s node)
          ReplaceAllowedIPs := true
          Endpoint := some (hostPeerEndpoint s host peerHost node peer)
          AllowedIPs := ips } := by
      simp [entryConfig, entryAllowedIPs, hips]
    have hkey : (entryConfig s host (node, peer, peerHost)).PublicKey = peerHost.PublicKey := rfl
    simp only [hips] at h
    cases hget : mapGet st.upd.PeerIDs peerHost.PublicKey with
    | none =>
      simp only [hget] at h
      rw [← hcfg] at h
      injection h with h
      subst h
      have hnew : peerHost.PublicKey ∉ st.upd.Peers.map (fun p => p.PublicKey) := by
        intro hm
        have := (hwf.ids _).mpr hm
        simp [hget] at this
      refine ⟨?_, ?_, ?_⟩
      · constructor
        · simp only [List.map_append, List.map_cons, List.map_nil]
          rw [List.nodup_append]
          refine ⟨hwf.nodup, by simp, ?_⟩
          intro a ha hb
          simp only [List.mem_singleton] at hb
          subst hb
          exact hnew ha
        · intro k
          simp only [mapGet_mapSet, List.map_append, List.map_cons, List.map_nil, List.mem_append,
            List.mem_singleton, hkey]
          by_cases hk : peerHost.PublicKey = k
          · simp [hk]
          · have hk1 : ¬ k = peerHost.PublicKey := fun e => hk e.symm
            simp only [hk, if_false, hk1, or_false]
            exact hwf.ids k
        · intro k hk
          simp only [List.map_append, List.map_cons, List.map_nil, List.mem_append,
            List.mem_singleton, hkey] at hk
          simp only [mapGet_mapSet]
          by_cases hk1 : peerHost.PublicKey = k
          · subst hk1
            exact ⟨st.upd.Peers.length, _, by simp, get?_append_new _ _, rfl⟩
          · simp only [hk1, if_false]
            rcases hk with hk | hk
            · obtain ⟨i, p, h1, h2, h3⟩ := hwf.index k hk
              exact ⟨i, p, h1, get?_append_old _ _ _ _ h2, h3⟩
            · exact absurd hk.symm hk1
      · exact (coalesce_new _ _ hnew).symm
      · intro es hes k m pid v h1 h2
        simp only [mapGet_mapSet] at h1
        by_cases hk : peerHost.PublicKey = k
        · simp only [hk, if_true, Option.some.injEq] at h1
          subst h1
          simp only [mapSet, mapGet] at h2
          by_cases hp : peer.ID = pid
          · exact ⟨(node, peer, peerHost), by simp, hk, hp⟩
          · simp [hp] at h2
        · simp only [hk, if_false] at h1
          obtain ⟨e, he, hek⟩ := hes k m pid v h1 h2
          exact ⟨e, by simp [he], hek⟩
    | some ids =>
      simp only [hget] at h
      have hmem : peerHost.PublicKey ∈ st.upd.Peers.map (fun p => p.PublicKey) :=
        (hwf.ids _).mp (by simp [hget])
      obtain ⟨i, p, h1, h2, h3⟩ := hwf.index _ hmem
      simp only [h1, Option.getD_some, h2] at h
      injection h with h
      subst h
      have hkeys : (st.upd.Peers.set i { p with AllowedIPs := p.AllowedIPs ++ ips }).map
          (fun p => p.PublicKey) = st.upd.Peers.map (fun p => p.PublicKey) :=
        set_same_key _ _ p _ h2 rfl
      refine ⟨?_, ?_, ?_⟩
      · constructor
        · show (List.map _ (st.upd.Peers.set i _)).Nodup
          rw [hkeys]
          exact hwf.nodup
        · intro k
          show (mapGet (mapSet st.upd.PeerIDs peerHost.PublicKey _) k).isSome = true ↔
            k ∈ List.map _ (st.upd.Peers.set i _)
          rw [hkeys, mapGet_mapSet]
          by_cases hk : peerHost.PublicKey = k
          · subst hk
            simp only [if_true, Option.isSome_some, true_iff]
            exact hmem
          · simp only [hk, if_false]
            exact hwf.ids k
        · intro k hk
          change k ∈ List.map _ (st.upd.Peers.set i _) at hk
          rw [hkeys] at hk
          obtain ⟨j, q, hj1, hj2, hj3⟩ := hwf.index k hk
          by_cases hij : i = j
          · subst hij
            rw [h2] at hj2
            injection hj2 with hj2
            subst hj2
            exact ⟨i, { p with AllowedIPs := p.AllowedIPs ++ ips }, hj1,
              get?_set_same _ _ p _ h2, hj3⟩
          · refine ⟨j, q, hj1, ?_, hj3⟩
            show (st.upd.Peers.set i _).get? j = _
            rw [get?_set_other _ _ _ _ hij]
            exact hj2
      · have hc := coalesce_at st.upd.Peers (entryConfig s host (node, peer, peerHost)) p i
          hwf.nodup h2 h3
        rw [hc, hcfg]
      · intro es hes k m pid v hm1 hm2
        change mapGet (mapSet st.upd.PeerIDs peerHost.PublicKey _) k = some m at hm1
        rw [mapGet_mapSet] at hm1
        by_cases hk : peerHost.PublicKey = k
        · simp only [hk, if_true, Option.some.injEq] at hm1
          subst hm1
          rw [mapGet_mapSet] at hm2
          by_cases hp : peer.ID = pid
          · exact ⟨(node, peer, peerHost), by simp, hk, hp⟩
          · simp only [hp, if_false] at hm2
            obtain ⟨e, he, hek⟩ := hes k ids pid v (hk ▸ hget) hm2
            exact ⟨e, by simp [he], hek⟩
        · simp only [hk, if_false] at hm1
          obtain ⟨e, he, hek⟩ := hes k m pid v hm1 hm2
          exact ⟨e, by simp [he], hek⟩


/-- The fold that coalesces the configs of scan entries into a peer list. -/
theorem admissiblePeers_cons (s : Store) (node peer : Node) (ps : List Node) :
    admissiblePeers s node (peer :: ps) =
      admissiblePeers s node [peer] ++ admissiblePeers s node ps := by
  unfold admissiblePeers
  rw [← List.filterMap_append]
  rfl

theorem peerStep_ok {s : Store} {host : Host} {node peer : Node} {st st1 : HostLoop}
    (hwf : LoopWF st) (h : peerStep s host node st peer = .ok st1) :
    LoopWF st1 ∧
      st1.upd.Peers = (admissiblePeers s node [peer]).foldl
        (fun acc e => coalesce acc (entryConfig s host e)) st.upd.Peers ∧
      (∀ es, IdsFrom es st.upd.PeerIDs →
        IdsFrom (es ++ admissiblePeers s node [peer]) st1.upd.PeerIDs) ∧
      (∀ e ∈ admissiblePeers s node [peer], ∃ ips, peerAllowedIPs s e.1 e.2.1 = .ok ips) := by
  unfold peerStep at h
  by_cases hself : peer.ID = node.ID
  · simp only [hself, if_true] at h
    injection h with h
    subst h
    simp [admissiblePeers, hself, hwf]
  · simp only [hself, if_false] at h
    cases hhost : GetHost s peer.HostID with
    | error e => simp [hhost] at h
    | ok peerHost =>
      simp only [hhost] at h
      by_cases hconn : peer.Connected = true
      · by_cases hacl : s.AreNodesAllowed node.Network node.ID peer.ID = true
        · simp only [hconn, hacl, Bool.not_true, if_false] at h
          have hadm : admissiblePeers s node [peer] = [(node, peer, peerHost)] := by
            simp [admissiblePeers, hself, hhost, hconn, hacl]
          obtain ⟨hips, hwf1, hpeers, hids⟩ := addPeer_ok hwf h
          rw [hadm]
          refine ⟨hwf1, by simpa using hpeers, hids, ?_⟩
          intro e he
          simp only [List.mem_singleton] at he
          subst he
          exact hips
        · simp only [hconn, hacl, Bool.not_true, Bool.not_false, if_false, if_true] at h
          injection h with h
          subst h
          simp [admissiblePeers, hself, hhost, hacl, hwf]
      · simp only [hconn, Bool.not_false, if_true] at h
        injection h with h
        subst h
        simp [admissiblePeers, hself, hhost, hconn, hwf]

theorem peerLoop_ok {s : Store} {host : Host} {node : Node} (ps : List Node)
    {st st1 : HostLoop} (hwf : LoopWF st) (h : peerLoop s host node ps st = .ok st1) :
    LoopWF st1 ∧
      st1.upd.Peers = (admissiblePeers s node ps).foldl
        (fun acc e => coalesce acc (entryConfig s host e)) st.upd.Peers ∧
      (∀ es, IdsFrom es st.upd.PeerIDs →
        IdsFrom (es ++ admissiblePeers s node ps) st1.upd.PeerIDs) ∧
      (∀ e ∈ admissiblePeers s node ps, ∃ ips, peerAllowedIPs s e.1 e.2.1 = .ok ips) := by
  induction ps generalizing st with
  | nil =>
    simp only [peerLoop] at h
    injection h with h
    subst h
    simp [admissiblePeers, hwf]
  | cons peer ps ih =>
    simp only [peerLoop] at h
    cases hstep : peerStep s host node st peer with
    | error e => simp [hstep] at h
    | ok st2 =>
      simp only [hstep] at h
      obtain ⟨hwf2, hp2, hi2, ha2⟩ := peerStep_ok hwf hstep
      obtain ⟨hwf1, hp1, hi1, ha1⟩ := ih hwf2 h
      rw [admissiblePeers_cons]
      refine ⟨hwf1, ?_, ?_, ?_⟩
      · rw [hp1, hp2, List.foldl_append]
      · intro es hes
        rw [← List.append_assoc]
        exact hi1 _ (hi2 es hes)
      · intro e he
        rcases List.mem_append.mp he with he | he
        · exact ha2 e he
        · exact ha1 e he

theorem admissibleScan_cons (s : Store) (host : Host) (nodeID : String) (rest : List String) :
    admissibleScan s { host with Nodes := nodeID :: rest } =
      admissibleScan s { host with Nodes := [nodeID] } ++
        admissibleScan s { host with Nodes := rest } := by
  simp [admissibleScan]

theorem nodeStep_ok {s : Store} {host : Host} {nodeID : String} {st st1 : HostLoop}
    (hwf : LoopWF st) (h : nodeStep s host st nodeID = .ok st1) :
    LoopWF st1 ∧
      st1.upd.Peers = (admissibleScan s { host with Nodes := [nodeID] }).foldl
        (fun acc e => coalesce acc (entryConfig s host e)) st.upd.Peers ∧
      (∀ es, IdsFrom es st.upd.PeerIDs →
        IdsFrom (es ++ admissibleScan s { host with Nodes := [nodeID] }) st1.upd.PeerIDs) ∧
      (∀ e ∈ admissibleScan s { host with Nodes := [nodeID] },
        ∃ ips, peerAllowedIPs s e.1 e.2.1 = .ok ips) := by
  unfold nodeStep at h
  cases hnode : s.GetNodeByID nodeID with
  | error e =>
    simp only [hnode] at h
    injection h with h
    subst h
    simp [admissibleScan, hnode, hwf]
  | ok node =>
    simp only [hnode] at h
    by_cases hconn : node.Connected = true
    · simp only [hconn, Bool.not_true, if_false] at h
      cases hps : s.GetNetworkNodes node.Network with
      | error e => simp [hps] at h
      | ok ps =>
        simp only [hps] at h
        have hwf0 : LoopWF { st with upd := { st.upd with
            Network := mapSet st.upd.Network node.Network { DNS := getPeerDNS s node.Network } } } :=
          ⟨hwf.nodup, hwf.ids, hwf.index⟩
        have hscan : admissibleScan s { host with Nodes := [nodeID] } = admissiblePeers s node ps := by
          simp [admissibleScan, hnode, hconn, hps]
        rw [hscan]
        obtain ⟨a, b, c, d⟩ := peerLoop_ok ps hwf0 h
        exact ⟨a, b, c, d⟩
    · simp only [hconn, Bool.not_false, if_true] at h
      injection h with h
      subst h
      simp [admissibleScan, hnode, hconn, hwf]

theorem nodeLoop_ok {s : Store} {host : Host} (ids : List String) {st st1 : HostLoop}
    (hwf : LoopWF st) (h : nodeLoop s host ids st = .ok st1) :
    LoopWF st1 ∧
      st1.upd.Peers = (admissibleScan s { host with Nodes := ids }).foldl
        (fun acc e => coalesce acc (entryConfig s host e)) st.upd.Peers ∧
      (∀ es, IdsFrom es st.upd.PeerIDs →
        IdsFrom (es ++ admissibleScan s { host with Nodes := ids }) st1.upd.PeerIDs) ∧
      (∀ e ∈ admissibleScan s { host with Nodes := ids },
        ∃ ips, peerAllowedIPs s e.1 e.2.1 = .ok ips) := by
  induction ids generalizing st with
  | nil =>
    simp only [nodeLoop] at h
    injection h with h
    subst h
    simp [admissibleScan, hwf]
  | cons nodeID rest ih =>
    simp only [nodeLoop] at h
    cases hstep : nodeStep s host st nodeID with
    | error e => simp [hstep] at h
    | ok st2 =>
      simp only [hstep] at h
      obtain ⟨hwf2, hp2, hi2, ha2⟩ := nodeStep_ok hwf hstep
      obtain ⟨hwf1, hp1, hi1, ha1⟩ := ih hwf2 h
      rw [admissibleScan_cons]
      refine ⟨hwf1, ?_, ?_, ?_⟩
      · rw [hp1, hp2, List.foldl_append]
      · intro es hes
        rw [← List.append_assoc]
        exact hi1 _ (hi2 es hes)
      · intro e he
        rcases List.mem_append.mp he with he | he
        · exact ha2 e he
        · exact ha1 e he

theorem loopWF_init (u : HostPeerUpdate) (hp : u.Peers = []) (hi : u.PeerIDs = []) :
    LoopWF { upd := u, peerIndexMap := [] } := by
  constructor
  · simp [hp]
  · intro k
    simp [hp, hi, mapGet]
  · intro k hk
    simp [hp] at hk

/-- On success the per-host update is the coalescing of the admissible scan. -/
theorem hostUpdate_ok {s : Store} {host : Host} {out : HostPeerUpdate}
    (h : GetPeerUpdateForHost s (some host) = .ok out) :
    out.Peers = (admissibleScan s host).foldl
        (fun acc e => coalesce acc (entryConfig s host e)) [] ∧
      IdsFrom (admissibleScan s host) out.PeerIDs ∧
      (∀ e ∈ admissibleScan s host, ∃ ips, peerAllowedIPs s e.1 e.2.1 = .ok ips) := by
  unfold GetPeerUpdateForHost at h
  simp only at h
  cases hloop : nodeLoop s host host.Nodes
      { upd := { Host := host, Network := [], PeerIDs := [], ServerVersion := s.Version },
        peerIndexMap := [] } with
  | error e => simp [hloop] at h
  | ok st =>
    simp only [hloop] at h
    injection h with h
    subst h
    obtain ⟨_, hp, hi, ha⟩ := nodeLoop_ok host.Nodes (loopWF_init _ rfl rfl) hloop
    have hid : ({ host with Nodes := host.Nodes } : Host) = host := rfl
    rw [hid] at hp hi ha
    refine ⟨hp, ?_, ha⟩
    have := hi [] (idsFrom_nil [])
    simpa using this


/-! ### The coalesced list -/

theorem foldl_coalesce_snoc (cs : List PeerConfig) (c : PeerConfig) :
    (cs ++ [c]).foldl coalesce [] = coalesce (cs.foldl coalesce []) c := by
  simp [List.foldl_append]

theorem coalesced_nodup (cs : List PeerConfig) :
    ((cs.foldl coalesce []).map (fun p => p.PublicKey)).Nodup := by
  induction cs using List.reverseRecOn with
  | nil => simp
  | append_singleton cs c ih =>
    rw [foldl_coalesce_snoc, coalesce_keys]
    by_cases h : c.PublicKey ∈ (cs.foldl coalesce []).map (fun p => p.PublicKey)
    · simpa [h] using ih
    · simp only [h, if_false]
      rw [List.nodup_append]
      refine ⟨ih, by simp, ?_⟩
      intro a ha hb
      simp only [List.mem_singleton] at hb
      subst hb
      exact h ha

theorem coalesced_keys (cs : List PeerConfig) (k : Key) :
    k ∈ (cs.foldl coalesce []).map (fun p => p.PublicKey) ↔ k ∈ cs.map (fun p => p.PublicKey) := by
  induction cs using List.reverseRecOn with
  | nil => simp
  | append_singleton cs c ih =>
    rw [foldl_coalesce_snoc, coalesce_keys]
    by_cases h : c.PublicKey ∈ (cs.foldl coalesce []).map (fun p => p.PublicKey)
    · simp only [h, if_true, List.map_append, List.map_cons, List.map_nil, List.mem_append,
        List.mem_singleton]
      constructor
      · intro hk
        exact Or.inl (ih.mp hk)
      · rintro (hk | hk)
        · exact ih.mpr hk
        · rw [hk]
          exact h
    · simp only [h, if_false, List.map_append, List.map_cons, List.map_nil, List.mem_append,
        List.mem_singleton]
      rw [ih]

theorem coalesce_mem (qs : List PeerConfig) (pc q1 : PeerConfig)
    (hn : (qs.map (fun p => p.PublicKey)).Nodup) (h : q1 ∈ coalesce qs pc) :
    (q1 ∈ qs ∧ q1.PublicKey ≠ pc.PublicKey) ∨
      (∃ q ∈ qs, q.PublicKey = pc.PublicKey ∧
        q1 = { q with AllowedIPs := q.AllowedIPs ++ pc.AllowedIPs }) ∨
      (pc.PublicKey ∉ qs.map (fun p => p.PublicKey) ∧ q1 = pc) := by
  induction qs with
  | nil =>
    simp only [coalesce, List.mem_singleton] at h
    exact Or.inr (Or.inr ⟨by simp, h⟩)
  | cons q qs ih =>
    simp only [List.map_cons, List.nodup_cons] at hn
    by_cases hk : q.PublicKey = pc.PublicKey
    · simp only [coalesce, if_pos hk, List.mem_cons] at h
      rcases h with h | h
      · exact Or.inr (Or.inl ⟨q, by simp, hk, h⟩)
      · refine Or.inl ⟨by simp [h], ?_⟩
        intro e
        apply hn.1
        rw [hk, ← e]
        exact List.mem_map.mpr ⟨q1, h, rfl⟩
    · simp only [coalesce, hk, if_false, List.mem_cons] at h
      rcases h with h | h
      · subst h
        exact Or.inl ⟨by simp, hk⟩
      · rcases ih hn.2 h with ⟨h1, h2⟩ | ⟨q2, h1, h2, h3⟩ | ⟨h1, h2⟩
        · exact Or.inl ⟨by simp [h1], h2⟩
        · exact Or.inr (Or.inl ⟨q2, by simp [h1], h2, h3⟩)
        · refine Or.inr (Or.inr ⟨?_, h2⟩)
          simp only [List.map_cons, List.mem_cons, not_or]
          exact ⟨fun e => hk e.symm, h1⟩

/-- Every entry of the coalesced list is the first config of its key with the
allowed IPs of all configs of that key, in order. -/
theorem coalesced_mem (cs : List PeerConfig) (pc : PeerConfig)
    (h : pc ∈ cs.foldl coalesce []) :
    ∃ c1 pre post, cs = pre ++ c1 :: post ∧ (∀ c ∈ pre, c.PublicKey ≠ c1.PublicKey) ∧
      pc = { c1 with AllowedIPs :=
        (cs.filter (fun c => c.PublicKey = c1.PublicKey)).flatMap (fun c => c.AllowedIPs) } := by
  induction cs using List.reverseRecOn generalizing pc with
  | nil => simp at h
  | append_singleton cs c ih =>
    rw [foldl_coalesce_snoc] at h
    rcases coalesce_mem _ _ _ (coalesced_nodup cs) h with ⟨h1, h2⟩ | ⟨q, h1, h2, h3⟩ | ⟨h1, h2⟩
    · obtain ⟨c1, pre, post, hcs, hpre, hpc⟩ := ih pc h1
      refine ⟨c1, pre, post ++ [c], by simp [hcs], hpre, ?_⟩
      have hkey : pc.PublicKey = c1.PublicKey := by rw [hpc]
      have hne : ¬ c.PublicKey = c1.PublicKey := by
        intro e
        apply h2
        rw [hkey, e]
      rw [hpc]
      simp [List.filter_append, hne]
    · obtain ⟨c1, pre, post, hcs, hpre, hq⟩ := ih q h1
      refine ⟨c1, pre, post ++ [c], by simp [hcs], hpre, ?_⟩
      have hkey : q.PublicKey = c1.PublicKey := by rw [hq]
      have he : c.PublicKey = c1.PublicKey := by rw [← h2, hkey]
      rw [h3, hq]
      simp [List.filter_append, he]
    · refine ⟨c, cs, [], rfl, ?_, ?_⟩
      · intro c2 hc2 e
        apply h1
        rw [coalesced_keys]
        exact List.mem_map.mpr ⟨c2, hc2, e⟩
      · have hnone : cs.filter (fun c2 => c2.PublicKey = c.PublicKey) = [] := by
          rw [List.filter_eq_nil_iff]
          intro c2 hc2
          simp only [decide_eq_true_eq]
          intro e
          apply h1
          rw [coalesced_keys]
          exact List.mem_map.mpr ⟨c2, hc2, e⟩
        rw [h2]
        simp [List.filter_append, hnone]


/-! ### Admissible peers -/

theorem mem_admissiblePeers (s : Store) (node : Node) (ps : List Node) (e : Entry) :
    e ∈ admissiblePeers s node ps ↔
      e.1 = node ∧ e.2.1 ∈ ps ∧ e.2.1.ID ≠ node.ID ∧ e.2.1.Connected = true ∧
        s.AreNodesAllowed node.Network node.ID e.2.1.ID = true ∧
        GetHost s e.2.1.HostID = .ok e.2.2 := by
  obtain ⟨n, p, ph⟩ := e
  unfold admissiblePeers
  rw [List.mem_filterMap]
  constructor
  · rintro ⟨peer, hmem, h⟩
    by_cases hself : peer.ID = node.ID
    · simp [hself] at h
    · simp only [hself, if_false] at h
      cases hhost : GetHost s peer.HostID with
      | error err => simp [hhost] at h
      | ok peerHost =>
        simp only [hhost] at h
        by_cases hc : (peer.Connected && s.AreNodesAllowed node.Network node.ID peer.ID) = true
        · simp only [hc, if_true, Option.some.injEq, Prod.mk.injEq] at h
          obtain ⟨h1, h2, h3⟩ := h
          subst h1 h2 h3
          simp only [Bool.and_eq_true] at hc
          exact ⟨rfl, hmem, hself, hc.1, hc.2, hhost⟩
        · simp [hc] at h
  · rintro ⟨h1, h2, h3, h4, h5, h6⟩
    simp only at h1 h2 h3 h4 h5 h6
    subst h1
    exact ⟨p, h2, by simp [h3, h4, h5, h6]⟩

theorem mem_admissibleScan (s : Store) (host : Host) (node peer : Node) (peerHost : Host) :
    (node, peer, peerHost) ∈ admissibleScan s host ↔ Admissible s host node peer peerHost := by
  unfold admissibleScan Admissible
  rw [List.mem_flatMap]
  constructor
  · rintro ⟨nodeID, hid, h⟩
    cases hnode : s.GetNodeByID nodeID with
    | error err => simp [hnode] at h
    | ok n =>
      simp only [hnode] at h
      by_cases hconn : n.Connected = true
      · simp only [hconn, if_true] at h
        cases hps : s.GetNetworkNodes n.Network with
        | error err => simp [hps] at h
        | ok ps =>
          simp only [hps] at h
          rw [mem_admissiblePeers] at h
          obtain ⟨h1, h2, h3, h4, h5, h6⟩ := h
          simp only at h1 h2 h3 h4 h5 h6
          subst h1
          exact ⟨nodeID, hid, hnode, hconn, ps, hps, h2, h3, h4, h5, h6⟩
      · simp [hconn] at h
  · rintro ⟨nodeID, hid, hnode, hconn, ps, hps, h2, h3, h4, h5, h6⟩
    refine ⟨nodeID, hid, ?_⟩
    simp only [hnode, hconn, if_true, hps]
    rw [mem_admissiblePeers]
    exact ⟨rfl, h2, h3, h4, h5, h6⟩

theorem entryConfig_filter (s : Store) (host : Host) (es : List Entry) (k : Key) :
    ((es.map (entryConfig s host)).filter (fun c => c.PublicKey = k)).flatMap
        (fun c => c.AllowedIPs) =
      (es.filter (fun e => e.2.2.PublicKey = k)).flatMap (entryAllowedIPs s) := by
  induction es with
  | nil => simp
  | cons e es ih =>
    have hk : (entryConfig s host e).PublicKey = e.2.2.PublicKey := rfl
    have ha : (entryConfig s host e).AllowedIPs = entryAllowedIPs s e := rfl
    by_cases h : e.2.2.PublicKey = k
    · simp only [List.map_cons, List.filter_cons, hk, h, decide_True, if_true,
        List.flatMap_cons, ha, ih]
    · simp only [List.map_cons, List.filter_cons, hk, h, decide_False]
      simpa using ih

/-- The peers of a successful per-host update, as the coalesced configs of the
admissible scan. -/
theorem hostUpdate_peers {s : Store} {host : Host} {out : HostPeerUpdate}
    (h : GetPeerUpdateForHost s (some host) = .ok out) :
    out.Peers = ((admissibleScan s host).map (entryConfig s host)).foldl coalesce [] := by
  rw [(hostUpdate_ok h).1, List.foldl_map]

theorem coalesce_keeps (qs : List PeerConfig) (pc q : PeerConfig) (hq : q ∈ qs) :
    ∃ q1 ∈ coalesce qs pc, q1.PublicKey = q.PublicKey ∧ q1.Endpoint = q.Endpoint := by
  induction qs with
  | nil => simp at hq
  | cons a qs ih =>
    by_cases hk : a.PublicKey = pc.PublicKey
    · simp only [coalesce, if_pos hk]
      rcases List.mem_cons.mp hq with hq | hq
      · subst hq
        exact ⟨_, List.mem_cons_self _ _, rfl, rfl⟩
      · exact ⟨q, List.mem_cons_of_mem _ hq, rfl, rfl⟩
    · simp only [coalesce, if_neg hk]
      rcases List.mem_cons.mp hq with hq | hq
      · subst hq
        exact ⟨q, List.mem_cons_self _ _, rfl, rfl⟩
      · obtain ⟨q1, h1, h2⟩ := ih hq
        exact ⟨q1, List.mem_cons_of_mem _ h1, h2⟩

theorem foldl_coalesce_keeps (cs acc : List PeerConfig) (q : PeerConfig) (hq : q ∈ acc) :
    ∃ q1 ∈ cs.foldl coalesce acc, q1.PublicKey = q.PublicKey ∧ q1.Endpoint = q.Endpoint := by
  induction cs generalizing acc q with
  | nil => exact ⟨q, hq, rfl, rfl⟩
  | cons c cs ih =>
    obtain ⟨q1, h1, h2, h3⟩ := coalesce_keeps acc c q hq
    obtain ⟨q2, h4, h5, h6⟩ := ih (coalesce acc c) q1 h1
    exact ⟨q2, h4, h5.trans h2, h6.trans h3⟩

theorem useLocal_eq (host peerHost : Host) (node peer : Node) :
    useLocal host peerHost node peer =
      decide (host.EndpointIP.String = peerHost.EndpointIP.String ∧ node.LocalAddress.IP ≠ [] ∧
        node.LocalAddress.String ≠ peer.LocalAddress.String) := by
  unfold useLocal
  by_cases h1 : host.EndpointIP.String = peerHost.EndpointIP.String <;>
    by_cases h2 : node.LocalAddress.IP = [] <;>
    by_cases h3 : node.LocalAddress.String = peer.LocalAddress.String <;>
    simp [h1, h2, h3]

/-! ### The per-host update: claims C1 to C8 -/

theorem s1_update : GetPeerUpdateForHost scenarioS1 (some hostA) = .ok s1UpdateA := by decide

/-- C1: in a successful per-host update every `peer_ids` entry, every peer key and
every allowed IP comes from an admissible peer node: a node of the network of a
connected node of the host that is not that node, is connected and is allowed by
the ACL. A peer node denied by the ACL from every node of the host therefore
contributes nothing. -/
theorem C1_only_admissible_peers (s : Store) (host : Host) (out : HostPeerUpdate)
    (h : GetPeerUpdateForHost s (some host) = .ok out) :
    (∀ key ids pid v, mapGet out.PeerIDs key = some ids → mapGet ids pid = some v →
      ∃ node peer peerHost, Admissible s host node peer peerHost ∧ peer.ID = pid ∧
        peerHost.PublicKey = key) ∧
    (∀ pc ∈ out.Peers, ∃ node peer peerHost,
      Admissible s host node peer peerHost ∧ peerHost.PublicKey = pc.PublicKey) ∧
    (∀ pc ∈ out.Peers, ∀ ip ∈ pc.AllowedIPs, ∃ node peer peerHost ips,
      Admissible s host node peer peerHost ∧ peerHost.PublicKey = pc.PublicKey ∧
        peerAllowedIPs s node peer = .ok ips ∧ ip ∈ ips) := by
  obtain ⟨_, hids, hok⟩ := hostUpdate_ok h
  have hpeers := hostUpdate_peers h
  refine ⟨?_, ?_, ?_⟩
  · intro key ids pid v h1 h2
    obtain ⟨⟨node, peer, peerHost⟩, he, hk, hp⟩ := hids key ids pid v h1 h2
    exact ⟨node, peer, peerHost, (mem_admissibleScan _ _ _ _ _).mp he, hp, hk⟩
  · intro pc hpc
    have hk : pc.PublicKey ∈ out.Peers.map (fun p => p.PublicKey) :=
      List.mem_map.mpr ⟨pc, hpc, rfl⟩
    rw [hpeers, coalesced_keys, List.map_map] at hk
    obtain ⟨⟨node, peer, peerHost⟩, he, hk⟩ := List.mem_map.mp hk
    exact ⟨node, peer, peerHost, (mem_admissibleScan _ _ _ _ _).mp he, hk⟩
  · intro pc hpc ip hip
    rw [hpeers] at hpc
    obtain ⟨c1, pre, post, _, _, hc⟩ := coalesced_mem _ pc hpc
    have hkey : pc.PublicKey = c1.PublicKey := by rw [hc]
    have hips : pc.AllowedIPs = ((admissibleScan s host).filter
        (fun e => e.2.2.PublicKey = c1.PublicKey)).flatMap (entryAllowedIPs s) := by
      rw [hc]
      exact entryConfig_filter s host _ _
    rw [hips, List.mem_flatMap] at hip
    obtain ⟨⟨node, peer, peerHost⟩, he, hin⟩ := hip
    rw [List.mem_filter] at he
    obtain ⟨ips, hips1⟩ := hok _ he.1
    refine ⟨node, peer, peerHost, ips, (mem_admissibleScan _ _ _ _ _).mp he.1, ?_, hips1, ?_⟩
    · rw [hkey]
      simpa using he.2
    · simp only [entryAllowedIPs] at hin
      simp only at hips1
      rw [hips1] at hin
      exact hin

/-- Scenario S1: the peer of host A's update stems from an admissible peer node
with B's key. -/
theorem C1_only_admissible_peers_witness :
    ∃ node peer peerHost,
      Admissible scenarioS1 hostA node peer peerHost ∧ peerHost.PublicKey = s1PeerB.PublicKey :=
  (C1_only_admissible_peers scenarioS1 hostA s1UpdateA (by decide)).2.1 s1PeerB (by decide)

/-- C2: in a successful per-host update the peers have pairwise distinct public
keys, there is one peer per distinct host key among the admissible peer nodes, and
the allowed IPs of each peer are the concatenation, in scan order, of the allowed
IPs computed for the admissible peer nodes whose host has that key. -/
theorem C2_coalesced_by_key (s : Store) (host : Host) (out : HostPeerUpdate)
    (h : GetPeerUpdateForHost s (some host) = .ok out) :
    (out.Peers.map (fun p => p.PublicKey)).Nodup ∧
    out.Peers.length = ((admissibleScan s host).map (fun e => e.2.2.PublicKey)).toFinset.card ∧
    (∀ pc ∈ out.Peers, pc.AllowedIPs =
      ((admissibleScan s host).filter (fun e => e.2.2.PublicKey = pc.PublicKey)).flatMap
        (entryAllowedIPs s)) ∧
    (∀ e ∈ admissibleScan s host, peerAllowedIPs s e.1 e.2.1 = .ok (entryAllowedIPs s e)) ∧
    (∀ node peer peerHost,
      (node, peer, peerHost) ∈ admissibleScan s host ↔ Admissible s host node peer peerHost) := by
  obtain ⟨_, _, hok⟩ := hostUpdate_ok h
  have hpeers := hostUpdate_peers h
  have hnodup : (out.Peers.map (fun p => p.PublicKey)).Nodup := by
    rw [hpeers]
    exact coalesced_nodup _
  refine ⟨hnodup, ?_, ?_, ?_, fun n p ph => mem_admissibleScan s host n p ph⟩
  · rw [← List.length_map out.Peers (fun p => p.PublicKey), ← List.toFinset_card_of_nodup hnodup]
    congr 1
    ext k
    simp only [List.mem_toFinset]
    rw [hpeers, coalesced_keys, List.map_map]
    rfl
  · intro pc hpc
    rw [hpeers] at hpc
    obtain ⟨c1, pre, post, _, _, hc⟩ := coalesced_mem _ pc hpc
    have hkey : pc.PublicKey = c1.PublicKey := by rw [hc]
    rw [hkey, hc]
    exact entryConfig_filter s host _ _
  · intro e he
    obtain ⟨ips, hips⟩ := hok e he
    simp [entryAllowedIPs, hips]

/-- Scenario S5: the scan for host A meets B in `net1`, C in `net1` and B again in
`net2`; the update has the two peers B and C, and the peer for B carries the allowed
IPs of both nodes of B, in scan order. -/
theorem C2_coalesced_by_key_witness :
    (admissibleScan scenarioS5 dualA).map (fun e => (e.2.1.ID, e.2.2.PublicKey))
      = [("node-b", keyB), ("node-c", keyC), ("node-b2", keyB)] ∧
    s5UpdateA.Peers.map (fun p => (p.PublicKey, p.AllowedIPs.map (fun a => a.String)))
      = [(keyB, ["10.0.0.2/32", "10.1.0.2/32"]), (keyC, ["10.0.0.3/32"])] ∧
    (s5UpdateA.Peers.map (fun p => p.PublicKey)).Nodup ∧
    s5UpdateA.Peers.length =
      ((admissibleScan scenarioS5 dualA).map (fun e => e.2.2.PublicKey)).toFinset.card ∧
    (∀ pc ∈ s5UpdateA.Peers, pc.AllowedIPs =
      ((admissibleScan scenarioS5 dualA).filter
        (fun e => e.2.2.PublicKey = pc.PublicKey)).flatMap (entryAllowedIPs scenarioS5)) :=
  ⟨by decide, by decide,
   (C2_coalesced_by_key scenarioS5 dualA s5UpdateA (by decide)).1,
   (C2_coalesced_by_key scenarioS5 dualA s5UpdateA (by decide)).2.1,
   (C2_coalesced_by_key scenarioS5 dualA s5UpdateA (by decide)).2.2.1⟩

/-- The keepalive pointers of an update all point at the range variable of the peer
loop: B's node has the keepalive 20 and C's node, the last of `net1`, has 25, and
both peers of A read 25, in the per-host update and in the per-node update. -/
theorem keepalive_shared :
    (GetPeerUpdateForHost keepaliveStore (some hostA)).map
        (fun u => u.Peers.map (fun p => (p.PublicKey, p.PersistentKeepaliveInterval)))
      = .ok [(keyB, some 25), (keyC, some 25)] ∧
    (GetPeerUpdate keepaliveStore nodeA hostA).map
        (fun u => u.Peers.map (fun p => (p.PublicKey, p.PersistentKeepaliveInterval)))
      = .ok [(keyB, some 25), (keyC, some 25)] := by
  decide

/-- C3 as stated fails: host A and host B have the same endpoint IP 1.1.1.1, the
local address of A's node is 192.168.1.10 and that of B's node is 192.168.1.20,
both without a mask. The local address of the node is non-nil and the two local
addresses differ, yet the endpoint of A's peer for B is the endpoint IP 1.1.1.1 of
host B, not the local address IP 192.168.1.20 of the peer: the engine compares the
`String()` forms of the local addresses, and both are `<nil>`. -/
theorem C3_counterexample :
    hostA.EndpointIP = lanHostB.EndpointIP ∧ bareA.LocalAddress.IP ≠ [] ∧
    bareA.LocalAddress ≠ bareB.LocalAddress ∧
    bareA.LocalAddress.String = bareB.LocalAddress.String ∧
    admissibleScan bareStore hostA = [(bareA, bareB, lanHostB)] ∧
    ∃ out, GetPeerUpdateForHost bareStore (some hostA) = .ok out ∧
      out.Peers.map (fun pc => (pc.PublicKey, pc.Endpoint))
        = [(lanHostB.PublicKey, some { IP := lanHostB.EndpointIP, Port := 51820 })] ∧
      lanHostB.EndpointIP ≠ bareB.LocalAddress.IP :=
  ⟨by decide, by decide, by decide, by decide, by decide, _, rfl, by decide, by decide⟩

/-- C3, amended: the peer config of the admissible peer node that first introduces
a public key has the endpoint `(ip, port)`: `ip` is the peer's local address IP when
the `String()` forms of the endpoint IPs of the host and the peer host are equal,
the node's local address IP is non-nil and the `String()` forms of the local
addresses of node and peer differ, and the peer host's endpoint IP otherwise;
`port` is the peer host's proxy listen port (the canonical proxy port when that is
zero) when the host has the proxy disabled and the peer host enabled, and the peer
host's listen port otherwise. -/
theorem C3_first_endpoint (s : Store) (host : Host) (out : HostPeerUpdate)
    (node peer : Node) (peerHost : Host) (pre post : List Entry)
    (h : GetPeerUpdateForHost s (some host) = .ok out)
    (hscan : admissibleScan s host = pre ++ (node, peer, peerHost) :: post)
    (hfirst : ∀ e ∈ pre, e.2.2.PublicKey ≠ peerHost.PublicKey) :
    ∃ pc ∈ out.Peers, pc.PublicKey = peerHost.PublicKey ∧
      pc.Endpoint = some
        { IP := if host.EndpointIP.String = peerHost.EndpointIP.String ∧
              node.LocalAddress.IP ≠ [] ∧
              node.LocalAddress.String ≠ peer.LocalAddress.String
            then peer.LocalAddress.IP else peerHost.EndpointIP
          Port := if host.ProxyEnabled = false ∧ peerHost.ProxyEnabled = true
            then (if peerHost.ProxyListenPort = 0 then s.NmProxyPort
              else peerHost.ProxyListenPort)
            else peerHost.ListenPort } := by
  have hpeers := hostUpdate_peers h
  rw [hscan, List.map_append, List.map_cons, List.foldl_append, List.foldl_cons] at hpeers
  have hnew : (entryConfig s host (node, peer, peerHost)).PublicKey ∉
      ((pre.map (entryConfig s host)).foldl coalesce []).map (fun p => p.PublicKey) := by
    rw [coalesced_keys, List.map_map]
    intro hm
    obtain ⟨e, he, hk⟩ := List.mem_map.mp hm
    exact hfirst e he hk
  rw [coalesce_new _ _ hnew] at hpeers
  obtain ⟨q, hq, hk, hep⟩ := foldl_coalesce_keeps (post.map (entryConfig s host)) _
    (entryConfig s host (node, peer, peerHost))
    (List.mem_append_right _ (List.mem_singleton_self _))
  rw [← hpeers] at hq
  refine ⟨q, hq, hk, ?_⟩
  rw [hep]
  simp only [entryConfig, hostPeerEndpoint, useLocal_eq]
  by_cases h1 : host.EndpointIP.String = peerHost.EndpointIP.String ∧
      node.LocalAddress.IP ≠ [] ∧ node.LocalAddress.String ≠ peer.LocalAddress.String <;>
    by_cases h2 : host.ProxyEnabled = true <;>
    by_cases h3 : peerHost.ProxyEnabled = true <;>
    by_cases h4 : peerHost.ProxyListenPort = 0 <;>
    simp [h1, h2, h3, h4]

/-- Scenario S2: A and B share the endpoint 1.1.1.1 and have different local
addresses, so A's peer for B has the endpoint IP 192.168.1.20. -/
theorem C3_first_endpoint_witness :
    ∃ pc ∈ s2UpdateA.Peers, pc.PublicKey = keyB ∧
      pc.Endpoint = some { IP := [192, 168, 1, 20], Port := 51820 } :=
  C3_first_endpoint scenarioS2 hostA s2UpdateA lanA lanB lanHostB [] []
    (by decide) (by decide) (by simp)


/-- C4: for a peer that is not an egress gateway `getNodeAllowedIPs` returns the
peer's address as a /32 when it is non-nil followed by its IPv6 address as a /128
when that is non-nil, and nothing else; in scenario S1 the per-host update of host
A is one peer with B's key, endpoint 2.2.2.2:51820 and allowed IPs 10.0.0.2/32. -/
theorem C4_node_allowed_ips (s : Store) (peer node : Node)
    (h : peer.IsEgressGateway = false) :
    getNodeAllowedIPs s peer node = .ok
      ((if peer.Address.IP ≠ [] then
          [{ IP := peer.Address.IP, Mask := [255, 255, 255, 255] }] else []) ++
       (if peer.Address6.IP ≠ [] then
          [{ IP := peer.Address6.IP, Mask := List.replicate 16 255 }] else [])) ∧
    (GetPeerUpdateForHost scenarioS1 (some hostA)).map (fun u => u.Peers) = .ok
      [{ PublicKey := keyB, Endpoint := some { IP := [2, 2, 2, 2], Port := 51820 }
         PersistentKeepaliveInterval := some 0, ReplaceAllowedIPs := true
         AllowedIPs := [{ IP := [10, 0, 0, 2], Mask := [255, 255, 255, 255] }] }] := by
  constructor
  · have h32 : CIDRMask 32 32 = [255, 255, 255, 255] := by decide
    have h128 : CIDRMask 128 128 = List.replicate 16 255 := by decide
    unfold getNodeAllowedIPs
    rw [h32, h128]
    by_cases h4 : peer.Address.IP = [] <;> by_cases h6 : peer.Address6.IP = [] <;>
      simp [h, h4, h6]
  · decide

/-- Scenario S1: the allowed IPs of node B are its address as a /32. -/
theorem C4_node_allowed_ips_witness :
    getNodeAllowedIPs scenarioS1 nodeB nodeA =
      .ok [{ IP := [10, 0, 0, 2], Mask := [255, 255, 255, 255] }] :=
  (C4_node_allowed_ips scenarioS1 nodeB nodeA rfl).1

theorem parseCIDR_single (c : Char) : ParseCIDR (String.mk [c]) = none := by
  show parseCIDRChars [c] = none
  by_cases h : c = '/'
  · subst h
    decide
  · have : '/' ∉ [c] := by
      simp only [List.mem_singleton]
      exact fun e => h e.symm
    unfold parseCIDRChars
    rw [if_pos this]

/-- C5 (the code fails the claim): the loop that should add the ingress gateway
range runs over the characters of `IngressGatewayRange`, and no one-character
string is a CIDR, so no range is ever added. In scenario S3 the peer entry for the
ingress gateway A, in B's per-host update and in B's per-node update, has the
allowed IPs 10.0.0.1/32 only, although 10.100.0.0/24 is a valid CIDR. -/
theorem C5_ingress_range_not_added :
    (∀ peer : Node, ingressRanges peer = []) ∧
    ParseCIDR ingressA.IngressGatewayRange =
      some { IP := [10, 100, 0, 0], Mask := [255, 255, 255, 0] } ∧
    (GetPeerUpdateForHost scenarioS3 (some hostB)).map (fun u => u.Peers) = .ok
      [{ PublicKey := keyA, Endpoint := some { IP := [1, 1, 1, 1], Port := 51820 }
         PersistentKeepaliveInterval := some 0, ReplaceAllowedIPs := true
         AllowedIPs := [{ IP := [10, 0, 0, 1], Mask := [255, 255, 255, 255] }] }] ∧
    (GetPeerUpdate scenarioS3 nodeB hostB).map (fun u => u.Peers) = .ok
      [{ PublicKey := keyA, Endpoint := some { IP := [1, 1, 1, 1], Port := 51820 }
         PersistentKeepaliveInterval := some 0, ReplaceAllowedIPs := true
         AllowedIPs := [{ IP := [10, 0, 0, 1], Mask := [255, 255, 255, 255] }] }] := by
  refine ⟨?_, by decide, by decide, by decide⟩
  intro peer
  unfold ingressRanges
  rw [List.filterMap_eq_nil_iff]
  intro c _
  exact parseCIDR_single c

/-- C6, counterexample: B is an egress gateway for 10.0.0.0/8 and 0.0.0.0/0 and its
host has the endpoint 10.1.1.1. The range 10.0.0.0/8 contains the endpoint and is
not a default route, yet it is in the result of `getEgressIPs`. -/
theorem C6_counterexample :
    ParseCIDR "10.0.0.0/8" = some { IP := [10, 0, 0, 0], Mask := [255, 0, 0, 0] } ∧
    IPNet.Contains { IP := [10, 0, 0, 0], Mask := [255, 0, 0, 0] } innerHostB.EndpointIP = true ∧
    ("10.0.0.0/8" : String) ≠ "0.0.0.0/0" ∧ ("10.0.0.0/8" : String) ≠ "::/0" ∧
    getEgressIPs (innerEgressStore ["10.0.0.0/8", "0.0.0.0/0"]) lanA
        (egressB ["10.0.0.0/8", "0.0.0.0/0"]) =
      .ok [{ IP := [10, 0, 0, 0], Mask := [255, 0, 0, 0] },
           { IP := [0, 0, 0, 0], Mask := [0, 0, 0, 0] }] := by
  decide

/-- C7 (the code fails the claim): node A has the local address 192.168.1.10/24 and
B is an egress gateway for 192.168.1.0/24 only. The range is not a default route
and contains the IP of the node's local address, yet `getEgressIPs` returns it and
it is in the allowed IPs of B in A's per-host update: the engine parses the CIDR
text of the local address as an IP, which yields nil. -/
theorem C7_local_range_not_omitted :
    ParseCIDR "192.168.1.0/24" = some { IP := [192, 168, 1, 0], Mask := [255, 255, 255, 0] } ∧
    IPNet.Contains { IP := [192, 168, 1, 0], Mask := [255, 255, 255, 0] } lanA.LocalAddress.IP
      = true ∧
    ParseIP lanA.LocalAddress.String = [] ∧
    getEgressIPs (egressStore ["192.168.1.0/24"]) lanA (egressB ["192.168.1.0/24"]) =
      .ok [{ IP := [192, 168, 1, 0], Mask := [255, 255, 255, 0] }] ∧
    (GetPeerUpdateForHost (egressStore ["192.168.1.0/24"]) (some hostA)).map
        (fun u => u.Peers.map (fun p => p.AllowedIPs)) =
      .ok [[{ IP := [10, 0, 0, 2], Mask := [255, 255, 255, 255] },
            { IP := [192, 168, 1, 0], Mask := [255, 255, 255, 0] },
            { IP := [192, 168, 1, 0], Mask := [255, 255, 255, 0] }]] := by
  decide

/-- C8, counterexample: in a snapshot like S1 without the host record of B, the
node list of `net1` is available and the host record of the peer node of B cannot
be loaded; the per-host update of A fails with the error of that load. -/
theorem C8_counterexample :
    missingHostStore.GetNetworkNodes "net1" = .ok [nodeA, nodeB] ∧
    GetHost missingHostStore nodeB.HostID = .error .emptyRecord ∧
    GetPeerUpdateForHost missingHostStore (some hostA) = .error .emptyRecord := by
  decide


/-! ### Egress ranges when both host records load -/

theorem egressLoop_eq (host peerHost : Host) (node : Node) (ig : Bool) (ranges : List String)
    (acc : List IPNet) :
    egressLoop (some host) (some peerHost) node ig ranges acc =
      .ok (acc ++ (ranges.filterMap ParseCIDR).filter
        (fun ipnet => !egressSkips peerHost node ig ipnet)) := by
  induction ranges generalizing acc with
  | nil => simp [egressLoop]
  | cons r rest ih =>
    simp only [egressLoop, egressStep]
    cases hp : ParseCIDR r with
    | none => simp [hp, ih]
    | some ipnet =>
      simp only [List.filterMap_cons, hp, List.filter_cons]
      have hs : egressSkips peerHost node ig ipnet =
          ((ipnet.Contains (parseIPChars
            ((splitChars ':' peerHost.EndpointIP.String.toList).headD [])) && !ig)
          || (ipnet.Contains (ParseIP node.LocalAddress.String) && !ig)) := rfl
      rw [hs]
      generalize ipnet.Contains (parseIPChars
        ((splitChars ':' peerHost.EndpointIP.String.toList).headD [])) = a
      generalize ipnet.Contains (ParseIP node.LocalAddress.String) = b
      cases a <;> cases b <;> cases ig <;> simp [ih]

theorem getEgressIPs_eq (s : Store) (node peer : Node) (host peerHost : Host)
    (hh : GetHost s node.HostID = .ok host) (hp : GetHost s peer.HostID = .ok peerHost) :
    getEgressIPs s node peer =
      .ok ((peer.EgressGatewayRanges.filterMap ParseCIDR).filter
        (fun ipnet => !egressSkips peerHost node (isInternetGateway peer) ipnet)) := by
  unfold getEgressIPs
  simp only [hh, hp, hostPtr]
  rw [egressLoop_eq]
  simp [isInternetGateway]

theorem peerAllowedIPs_ok (s : Store) (node peer : Node) (host peerHost : Host)
    (hh : GetHost s node.HostID = .ok host) (hp : GetHost s peer.HostID = .ok peerHost) :
    ∃ ips, peerAllowedIPs s node peer = .ok ips := by
  unfold peerAllowedIPs getNodeAllowedIPs
  rw [getEgressIPs_eq s node peer host peerHost hh hp]
  by_cases he : peer.IsEgressGateway = true
  · simp [he]
  · simp [he]

theorem addPeer_progress {s : Store} {host : Host} {node peer : Node} {peerHost : Host}
    {st : HostLoop} (hwf : LoopWF st) (hips : ∃ ips, peerAllowedIPs s node peer = .ok ips) :
    ∃ st1, addPeer s host node st peer peerHost = .ok st1 := by
  obtain ⟨ips, hips⟩ := hips
  unfold addPeer
  simp only [hips]
  cases hget : mapGet st.upd.PeerIDs peerHost.PublicKey with
  | none => exact ⟨_, rfl⟩
  | some ids =>
    have hmem : peerHost.PublicKey ∈ st.upd.Peers.map (fun p => p.PublicKey) :=
      (hwf.ids _).mp (by simp [hget])
    obtain ⟨i, p, h1, h2, _⟩ := hwf.index _ hmem
    simp only [h1, Option.getD_some, h2]
    exact ⟨_, rfl⟩

theorem peerLoop_progress {s : Store} {host : Host} {node : Node} {nodeHost : Host}
    (ps : List Node) {st : HostLoop} (hwf : LoopWF st)
    (hh : GetHost s node.HostID = .ok nodeHost)
    (hps : ∀ peer ∈ ps, peer.ID ≠ node.ID → ∃ peerHost, GetHost s peer.HostID = .ok peerHost) :
    ∃ st1, peerLoop s host node ps st = .ok st1 := by
  induction ps generalizing st with
  | nil => exact ⟨st, rfl⟩
  | cons peer ps ih =>
    have hstep : ∃ st2, peerStep s host node st peer = .ok st2 := by
      unfold peerStep
      by_cases hself : peer.ID = node.ID
      · exact ⟨st, by simp [hself]⟩
      · obtain ⟨peerHost, hp⟩ := hps peer (List.mem_cons_self _ _) hself
        simp only [hself, if_false, hp]
        by_cases hc : peer.Connected = true
        · by_cases ha : s.AreNodesAllowed node.Network node.ID peer.ID = true
          · simp only [hc, ha, Bool.not_true, if_false]
            exact addPeer_progress hwf (peerAllowedIPs_ok s node peer nodeHost peerHost hh hp)
          · exact ⟨st, by simp [hc, ha]⟩
        · exact ⟨st, by simp [hc]⟩
    obtain ⟨st2, hstep⟩ := hstep
    obtain ⟨hwf2, _⟩ := peerStep_ok hwf hstep
    obtain ⟨st1, h1⟩ := ih hwf2 (fun p hp => hps p (List.mem_cons_of_mem _ hp))
    exact ⟨st1, by simp [peerLoop, hstep, h1]⟩

theorem nodeLoop_progress (s : Store) (host : Host) (ids : List String) {st : HostLoop}
    (hwf : LoopWF st)
    (hids : ∀ nodeID ∈ ids, ∀ node, s.GetNodeByID nodeID = .ok node → node.Connected = true →
      (∃ nodeHost, GetHost s node.HostID = .ok nodeHost) ∧
      ∃ ps, s.GetNetworkNodes node.Network = .ok ps ∧
        ∀ peer ∈ ps, peer.ID ≠ node.ID → ∃ peerHost, GetHost s peer.HostID = .ok peerHost) :
    ∃ st1, nodeLoop s host ids st = .ok st1 := by
  induction ids generalizing st with
  | nil => exact ⟨st, rfl⟩
  | cons nodeID rest ih =>
    have hstep : ∃ st2, nodeStep s host st nodeID = .ok st2 := by
      unfold nodeStep
      cases hnode : s.GetNodeByID nodeID with
      | error e => exact ⟨st, rfl⟩
      | ok node =>
        by_cases hc : node.Connected = true
        · obtain ⟨⟨nodeHost, hh⟩, ps, hps, hall⟩ := hids nodeID (List.mem_cons_self _ _) node hnode hc
          simp only [hc, Bool.not_true, if_false, hps]
          exact peerLoop_progress ps ⟨hwf.nodup, hwf.ids, hwf.index⟩ hh hall
        · exact ⟨st, by simp [hc]⟩
    obtain ⟨st2, hstep⟩ := hstep
    obtain ⟨hwf2, _⟩ := nodeStep_ok hwf hstep
    obtain ⟨st1, h1⟩ := ih hwf2 (fun i hi => hids i (List.mem_cons_of_mem _ hi))
    exact ⟨st1, by simp [nodeLoop, hstep, h1]⟩

theorem peerLoop_fails (s : Store) (host : Host) {node : Node} (ps : List Node) (st : HostLoop)
    (peer : Node) (hmem : peer ∈ ps) (hself : peer.ID ≠ node.ID) (e : Error)
    (hp : GetHost s peer.HostID = .error e) :
    ∃ e1, peerLoop s host node ps st = .error e1 := by
  induction ps generalizing st with
  | nil => simp at hmem
  | cons p ps ih =>
    simp only [peerLoop]
    cases hstep : peerStep s host node st p with
    | error e1 => exact ⟨e1, rfl⟩
    | ok st2 =>
      rcases List.mem_cons.mp hmem with hm | hm
      · subst hm
        simp [peerStep, hself, hp] at hstep
      · exact ih st2 hm

theorem nodeLoop_fails (s : Store) (host : Host) (ids : List String) (st : HostLoop)
    (nodeID : String) (hmem : nodeID ∈ ids) (node : Node)
    (hnode : s.GetNodeByID nodeID = .ok node) (hc : node.Connected = true)
    (hbad : (∃ e, s.GetNetworkNodes node.Network = .error e) ∨
      ∃ ps peer e, s.GetNetworkNodes node.Network = .ok ps ∧ peer ∈ ps ∧ peer.ID ≠ node.ID ∧
        GetHost s peer.HostID = .error e) :
    ∃ e1, nodeLoop s host ids st = .error e1 := by
  induction ids generalizing st with
  | nil => simp at hmem
  | cons i ids ih =>
    simp only [nodeLoop]
    cases hstep : nodeStep s host st i with
    | error e1 => exact ⟨e1, rfl⟩
    | ok st2 =>
      rcases List.mem_cons.mp hmem with hm | hm
      · subst hm
        exfalso
        unfold nodeStep at hstep
        simp only [hnode, hc, Bool.not_true, if_false] at hstep
        rcases hbad with ⟨e, he⟩ | ⟨ps, peer, e, hps, hpm, hself, hp⟩
        · simp [he] at hstep
        · simp only [hps] at hstep
          obtain ⟨e1, he1⟩ := peerLoop_fails s host ps
            { st with upd := { st.upd with
              Network := mapSet st.upd.Network node.Network { DNS := getPeerDNS s node.Network } } }
            peer hpm hself e hp
          rw [he1] at hstep
          exact absurd hstep (by simp)
      · exact ih st2 hm

/-- C8 (amended): the per-host update fails when the node list of the network of a
connected node of the host cannot be obtained, and also when the host record of a
peer node of such a network, other than the node itself, cannot be loaded; node
ids that do not load and nodes that are not connected are skipped, and the update
succeeds when for every connected node of the host its host record, the node list
of its network and the host records of the other nodes of that list load. -/
theorem C8_fails_on_peer_host (s : Store) (host : Host) :
    (∀ nodeID ∈ host.Nodes, ∀ node, s.GetNodeByID nodeID = .ok node → node.Connected = true →
      ((∃ e, s.GetNetworkNodes node.Network = .error e) ∨
        ∃ ps peer e, s.GetNetworkNodes node.Network = .ok ps ∧ peer ∈ ps ∧
          peer.ID ≠ node.ID ∧ GetHost s peer.HostID = .error e) →
      ∃ e1, GetPeerUpdateForHost s (some host) = .error e1) ∧
    ((∀ nodeID ∈ host.Nodes, ∀ node, s.GetNodeByID nodeID = .ok node → node.Connected = true →
        (∃ nodeHost, GetHost s node.HostID = .ok nodeHost) ∧
        ∃ ps, s.GetNetworkNodes node.Network = .ok ps ∧
          ∀ peer ∈ ps, peer.ID ≠ node.ID → ∃ peerHost, GetHost s peer.HostID = .ok peerHost) →
      ∃ out, GetPeerUpdateForHost s (some host) = .ok out) := by
  constructor
  · intro nodeID hmem node hnode hc hbad
    obtain ⟨e1, he1⟩ := nodeLoop_fails s host host.Nodes
      { upd := { Host := host, Network := [], PeerIDs := [], ServerVersion := s.Version }
        peerIndexMap := [] } nodeID hmem node hnode hc hbad
    exact ⟨e1, by simp [GetPeerUpdateForHost, he1]⟩
  · intro hall
    obtain ⟨st1, h1⟩ := nodeLoop_progress s host host.Nodes
      (loopWF_init { Host := host, Network := [], PeerIDs := [], ServerVersion := s.Version }
        rfl rfl) hall
    exact ⟨st1.upd, by simp [GetPeerUpdateForHost, h1]⟩

/-- Without the host record of B the update of host A fails. -/
theorem C8_fails_on_peer_host_witness :
    ∃ e1, GetPeerUpdateForHost missingHostStore (some hostA) = .error e1 :=
  (C8_fails_on_peer_host missingHostStore hostA).1 "node-a" (by decide) nodeA (by decide)
    (by decide) (Or.inr ⟨[nodeA, nodeB], nodeB, .emptyRecord, by decide, by decide, by decide,
      by decide⟩)


/-! ### The stable sort -/

theorem insertStable_perm {α : Type} (less : α → α → Bool) (x : α) (l : List α) :
    (insertStable less x l).Perm (x :: l) := by
  induction l with
  | nil => simp [insertStable]
  | cons y ys ih =>
    by_cases h : less y x = true
    · simp only [insertStable, h, if_true]
      exact (List.Perm.cons y ih).trans (List.Perm.swap x y ys)
    · simp [insertStable, h]

theorem sliceStable_perm {α : Type} (less : α → α → Bool) (l : List α) :
    (sliceStable less l).Perm l := by
  induction l with
  | nil => simp [sliceStable]
  | cons x xs ih =>
    simp only [sliceStable]
    exact (insertStable_perm less x _).trans (List.Perm.cons x ih)

theorem insertStable_sorted {α β : Type} [LinearOrder β] (f : α → β) (less : α → α → Bool)
    (hless : ∀ a b, less a b = true ↔ f a < f b) (x : α) (l : List α)
    (hl : l.Pairwise (fun a b => f a ≤ f b)) :
    (insertStable less x l).Pairwise (fun a b => f a ≤ f b) := by
  induction l with
  | nil => simp [insertStable]
  | cons y ys ih =>
    rw [List.pairwise_cons] at hl
    by_cases h : less y x = true
    · simp only [insertStable, h, if_true]
      rw [List.pairwise_cons]
      refine ⟨?_, ih hl.2⟩
      intro z hz
      rcases (List.mem_cons.mp ((insertStable_perm less x ys).subset hz)) with hz | hz
      · rw [hz]
        exact le_of_lt ((hless y x).mp h)
      · exact hl.1 z hz
    · rw [insertStable, if_neg h]
      have hxy : f x ≤ f y := by
        rw [hless] at h
        exact not_lt.mp h
      rw [List.pairwise_cons]
      refine ⟨?_, List.pairwise_cons.mpr hl⟩
      intro z hz
      rcases List.mem_cons.mp hz with hz | hz
      · rw [hz]
        exact hxy
      · exact le_trans hxy (hl.1 z hz)

theorem sliceStable_sorted {α β : Type} [LinearOrder β] (f : α → β) (less : α → α → Bool)
    (hless : ∀ a b, less a b = true ↔ f a < f b) (l : List α) :
    (sliceStable less l).Pairwise (fun a b => f a ≤ f b) := by
  induction l with
  | nil => simp [sliceStable]
  | cons x xs ih =>
    simp only [sliceStable]
    exact insertStable_sorted f less hless x _ ih

theorem insertStable_filter {α β : Type} [LinearOrder β] (f : α → β) (less : α → α → Bool)
    (hless : ∀ a b, less a b = true ↔ f a < f b) (x : α) (l : List α) (k : β)
    (p : α → Bool) (hp : ∀ a, p a = true ↔ f a = k) :
    (insertStable less x l).filter p = (x :: l).filter p := by
  induction l with
  | nil => simp [insertStable]
  | cons y ys ih =>
    by_cases h : less y x = true
    · rw [insertStable, if_pos h]
      have hlt : f y < f x := (hless y x).mp h
      by_cases hx : p x = true
      · have hy : ¬ p y = true := by
          intro e
          rw [hp] at hx e
          rw [hx, e] at hlt
          exact lt_irrefl _ hlt
        rw [List.filter_cons, ih]
        simp [hx, hy]
      · rw [List.filter_cons, ih]
        simp [hx, List.filter_cons]
    · rw [insertStable, if_neg h]

theorem sliceStable_filter {α β : Type} [LinearOrder β] (f : α → β) (less : α → α → Bool)
    (hless : ∀ a b, less a b = true ↔ f a < f b) (l : List α) (k : β)
    (p : α → Bool) (hp : ∀ a, p a = true ↔ f a = k) :
    (sliceStable less l).filter p = l.filter p := by
  induction l with
  | nil => simp [sliceStable]
  | cons x xs ih =>
    simp only [sliceStable]
    rw [insertStable_filter f less hless _ _ k p hp, List.filter_cons, List.filter_cons, ih]

theorem keyLess_iff (a b : PeerConfig) : keyLess a b = true ↔ a.PublicKey < b.PublicKey := by
  unfold keyLess
  rw [decide_eq_true_iff, String.lt_iff_toList_lt]

/-- The three properties of the sort by public key: ordered, a permutation, and
stable. -/
theorem sortedByKey (l : List PeerConfig) :
    (sliceStable keyLess l).Pairwise (fun a b => a.PublicKey ≤ b.PublicKey) ∧
    (sliceStable keyLess l).Perm l ∧
    ∀ k : Key, (sliceStable keyLess l).filter (fun p => p.PublicKey = k) =
      l.filter (fun p => p.PublicKey = k) :=
  ⟨sliceStable_sorted (fun p => p.PublicKey) keyLess keyLess_iff l,
   sliceStable_perm keyLess l,
   fun k => sliceStable_filter (fun p => p.PublicKey) keyLess keyLess_iff l k _
     (fun a => by simp)⟩

theorem legacyCollect_eq {s : Store} {node : Node} {st : LegacyLoop}
    (h : legacyCollect s node = .ok st) :
    ∃ currentPeers hostSt, s.GetNetworkNodes node.Network = .ok currentPeers ∧
      legacyLoop s node (legacyMetrics s node) (s.GetPeers node.Network) currentPeers
        { peers := [], peerMap := [] } = .ok hostSt ∧
      st.peers = hostSt.peers ++ relayedCollect s node := by
  unfold legacyCollect at h
  cases hps : s.GetNetworkNodes node.Network with
  | error e => simp [hps] at h
  | ok ps =>
    simp only [hps] at h
    cases hl : legacyLoop s node (legacyMetrics s node) (s.GetPeers node.Network) ps
        { peers := [], peerMap := [] } with
    | error e => simp [hl] at h
    | ok hostSt =>
      simp only [hl] at h
      refine ⟨ps, hostSt, rfl, hl, ?_⟩
      unfold relayedCollect
      by_cases hi : node.IsIngressGateway = true
      · simp only [hi, if_true] at h ⊢
        cases he : getExtPeers s node true with
        | error e =>
          simp only [he] at h
          injection h with h
          subst h
          simp
        | ok r =>
          obtain ⟨ext, ids⟩ := r
          simp only [he] at h
          injection h with h
          subst h
          rfl
      · simp only [hi] at h ⊢
        injection h with h
        subst h
        simp

/-- C10: the peers returned by `GetPeerUpdateLegacy` and by
`GetPeerUpdateForRelayedNode` are in non-decreasing order of their public-key
strings and are a permutation of the peers collected before the sort (the host
peers followed by the external-client peers of an ingress gateway), with peers of
equal key in collection order. -/
theorem C10_sorted_by_key (s : Store) (node : Node) :
    (∀ out, GetPeerUpdateLegacy s node = .ok out →
      ∃ currentPeers hostSt, s.GetNetworkNodes node.Network = .ok currentPeers ∧
        legacyLoop s node (legacyMetrics s node) (s.GetPeers node.Network) currentPeers
          { peers := [], peerMap := [] } = .ok hostSt ∧
        out.Peers.Pairwise (fun a b => a.PublicKey ≤ b.PublicKey) ∧
        out.Peers.Perm (hostSt.peers ++ relayedCollect s node) ∧
        ∀ k : Key, out.Peers.filter (fun p => p.PublicKey = k) =
          (hostSt.peers ++ relayedCollect s node).filter (fun p => p.PublicKey = k)) ∧
    (∀ udppeers, ∃ out, GetPeerUpdateForRelayedNode s node udppeers = .ok out ∧
        out.Peers.Pairwise (fun a b => a.PublicKey ≤ b.PublicKey) ∧
        out.Peers.Perm (relayedCollect s node) ∧
        ∀ k : Key, out.Peers.filter (fun p => p.PublicKey = k) =
          (relayedCollect s node).filter (fun p => p.PublicKey = k)) := by
  constructor
  · intro out h
    unfold GetPeerUpdateLegacy at h
    cases hc : legacyCollect s node with
    | error e => simp [hc] at h
    | ok st =>
      simp only [hc] at h
      injection h with h
      subst h
      obtain ⟨ps, hostSt, h1, h2, h3⟩ := legacyCollect_eq hc
      refine ⟨ps, hostSt, h1, h2, ?_⟩
      rw [← h3]
      exact sortedByKey st.peers
  · intro udppeers
    exact ⟨_, rfl, sortedByKey (relayedCollect s node)⟩

/-- Scenario S3 with two external clients: the peers of A's legacy update are
collected as the host peer B followed by the external clients EC and CC, and
returned in the order B, CC, EC of their keys. -/
theorem C10_sorted_by_key_witness :
    (relayedCollect scenarioS3B idleIngressA).map (fun p => p.PublicKey) = [keyE, keyC] ∧
    s3bLegacyA.Peers.map (fun p => p.PublicKey) = [keyB, keyC, keyE] ∧
    s3bLegacyA.Peers.Pairwise (fun a b => a.PublicKey ≤ b.PublicKey) := by
  obtain ⟨_, _, _, _, h, _⟩ :=
    (C10_sorted_by_key scenarioS3B idleIngressA).1 s3bLegacyA (by decide)
  exact ⟨by decide, by decide, h⟩


/-! ### External clients of an ingress gateway -/

theorem extAllowed_eq (addr : String) (ones bits : Nat) (h : CIDRMask ones bits ≠ []) :
    extAllowed addr ones bits =
      if ParseIP addr ≠ [] then [{ IP := ParseIP addr, Mask := CIDRMask ones bits }] else [] := by
  unfold extAllowed
  by_cases ha : addr = ""
  · subst ha
    have : ParseIP "" = [] := by decide
    simp [this]
  · simp [ha, h]

/-- C9: for an ingress gateway node whose host record loads and whose legacy
update succeeds, every external client stored for its network whose public key
parses and differs from the key of the node's host is a peer of the update, with
the parsed key, `replace_allowed_ips` set and the allowed IPs `address/32` (when
the address is a valid IP) followed by `address6/128` (when that is a valid IP). -/
theorem C9_ext_clients_are_peers (s : Store) (node : Node) (host : Host) (out : PeerUpdate)
    (clients : List ExtClient) (client : ExtClient) (pubkey : Key)
    (hingress : node.IsIngressGateway = true)
    (hhost : GetHost s node.HostID = .ok host)
    (hout : GetPeerUpdateLegacy s node = .ok out)
    (hclients : s.GetNetworkExtClients node.Network = .ok clients)
    (hmem : client ∈ clients)
    (_hattached : client.IngressGatewayID = node.ID)
    (hkey : s.ParseKey client.PublicKey = some pubkey)
    (hother : host.PublicKey ≠ client.PublicKey) :
    ({ PublicKey := pubkey
       ReplaceAllowedIPs := true
       AllowedIPs :=
         (if ParseIP client.Address ≠ [] then
            [{ IP := ParseIP client.Address, Mask := [255, 255, 255, 255] }] else []) ++
         (if ParseIP client.Address6 ≠ [] then
            [{ IP := ParseIP client.Address6, Mask := List.replicate 16 255 }] else []) }
      : PeerConfig) ∈ out.Peers := by
  have h32 : CIDRMask 32 32 = [255, 255, 255, 255] := by decide
  have h128 : CIDRMask 128 128 = List.replicate 16 255 := by decide
  unfold GetPeerUpdateLegacy at hout
  cases hc : legacyCollect s node with
  | error e => simp [hc] at hout
  | ok st =>
    simp only [hc] at hout
    injection hout with hout
    subst hout
    obtain ⟨ps, hostSt, _, _, h3⟩ := legacyCollect_eq hc
    apply (sliceStable_perm keyLess st.peers).symm.subset
    rw [h3]
    apply List.mem_append_right
    have hext : relayedCollect s node =
        (clients.filterMap (extPeerStep s host true)).map Prod.fst := by
      simp [relayedCollect, hingress, getExtPeers, hclients, hhost]
    rw [hext, List.mem_map]
    refine ⟨(_, { ID := pubkey, Address := if client.Address = "" then client.Address6
      else client.Address }), ?_, rfl⟩
    rw [List.mem_filterMap]
    refine ⟨client, hmem, ?_⟩
    have e4 := extAllowed_eq client.Address 32 32 (by rw [h32]; simp)
    have e6 := extAllowed_eq client.Address6 128 128 (by rw [h128]; simp)
    rw [h32] at e4
    rw [h128] at e6
    simp [extPeerStep, hkey, hother, extAllowedIPs, e4, e6]

/-- Scenario S3: the external client EC is a peer of A's legacy update with the
allowed IP 10.100.0.5/32. -/
theorem C9_ext_clients_are_peers_witness :
    ({ PublicKey := keyE, ReplaceAllowedIPs := true
       AllowedIPs := [{ IP := [0, 0, 0, 0, 0, 0, 0, 0, 0, 0, 255, 255, 10, 100, 0, 5]
                        Mask := [255, 255, 255, 255] }] } : PeerConfig) ∈ s3LegacyA.Peers :=
  C9_ext_clients_are_peers scenarioS3 ingressA hostA s3LegacyA [clientEC] clientEC keyE
    (by decide) (by decide) (by decide) (by decide) (by decide) (by decide) (by decide)
    (by decide)


/-! ### Text forms of addresses -/

theorem hexDigit_toNat (d : Nat) (h : d < 16) :
    (hexDigit d).toNat = if d < 10 then 48 + d else 87 + d := by
  interval_cases d <;> rfl

theorem hexDigit_ne (d : Nat) (h : d < 16) :
    hexDigit d ≠ '.' ∧ hexDigit d ≠ ':' ∧ hexDigit d ≠ '/' := by
  interval_cases d <;> decide

theorem splitChars_head (sep : Char) (s : List Char) :
    ∀ c ∈ (splitChars sep s).headD [], c ∈ s ∧ c ≠ sep := by
  induction s with
  | nil => simp [splitChars]
  | cons a s ih =>
    intro c hc
    by_cases h : a = sep
    · simp [splitChars, h] at hc
    · simp only [splitChars, h, if_false] at hc
      cases hs : splitChars sep s with
      | nil =>
        simp only [hs, List.headD_cons, List.mem_singleton] at hc
        subst hc
        exact ⟨List.mem_cons_self _ _, h⟩
      | cons f fs =>
        simp only [hs, List.headD_cons, List.mem_cons] at hc
        rcases hc with hc | hc
        · subst hc
          exact ⟨List.mem_cons_self _ _, h⟩
        · have := ih c (by simp [hs, hc])
          exact ⟨List.mem_cons_of_mem _ this.1, this.2⟩

theorem splitChars_none (sep : Char) (s : List Char) (h : sep ∉ s) :
    splitChars sep s = [s] := by
  induction s with
  | nil => simp [splitChars]
  | cons a s ih =>
    simp only [List.mem_cons, not_or] at h
    have h1 : ¬ a = sep := fun e => h.1 e.symm
    simp [splitChars, h1, ih h.2]

theorem parseIPChars_plain (s : List Char) (h1 : '.' ∉ s) (h2 : ':' ∉ s) :
    parseIPChars s = [] := by
  unfold parseIPChars
  have : s.find? (fun ch => decide (ch = '.' ∨ ch = ':')) = none := by
    rw [List.find?_eq_none]
    intro c hc
    simp only [decide_eq_true_eq, not_or]
    exact ⟨fun e => h1 (e ▸ hc), fun e => h2 (e ▸ hc)⟩
  rw [this]

theorem parseIPChars_dot (s : List Char) (h1 : '.' ∈ s) (h2 : ':' ∉ s) :
    parseIPChars s = parseIPv4 s := by
  unfold parseIPChars
  cases hf : s.find? (fun ch => decide (ch = '.' ∨ ch = ':')) with
  | none =>
    rw [List.find?_eq_none] at hf
    have := hf '.' h1
    simp at this
  | some c =>
    have hp := List.find?_some hf
    have hm := List.mem_of_find?_eq_some hf
    simp only [decide_eq_true_eq] at hp
    rcases hp with hp | hp
    · subst hp
      rfl
    · subst hp
      exact absurd hm h2

theorem ubtoa_chars (v : Nat) (hv : v < 256) :
    ∀ c ∈ ubtoa v, (48 ≤ c.toNat ∧ c.toNat ≤ 57) := by
  intro c hc
  unfold ubtoa at hc
  have key : ∀ d, d < 10 → 48 ≤ (hexDigit d).toNat ∧ (hexDigit d).toNat ≤ 57 := by
    intro d hd
    rw [hexDigit_toNat d (by omega)]
    simp only [hd, if_true]
    omega
  split_ifs at hc with h1 h2
  · simp only [List.mem_singleton] at hc
    subst hc
    exact key v h1
  · simp only [List.mem_cons, List.mem_singleton, List.not_mem_nil, or_false] at hc
    rcases hc with hc | hc <;> subst hc
    · exact key _ (by omega)
    · exact key _ (by omega)
  · simp only [List.mem_cons, List.mem_singleton, List.not_mem_nil, or_false] at hc
    rcases hc with hc | hc | hc <;> subst hc
    · exact key _ (by omega)
    · exact key _ (by omega)
    · exact key _ (by omega)

theorem dtoiLoop_digit (n c d : Nat) (hd : d < 10) (rest : List Char)
    (hn : n * 10 + d < 16777215) :
    dtoiLoop n c (hexDigit d :: rest) = dtoiLoop (n * 10 + d) (c + 1) rest := by
  have ht : (hexDigit d).toNat = 48 + d := by
    rw [hexDigit_toNat d (by omega)]
    simp [hd]
  rw [dtoiLoop]
  simp only [ht]
  have h1 : 48 ≤ 48 + d ∧ 48 + d ≤ 57 := by omega
  have h2 : 48 + d - 48 = d := by omega
  rw [if_pos h1, h2, if_neg (by omega)]

theorem dtoiLoop_stop (n c : Nat) (rest : List Char)
    (hr : rest = [] ∨ ∃ t, rest = '.' :: t) :
    dtoiLoop n c rest = some (n, c, rest) := by
  rcases hr with hr | ⟨t, hr⟩
  · subst hr
    rfl
  · subst hr
    rw [dtoiLoop]
    have : ¬ (48 ≤ ('.' : Char).toNat ∧ ('.' : Char).toNat ≤ 57) := by decide
    rw [if_neg this]

theorem dtoi_ubtoa (v : Nat) (hv : v < 256) (rest : List Char)
    (hr : rest = [] ∨ ∃ t, rest = '.' :: t) :
    dtoi (ubtoa v ++ rest) = some (v, (ubtoa v).length, rest) ∧
      ¬ ((ubtoa v).length > 1 ∧ (ubtoa v ++ rest).head? = some '0') := by
  unfold dtoi ubtoa
  split_ifs with h1 h2
  · constructor
    · simp only [List.singleton_append]
      rw [dtoiLoop_digit 0 0 v h1 rest (by omega), dtoiLoop_stop _ _ rest hr]
      simp
    · simp
  · constructor
    · simp only [List.cons_append, List.nil_append]
      rw [dtoiLoop_digit 0 0 (v / 10) (by omega) _ (by omega),
        dtoiLoop_digit _ _ (v % 10) (by omega) _ (by omega), dtoiLoop_stop _ _ rest hr]
      have : v / 10 * 10 + v % 10 = v := by omega
      simp [this]
    · simp only [List.cons_append, List.head?_cons, Option.some.injEq, not_and]
      intro _ e
      have h0 : (hexDigit (v / 10)).toNat = ('0' : Char).toNat := by rw [e]
      rw [hexDigit_toNat _ (by omega)] at h0
      have : v / 10 < 10 := by omega
      simp only [this, if_true] at h0
      have h48 : ('0' : Char).toNat = 48 := by decide
      omega
  · constructor
    · simp only [List.cons_append, List.nil_append]
      rw [dtoiLoop_digit 0 0 (v / 100) (by omega) _ (by omega),
        dtoiLoop_digit _ _ (v / 10 % 10) (by omega) _ (by omega),
        dtoiLoop_digit _ _ (v % 10) (by omega) _ (by omega), dtoiLoop_stop _ _ rest hr]
      have : (v / 100 * 10 + v / 10 % 10) * 10 + v % 10 = v := by omega
      simp [this]
    · simp only [List.cons_append, List.head?_cons, Option.some.injEq, not_and]
      intro _ e
      have h0 : (hexDigit (v / 100)).toNat = ('0' : Char).toNat := by rw [e]
      rw [hexDigit_toNat _ (by omega)] at h0
      have : v / 100 < 10 := by omega
      simp only [this, if_true] at h0
      have h48 : ('0' : Char).toNat = 48 := by decide
      omega


theorem mem_intercalate (sep : List Char) :
    ∀ (xs : List (List Char)) (c : Char), c ∈ List.intercalate sep xs →
      c ∈ sep ∨ ∃ x ∈ xs, c ∈ x
  | [], c, h => by simp [List.intercalate] at h
  | [x], c, h => by
    simp only [List.intercalate, List.intersperse_single, List.flatten_cons, List.flatten_nil,
      List.append_nil] at h
    exact Or.inr ⟨x, by simp, h⟩
  | x :: y :: rest, c, h => by
    simp only [List.intercalate, List.intersperse_cons₂, List.flatten_cons, List.mem_append] at h
    rcases h with h | h | h
    · exact Or.inr ⟨x, by simp, h⟩
    · exact Or.inl h
    · have h1 : c ∈ List.intercalate sep (y :: rest) := by
        simpa [List.intercalate] using h
      rcases mem_intercalate sep (y :: rest) c h1 with h2 | ⟨z, hz, hc⟩
      · exact Or.inl h2
      · exact Or.inr ⟨z, List.mem_cons_of_mem _ hz, hc⟩

theorem dotted4 (a b c d : Byte) :
    dotted [a, b, c, d] =
      ubtoa a.val ++ ('.' :: (ubtoa b.val ++ ('.' :: (ubtoa c.val ++ ('.' :: ubtoa d.val))))) := by
  simp [dotted, List.intercalate, List.intersperse]

theorem dotted_chars (p : List Byte) :
    ∀ c ∈ dotted p, (48 ≤ c.toNat ∧ c.toNat ≤ 57) ∨ c = '.' := by
  intro c hc
  rcases mem_intercalate _ _ c hc with h | ⟨x, hx, hcx⟩
  · exact Or.inr (by simpa using h)
  · obtain ⟨b, _, hb⟩ := List.mem_map.mp hx
    subst hb
    exact Or.inl (ubtoa_chars b.val b.isLt c hcx)

theorem ubtoa_ne_nil (v : Nat) (rest : List Char) : ubtoa v ++ rest ≠ [] := by
  unfold ubtoa
  split_ifs <;> simp

theorem byte_ofNat (v : Byte) : (Fin.ofNat v.val : Byte) = v := by
  apply Fin.ext
  simp [Fin.ofNat, Nat.mod_eq_of_lt v.isLt]

theorem parseIPv4Loop_step (k : Nat) (first : Bool) (s s1 rest : List Char) (v : Byte)
    (hs : s ≠ []) (hskip : skipDot first s = some s1)
    (hd : dtoi s1 = some (v.val, (ubtoa v.val).length, rest))
    (hz : ¬ ((ubtoa v.val).length > 1 ∧ s1.head? = some '0')) :
    parseIPv4Loop (k + 1) first s = (parseIPv4Loop k false rest).map (fun p => v :: p) := by
  have hv : ¬ v.val > 255 := by have := v.isLt; omega
  rw [parseIPv4Loop, if_neg hs]
  simp only [hskip, hd, hv, if_false, hz, byte_ofNat]

theorem parseIPv4Loop_dotted (a b c d : Byte) :
    parseIPv4Loop 4 true (dotted [a, b, c, d]) = some [a, b, c, d] := by
  rw [dotted4]
  obtain ⟨ha1, ha2⟩ := dtoi_ubtoa a.val a.isLt ('.' :: (ubtoa b.val ++ ('.' :: (ubtoa c.val ++
    ('.' :: ubtoa d.val))))) (Or.inr ⟨_, rfl⟩)
  obtain ⟨hb1, hb2⟩ := dtoi_ubtoa b.val b.isLt ('.' :: (ubtoa c.val ++
    ('.' :: ubtoa d.val))) (Or.inr ⟨_, rfl⟩)
  obtain ⟨hc1, hc2⟩ := dtoi_ubtoa c.val c.isLt ('.' :: ubtoa d.val) (Or.inr ⟨_, rfl⟩)
  obtain ⟨hd1, hd2⟩ := dtoi_ubtoa d.val d.isLt [] (Or.inl rfl)
  rw [List.append_nil] at hd1 hd2
  rw [parseIPv4Loop_step 3 true _ _ _ a (ubtoa_ne_nil _ _) rfl ha1 ha2,
    parseIPv4Loop_step 2 false ('.' :: (ubtoa b.val ++ ('.' :: (ubtoa c.val ++
      ('.' :: ubtoa d.val))))) _ _ b (by simp) rfl hb1 hb2,
    parseIPv4Loop_step 1 false ('.' :: (ubtoa c.val ++ ('.' :: ubtoa d.val))) _ _ c
      (by simp) rfl hc1 hc2,
    parseIPv4Loop_step 0 false ('.' :: ubtoa d.val) _ _ d (by simp) rfl hd1 hd2]
  simp [parseIPv4Loop]

theorem length_four (p : List Byte) (h : p.length = 4) : ∃ a b c d, p = [a, b, c, d] := by
  match p, h with
  | [a, b, c, d], _ => exact ⟨a, b, c, d, rfl⟩

/-- Parsing the first `:`-separated field of the string of an IPv4 address gives
the address back, in 16-byte form. -/
theorem parse_string_v4 (ip : IP) (h : (To4 ip).length = 4) :
    parseIPChars ((splitChars ':' (ipChars ip)).headD []) = v4InV6Prefix ++ To4 ip := by
  obtain ⟨a, b, c, d, hp⟩ := length_four _ h
  have hne : ip.length ≠ 0 := by
    intro e
    have : ip = [] := List.length_eq_zero.mp e
    rw [this] at h
    simp [To4] at h
  have hchars : ipChars ip = dotted [a, b, c, d] := by
    unfold ipChars
    rw [if_neg hne, if_pos h, hp]
  have hcolon : ':' ∉ dotted [a, b, c, d] := by
    intro hm
    rcases dotted_chars _ _ hm with h1 | h1
    · exact absurd h1 (by decide)
    · exact absurd h1 (by decide)
  have hdot : '.' ∈ dotted [a, b, c, d] := by
    rw [dotted4]
    simp
  rw [hchars, splitChars_none _ _ hcolon, List.headD_cons, parseIPChars_dot _ hdot hcolon]
  unfold parseIPv4
  rw [parseIPv4Loop_dotted, hp]


theorem and15_lt (x : Nat) : x &&& 15 < 16 :=
  Nat.and_lt_two_pow x (by decide : 15 < 2 ^ 4)

theorem appendHex_chars (i : Nat) : ∀ c ∈ appendHex i, c ≠ '.' ∧ c ≠ ':' ∧ c ≠ '/' := by
  intro c hc
  unfold appendHex at hc
  split_ifs at hc with h
  · simp only [List.mem_singleton] at hc
    subst hc
    decide
  · obtain ⟨j, _, hj⟩ := List.mem_map.mp hc
    subst hj
    exact hexDigit_ne _ (and15_lt _)

theorem hexString_chars (b : List Byte) : ∀ c ∈ hexString b, c ≠ '.' ∧ c ≠ ':' ∧ c ≠ '/' := by
  intro c hc
  unfold hexString at hc
  obtain ⟨v, _, hv⟩ := List.mem_flatMap.mp hc
  simp only [List.mem_cons, List.mem_singleton, List.not_mem_nil, or_false] at hv
  rcases hv with hv | hv
  · subst hv
    apply hexDigit_ne
    have := v.isLt
    have h2 : v.val >>> 4 = v.val / 16 := by
      rw [Nat.shiftRight_eq_div_pow]
    omega
  · subst hv
    exact hexDigit_ne _ (and15_lt _)

theorem ip6String_chars (ip : IP) : ∀ c ∈ ip6String ip, c ≠ '.' ∧ c ≠ '/' := by
  have key : ∀ (gs : List Nat) c, c ∈ List.intercalate [':'] (gs.map appendHex) →
      c ≠ '.' ∧ c ≠ '/' := by
    intro gs c hc
    rcases mem_intercalate _ _ c hc with h | ⟨x, hx, hcx⟩
    · simp only [List.mem_singleton] at h
      subst h
      decide
    · obtain ⟨g, _, hg⟩ := List.mem_map.mp hx
      subst hg
      exact ⟨(appendHex_chars g c hcx).1, (appendHex_chars g c hcx).2.2⟩
  intro c hc
  unfold ip6String at hc
  simp only at hc
  split_ifs at hc with h
  · exact key _ c hc
  · simp only [List.mem_append, List.mem_cons, List.mem_singleton, List.not_mem_nil,
      or_false] at hc
    rcases hc with (hc | hc | hc) | hc
    · exact key _ c hc
    · subst hc
      decide
    · subst hc
      decide
    · exact key _ c hc

/-- The string of an address that is not IPv4 has no dot. -/
theorem ipChars_no_dot (ip : IP) (h : (To4 ip).length ≠ 4) : '.' ∉ ipChars ip := by
  unfold ipChars
  split_ifs with h1 h2
  · decide
  · intro hm
    simp only [List.mem_cons] at hm
    rcases hm with hm | hm
    · exact absurd hm (by decide)
    · exact (hexString_chars ip _ hm).1 rfl
  · intro hm
    exact (ip6String_chars ip _ hm).1 rfl

/-- Parsing the first `:`-separated field of the string of an address that is not
IPv4 gives nil. -/
theorem parse_string_other (ip : IP) (h : (To4 ip).length ≠ 4) :
    parseIPChars ((splitChars ':' (ipChars ip)).headD []) = [] := by
  apply parseIPChars_plain
  · intro hm
    exact ipChars_no_dot ip h (splitChars_head ':' _ _ hm).1
  · intro hm
    exact (splitChars_head ':' _ _ hm).2 rfl

theorem To4_mapped (p : List Byte) (h : p.length = 4) : To4 (v4InV6Prefix ++ p) = p := by
  obtain ⟨a, b, c, d, hp⟩ := length_four p h
  subst hp
  simp [To4, v4InV6Prefix]

theorem contains_mapped (n : IPNet) (ip : IP) (h : (To4 ip).length = 4) :
    n.Contains (v4InV6Prefix ++ To4 ip) = n.Contains ip := by
  have hne : To4 ip ≠ [] := by
    intro e
    rw [e] at h
    simp at h
  unfold IPNet.Contains
  simp only [To4_mapped _ h, hne, ne_eq, not_false_eq_true, if_true]


/-! ### Strings that do not parse as an IP -/

theorem dtoiLoop_spec (s : List Char) (n c : Nat) (r : Nat × Nat × List Char)
    (h : dtoiLoop n c s = some r) :
    ∃ pre, s = pre ++ r.2.2 ∧ ∀ ch ∈ pre, 48 ≤ ch.toNat ∧ ch.toNat ≤ 57 := by
  induction s generalizing n c with
  | nil =>
    simp only [dtoiLoop, Option.some.injEq] at h
    subst h
    exact ⟨[], rfl, by simp⟩
  | cons a s ih =>
    rw [dtoiLoop] at h
    split_ifs at h with h1 h2
    · obtain ⟨pre, hpre, hd⟩ := ih _ _ h
      refine ⟨a :: pre, by rw [hpre]; rfl, ?_⟩
      intro ch hch
      rcases List.mem_cons.mp hch with e | e
      · rw [e]
        exact h1
      · exact hd ch e
    · simp only [Option.some.injEq] at h
      subst h
      exact ⟨[], rfl, by simp⟩

theorem dtoi_spec (s : List Char) (r : Nat × Nat × List Char) (h : dtoi s = some r) :
    ∃ pre, s = pre ++ r.2.2 ∧ ∀ ch ∈ pre, 48 ≤ ch.toNat ∧ ch.toNat ≤ 57 := by
  unfold dtoi at h
  cases hl : dtoiLoop 0 0 s with
  | none => simp [hl] at h
  | some r1 =>
    obtain ⟨n, c, rest⟩ := r1
    simp only [hl] at h
    split_ifs at h
    simp only [Option.some.injEq] at h
    subst h
    exact dtoiLoop_spec s 0 0 _ hl

theorem skipDot_spec (first : Bool) (s s1 : List Char) (h : skipDot first s = some s1) :
    s = s1 ∨ s = '.' :: s1 := by
  unfold skipDot at h
  split_ifs at h
  · simp only [Option.some.injEq] at h
    exact Or.inl h
  · split at h
    · simp only [Option.some.injEq] at h
      subst h
      exact Or.inr rfl
    · simp at h

theorem parseIPv4Loop_spec (k : Nat) (first : Bool) (s : List Char) (p : List Byte)
    (h : parseIPv4Loop k first s = some p) :
    p.length = k ∧ ∀ ch ∈ s, (48 ≤ ch.toNat ∧ ch.toNat ≤ 57) ∨ ch = '.' := by
  induction k generalizing first s p with
  | zero =>
    rw [parseIPv4Loop] at h
    split_ifs at h with h1
    simp only [Option.some.injEq] at h
    subst h h1
    simp
  | succ k ih =>
    rw [parseIPv4Loop] at h
    split_ifs at h with h1
    cases hs : skipDot first s with
    | none => simp [hs] at h
    | some s1 =>
      simp only [hs] at h
      cases hd : dtoi s1 with
      | none => simp [hd] at h
      | some r =>
        obtain ⟨n, c, rest⟩ := r
        simp only [hd] at h
        split_ifs at h with h2 h3
        obtain ⟨q, hq, hp⟩ := Option.map_eq_some'.mp h
        obtain ⟨hlen, hchars⟩ := ih false rest q hq
        obtain ⟨pre, hpre, hdig⟩ := dtoi_spec s1 _ hd
        simp only at hpre
        constructor
        · rw [← hp]
          simp [hlen]
        · have hs1 : ∀ ch ∈ s1, (48 ≤ ch.toNat ∧ ch.toNat ≤ 57) ∨ ch = '.' := by
            intro ch hch
            rw [hpre] at hch
            rcases List.mem_append.mp hch with e | e
            · exact Or.inl (hdig ch e)
            · exact hchars ch e
          intro ch hch
          rcases skipDot_spec first s s1 hs with e | e
          · rw [e] at hch
            exact hs1 ch hch
          · rw [e] at hch
            rcases List.mem_cons.mp hch with e1 | e1
            · exact Or.inr e1
            · exact hs1 ch e1

theorem parseIPv4_spec (s : List Char) (h : parseIPv4 s ≠ []) :
    (∃ p, p.length = 4 ∧ parseIPv4 s = v4InV6Prefix ++ p) ∧
      ∀ ch ∈ s, (48 ≤ ch.toNat ∧ ch.toNat ≤ 57) ∨ ch = '.' := by
  unfold parseIPv4 at h ⊢
  cases hl : parseIPv4Loop 4 true s with
  | none => simp [hl] at h
  | some p =>
    obtain ⟨h1, h2⟩ := parseIPv4Loop_spec 4 true s p hl
    exact ⟨⟨p, h1, rfl⟩, h2⟩

theorem xtoiLoop_spec (s : List Char) (n c : Nat) (r : Nat × Nat × List Char)
    (h : xtoiLoop n c s = some r) :
    ∃ pre, s = pre ++ r.2.2 ∧ ∀ ch ∈ pre, (hexVal ch).isSome = true := by
  induction s generalizing n c with
  | nil =>
    simp only [xtoiLoop, Option.some.injEq] at h
    subst h
    exact ⟨[], rfl, by simp⟩
  | cons a s ih =>
    rw [xtoiLoop] at h
    cases hv : hexVal a with
    | none =>
      simp only [hv, Option.some.injEq] at h
      subst h
      exact ⟨[], rfl, by simp⟩
    | some d =>
      simp only [hv] at h
      split_ifs at h with h1
      obtain ⟨pre, hpre, hd⟩ := ih _ _ h
      refine ⟨a :: pre, by rw [hpre]; rfl, ?_⟩
      intro ch hch
      rcases List.mem_cons.mp hch with e | e
      · rw [e, hv]
        rfl
      · exact hd ch e

theorem xtoi_spec (s : List Char) (r : Nat × Nat × List Char) (h : xtoi s = some r) :
    ∃ pre, s = pre ++ r.2.2 ∧ ∀ ch ∈ pre, (hexVal ch).isSome = true := by
  unfold xtoi at h
  cases hl : xtoiLoop 0 0 s with
  | none => simp [hl] at h
  | some r1 =>
    obtain ⟨n, c, rest⟩ := r1
    simp only [hl] at h
    split_ifs at h
    simp only [Option.some.injEq] at h
    subst h
    exact xtoiLoop_spec s 0 0 _ hl

/-- The characters an IPv6 text may consist of. -/
theorem digit_hex (ch : Char) (h : 48 ≤ ch.toNat ∧ ch.toNat ≤ 57) : (hexVal ch).isSome = true := by
  unfold hexVal
  rw [if_pos h]
  rfl


theorem parseIPv6Loop_spec (fuel : Nat) (ip : List Byte) (ell : Option Nat) (s : List Char)
    (r : List Byte × Option Nat) (h : parseIPv6Loop fuel ip ell s = some r)
    (hev : ip.length % 2 = 0) (hle : ip.length ≤ 16) :
    (r.1.length % 2 = 0 ∧ r.1.length ≤ 16) ∧
      ∀ ch ∈ s, (hexVal ch).isSome = true ∨ ch = ':' ∨ ch = '.' := by
  induction fuel generalizing ip ell s with
  | zero =>
    rw [parseIPv6Loop] at h
    by_cases h1 : s = []
    · rw [if_pos h1] at h
      simp only [Option.some.injEq] at h
      subst h h1
      exact ⟨⟨hev, hle⟩, by simp⟩
    · rw [if_neg h1] at h
      exact absurd h (by simp)
  | succ fuel ih =>
    rw [parseIPv6Loop] at h
    by_cases h0 : ip.length ≥ 16
    · rw [if_pos h0] at h
      by_cases h1 : s = []
      · rw [if_pos h1] at h
        simp only [Option.some.injEq] at h
        subst h h1
        exact ⟨⟨hev, hle⟩, by simp⟩
      · rw [if_neg h1] at h
        exact absurd h (by simp)
    · rw [if_neg h0] at h
      cases hx : xtoi s with
      | none =>
        rw [hx] at h
        exact absurd h (by simp)
      | some x =>
        obtain ⟨n, c, rest⟩ := x
        obtain ⟨pre, hpre, hhex⟩ := xtoi_spec s _ hx
        simp only at hpre
        have hprech : ∀ ch ∈ pre, (hexVal ch).isSome = true ∨ ch = ':' ∨ ch = '.' :=
          fun ch hch => Or.inl (hhex ch hch)
        rw [hx] at h
        simp only at h
        by_cases h2 : n > 65535
        · rw [if_pos h2] at h
          exact absurd h (by simp)
        rw [if_neg h2] at h
        by_cases h3 : rest.head? = some '.'
        · rw [if_pos h3] at h
          by_cases h4 : ell = none ∧ ip.length ≠ 12
          · rw [if_pos h4] at h
            exact absurd h (by simp)
          rw [if_neg h4] at h
          by_cases h5 : ip.length + 4 > 16
          · rw [if_pos h5] at h
            exact absurd h (by simp)
          rw [if_neg h5] at h
          by_cases h6 : parseIPv4 s = []
          · rw [if_pos h6] at h
            exact absurd h (by simp)
          rw [if_neg h6] at h
          simp only [Option.some.injEq] at h
          subst h
          obtain ⟨⟨p, hp4, hp⟩, hch⟩ := parseIPv4_spec s h6
          constructor
          · have hd : (parseIPv4 s).drop 12 = p := by
              rw [hp]
              simp [v4InV6Prefix]
            simp only [hd, List.length_append, hp4]
            omega
          · intro ch hc
            rcases hch ch hc with e | e
            · exact Or.inl (digit_hex ch e)
            · exact Or.inr (Or.inr e)
        · rw [if_neg h3] at h
          have hlen : (ip ++ [(Fin.ofNat (n >>> 8) : Byte), Fin.ofNat n]).length = ip.length + 2 := by
            simp
          have hev1 : (ip ++ [(Fin.ofNat (n >>> 8) : Byte), Fin.ofNat n]).length % 2 = 0 := by
            rw [hlen]
            omega
          have hle1 : (ip ++ [(Fin.ofNat (n >>> 8) : Byte), Fin.ofNat n]).length ≤ 16 := by
            rw [hlen]
            omega
          cases hr : rest with
          | nil =>
            rw [hr] at h
            simp only [Option.some.injEq] at h
            subst h
            refine ⟨⟨hev1, hle1⟩, ?_⟩
            intro ch hc
            rw [hpre, hr, List.append_nil] at hc
            exact hprech ch hc
          | cons c0 t =>
            rw [hr] at h
            simp only at h
            by_cases h7 : c0 ≠ ':' ∨ t = []
            · rw [if_pos h7] at h
              exact absurd h (by simp)
            rw [if_neg h7] at h
            simp only [not_or, not_not, ne_eq] at h7
            obtain ⟨hc0, hne⟩ := h7
            split at h
            · rename_i t2
              by_cases h8 : ell.isSome = true
              · rw [if_pos h8] at h
                exact absurd h (by simp)
              rw [if_neg h8] at h
              by_cases h9 : t2 = []
              · rw [if_pos h9] at h
                simp only [Option.some.injEq] at h
                subst h
                refine ⟨⟨hev1, hle1⟩, ?_⟩
                intro ch hc
                rw [hpre, hr, hc0, h9] at hc
                simp only [List.mem_append, List.mem_cons, List.not_mem_nil, or_false] at hc
                rcases hc with e | e | e
                · exact hprech ch e
                · exact Or.inr (Or.inl e)
                · exact Or.inr (Or.inl e)
              · rw [if_neg h9] at h
                obtain ⟨hlen2, hch2⟩ := ih _ _ _ h hev1 hle1
                refine ⟨hlen2, ?_⟩
                intro ch hc
                rw [hpre, hr, hc0] at hc
                simp only [List.mem_append, List.mem_cons] at hc
                rcases hc with e | e | e | e
                · exact hprech ch e
                · exact Or.inr (Or.inl e)
                · exact Or.inr (Or.inl e)
                · exact hch2 ch e
            · obtain ⟨hlen2, hch2⟩ := ih _ _ _ h hev1 hle1
              refine ⟨hlen2, ?_⟩
              intro ch hc
              rw [hpre, hr, hc0] at hc
              simp only [List.mem_append, List.mem_cons] at hc
              rcases hc with e | e | e
              · exact hprech ch e
              · exact Or.inr (Or.inl e)
              · exact hch2 ch e


theorem leadingEllipsis_spec (s : List Char) :
    s = (leadingEllipsis s).2 ∨ s = ':' :: ':' :: (leadingEllipsis s).2 := by
  unfold leadingEllipsis
  split
  · exact Or.inr rfl
  · exact Or.inl rfl

theorem expandEllipsis_length (ip : List Byte) (ell : Option Nat) (hle : ip.length ≤ 16)
    (h : expandEllipsis ip ell ≠ []) : (expandEllipsis ip ell).length = 16 := by
  unfold expandEllipsis at h ⊢
  by_cases h2 : ip.length < 16
  · rw [if_pos h2] at h ⊢
    cases ell with
    | none => exact absurd rfl h
    | some e =>
      simp only [List.length_append, List.length_take, List.length_replicate, List.length_drop]
      omega
  · rw [if_neg h2] at h ⊢
    by_cases h3 : ell.isSome = true
    · rw [if_pos h3] at h
      exact absurd rfl h
    · rw [if_neg h3]
      omega

theorem parseIPv6_spec (s : List Char) (h : parseIPv6 s ≠ []) :
    (parseIPv6 s).length = 16 ∧ ∀ ch ∈ s, (hexVal ch).isSome = true ∨ ch = ':' ∨ ch = '.' := by
  unfold parseIPv6 at h ⊢
  have hs := leadingEllipsis_spec s
  simp only at h ⊢
  by_cases h1 : (leadingEllipsis s).1.isSome = true ∧ (leadingEllipsis s).2 = []
  · rw [if_pos h1]
    refine ⟨by simp, ?_⟩
    intro ch hc
    rcases hs with e | e
    · rw [e, h1.2] at hc
      simp at hc
    · rw [e, h1.2] at hc
      simp only [List.mem_cons, List.not_mem_nil, or_false] at hc
      rcases hc with e | e <;> exact Or.inr (Or.inl e)
  · rw [if_neg h1] at h ⊢
    cases hl : parseIPv6Loop 16 [] (leadingEllipsis s).1 (leadingEllipsis s).2 with
    | none =>
      rw [hl] at h
      exact absurd rfl h
    | some r =>
      obtain ⟨ip, ell⟩ := r
      obtain ⟨⟨_, hle⟩, hch⟩ := parseIPv6Loop_spec 16 [] _ _ _ hl (by simp) (by simp)
      simp only at hle
      rw [hl] at h
      simp only at h ⊢
      refine ⟨expandEllipsis_length ip ell hle h, ?_⟩
      intro ch hc
      rcases hs with e | e
      · rw [e] at hc
        exact hch ch hc
      · rw [e] at hc
        simp only [List.mem_cons] at hc
        rcases hc with e | e | e
        · exact Or.inr (Or.inl e)
        · exact Or.inr (Or.inl e)
        · exact hch ch e

/-- A string with a slash is not the text of an IP. -/
theorem parseIPChars_slash (s : List Char) (h : '/' ∈ s) : parseIPChars s = [] := by
  have h47 : ¬ (48 ≤ ('/' : Char).toNat ∧ ('/' : Char).toNat ≤ 57) := by decide
  have hx : ¬ (hexVal '/').isSome = true := by decide
  have hv4 : parseIPv4 s = [] := by
    by_contra hne
    rcases (parseIPv4_spec s hne).2 '/' h with e | e
    · exact h47 e
    · exact absurd e (by decide)
  have hv6 : parseIPv6 s = [] := by
    by_contra hne
    rcases (parseIPv6_spec s hne).2 '/' h with e | e | e
    · exact hx e
    · exact absurd e (by decide)
    · exact absurd e (by decide)
  unfold parseIPChars
  split
  · exact hv4
  · exact hv6
  · rfl

/-- The string of an `IPNet` never parses as an IP. -/
theorem parseIP_ipNet_string (n : IPNet) : ParseIP n.String = [] := by
  show parseIPChars (ipNetChars n) = []
  unfold ipNetChars
  split
  · decide
  · split
    · exact parseIPChars_slash _ (by simp)
    · exact parseIPChars_slash _ (by simp)


/-! ### Parsed networks -/

theorem To4_cases (ip : IP) : To4 ip = [] ∨ (To4 ip).length = 4 := by
  unfold To4
  split_ifs with h1 h2
  · exact Or.inr h1
  · right
    rw [List.length_drop, h2.1]
  · exact Or.inl rfl

theorem CIDRMask_length (n bits : Nat) (hb : bits = 32 ∨ bits = 128) (hn : n ≤ bits) :
    (CIDRMask n bits).length = bits / 8 := by
  unfold CIDRMask
  have h1 : ¬ (bits ≠ 32 ∧ bits ≠ 128) := by omega
  have h2 : ¬ n > bits := by omega
  rw [if_neg h1, if_neg h2]
  simp

theorem mask_length_v4 (p : List Byte) (m : IPMask) (hp : p.length = 4) (hm : m.length = 4) :
    (IP.Mask (v4InV6Prefix ++ p) m).length = 4 := by
  unfold IP.Mask
  have h1 : ¬ (m.length = 16 ∧ (v4InV6Prefix ++ p).length = 4 ∧
      (m.take 12).all (fun b => b == 255) = true) := by
    rw [hm]
    simp
  simp only [if_neg h1]
  have h2 : m.length = 4 ∧ (v4InV6Prefix ++ p).length = 16 ∧
      (v4InV6Prefix ++ p).take 12 = [0, 0, 0, 0, 0, 0, 0, 0, 0, 0, 255, 255] := by
    refine ⟨hm, by simp [v4InV6Prefix, hp], by simp [v4InV6Prefix]⟩
  simp only [if_pos h2]
  have h3 : ((v4InV6Prefix ++ p).drop 12) = p := by simp [v4InV6Prefix]
  rw [h3]
  have h4 : ¬ p.length ≠ m.length := by
    rw [hp, hm]
    simp
  rw [if_neg h4]
  simp [hp, hm]

theorem mask_length_v6 (ip : IP) (m : IPMask) (hp : ip.length = 16) (hm : m.length = 16) :
    (IP.Mask ip m).length = 16 := by
  unfold IP.Mask
  have h1 : ¬ (m.length = 16 ∧ ip.length = 4 ∧ (m.take 12).all (fun b => b == 255) = true) := by
    rw [hp]
    simp
  simp only [if_neg h1]
  have h2 : ¬ (m.length = 4 ∧ ip.length = 16 ∧
      ip.take 12 = [0, 0, 0, 0, 0, 0, 0, 0, 0, 0, 255, 255]) := by
    rw [hm]
    simp
  simp only [if_neg h2]
  have h4 : ¬ ip.length ≠ m.length := by
    rw [hp, hm]
    simp
  rw [if_neg h4]
  simp [hp, hm]

/-- A network whose IP and mask are both 4 or both 16 bytes long contains no nil
IP. -/
theorem contains_nil (n : IPNet)
    (h : (n.IP.length = 4 ∧ n.Mask.length = 4) ∨ (n.IP.length = 16 ∧ n.Mask.length = 16)) :
    n.Contains [] = false := by
  have hnum : ∃ nn m, networkNumberAndMask n = some (nn, m) ∧ nn.length ≠ 0 := by
    unfold networkNumberAndMask
    rcases h with ⟨hi, hm⟩ | ⟨hi, hm⟩
    · have h4 : To4 n.IP = n.IP := by
        unfold To4
        rw [if_pos hi]
      have hne : n.IP ≠ [] := by
        intro e
        rw [e] at hi
        simp at hi
      simp only [h4, hne, false_and, if_false, hm, if_true, ne_eq, hi, not_true_eq_false]
      exact ⟨_, _, rfl, by omega⟩
    · have h1 : ¬ (To4 n.IP = [] ∧ n.IP.length ≠ 16) := by
        rw [hi]
        simp
      have hm4 : ¬ n.Mask.length = 4 := by omega
      simp only [if_neg h1, if_neg hm4, if_pos hm]
      rcases To4_cases n.IP with e | e
      · simp only [e, if_true]
        have : ¬ n.IP.length = 4 := by omega
        rw [if_neg this]
        exact ⟨_, _, rfl, by omega⟩
      · have hne : To4 n.IP ≠ [] := by
          intro e1
          rw [e1] at e
          simp at e
        simp only [if_neg hne, if_pos e]
        exact ⟨_, _, rfl, by omega⟩
  obtain ⟨nn, m, hnm, hlen⟩ := hnum
  unfold IPNet.Contains
  have h0 : To4 ([] : IP) = [] := by decide
  simp only [hnm, Option.getD_some, h0, ne_eq, not_true_eq_false, if_false, List.length_nil]
  have : (0 : Nat) ≠ nn.length := fun e => hlen e.symm
  simp [this]

theorem parseCIDR_valid (s : List Char) (n : IPNet) (h : parseCIDRChars s = some n) :
    (n.IP.length = 4 ∧ n.Mask.length = 4) ∨ (n.IP.length = 16 ∧ n.Mask.length = 16) := by
  unfold parseCIDRChars at h
  by_cases h0 : '/' ∉ s
  · rw [if_pos h0] at h
    exact absurd h (by simp)
  rw [if_neg h0] at h
  simp only at h
  cases hd : dtoi (List.drop 1 (List.dropWhile (fun ch => decide (ch ≠ '/')) s)) with
  | none =>
    rw [hd] at h
    exact absurd h (by simp)
  | some r =>
    obtain ⟨k, c, rest⟩ := r
    rw [hd] at h
    simp only at h
    by_cases h2 : parseIPv4 (List.takeWhile (fun ch => decide (ch ≠ '/')) s) = []
    · simp only [h2, if_true] at h
      by_cases h1 : parseIPv6 (List.takeWhile (fun ch => decide (ch ≠ '/')) s) = [] ∨
          rest ≠ [] ∨ k > 8 * 16
      · rw [if_pos h1] at h
        exact absurd h (by simp)
      rw [if_neg h1] at h
      simp only [Option.some.injEq] at h
      subst h
      simp only [not_or, not_not] at h1
      have hk : k ≤ 128 := by omega
      have hl := (parseIPv6_spec _ h1.1).1
      have hm := CIDRMask_length k 128 (Or.inr rfl) hk
      right
      exact ⟨mask_length_v6 _ _ hl hm, hm⟩
    · simp only [h2, if_false, false_or] at h
      by_cases h1 : rest ≠ [] ∨ k > 8 * 4
      · rw [if_pos h1] at h
        exact absurd h (by simp)
      rw [if_neg h1] at h
      simp only [Option.some.injEq] at h
      subst h
      simp only [not_or, not_not] at h1
      have hk : k ≤ 32 := by omega
      obtain ⟨p, hp4, hp⟩ := (parseIPv4_spec _ h2).1
      have hm := CIDRMask_length k 32 (Or.inl rfl) hk
      left
      simp only
      rw [hp]
      exact ⟨mask_length_v4 p _ hp4 hm, hm⟩


/-! ### Egress ranges: claim C6 -/

theorem isInternetGateway_iff (peer : Node) :
    isInternetGateway peer = true ↔
      ("0.0.0.0/0" ∈ peer.EgressGatewayRanges ∨ "::/0" ∈ peer.EgressGatewayRanges) := by
  simp [isInternetGateway]

/-- C6 (amended): when the host records of the node and of the egress-gateway peer
load, `getEgressIPs` returns parsed ranges of the peer in input order; a range
that parses and contains the peer host's IPv4 endpoint is in the result exactly
when one of the peer's ranges is the string `0.0.0.0/0` or `::/0` (the peer is an
internet gateway); and every parseable range that contains neither the peer
host's endpoint nor the IP of the node's local address is in the result. -/
theorem C6_egress_ranges (s : Store) (node peer : Node) (host peerHost : Host)
    (hh : GetHost s node.HostID = .ok host) (hp : GetHost s peer.HostID = .ok peerHost) :
    ∃ ips, getEgressIPs s node peer = .ok ips ∧
      ips.Sublist (peer.EgressGatewayRanges.filterMap ParseCIDR) ∧
      (∀ r ∈ peer.EgressGatewayRanges, ∀ ipnet, ParseCIDR r = some ipnet →
        (To4 peerHost.EndpointIP).length = 4 → ipnet.Contains peerHost.EndpointIP = true →
        (ipnet ∈ ips ↔
          ("0.0.0.0/0" ∈ peer.EgressGatewayRanges ∨ "::/0" ∈ peer.EgressGatewayRanges))) ∧
      (∀ r ∈ peer.EgressGatewayRanges, ∀ ipnet, ParseCIDR r = some ipnet →
        ipnet.Contains peerHost.EndpointIP = false →
        ipnet.Contains node.LocalAddress.IP = false → ipnet ∈ ips) := by
  refine ⟨_, getEgressIPs_eq s node peer host peerHost hh hp, List.filter_sublist _, ?_, ?_⟩
  · intro r hr ipnet hparse hv4 hcont
    rw [List.mem_filter, ← isInternetGateway_iff]
    have hmem : ipnet ∈ peer.EgressGatewayRanges.filterMap ParseCIDR :=
      List.mem_filterMap.mpr ⟨r, hr, hparse⟩
    have hfirst : ipnet.Contains (parseIPChars
        ((splitChars ':' peerHost.EndpointIP.String.toList).headD [])) = true := by
      show ipnet.Contains (parseIPChars
        ((splitChars ':' (ipChars peerHost.EndpointIP)).headD [])) = true
      rw [parse_string_v4 _ hv4, contains_mapped _ _ hv4]
      exact hcont
    unfold egressSkips
    rw [hfirst]
    cases isInternetGateway peer <;> simp [hmem]
  · intro r hr ipnet hparse hcont _hlocal
    rw [List.mem_filter]
    have hmem : ipnet ∈ peer.EgressGatewayRanges.filterMap ParseCIDR :=
      List.mem_filterMap.mpr ⟨r, hr, hparse⟩
    have hvalid := contains_nil ipnet (parseCIDR_valid _ _ hparse)
    have hfirst : ipnet.Contains (parseIPChars
        ((splitChars ':' peerHost.EndpointIP.String.toList).headD [])) = false := by
      show ipnet.Contains (parseIPChars
        ((splitChars ':' (ipChars peerHost.EndpointIP)).headD [])) = false
      by_cases hv4 : (To4 peerHost.EndpointIP).length = 4
      · rw [parse_string_v4 _ hv4, contains_mapped _ _ hv4]
        exact hcont
      · rw [parse_string_other _ hv4]
        exact hvalid
    have hsecond : ipnet.Contains (ParseIP node.LocalAddress.String) = false := by
      rw [parseIP_ipNet_string]
      exact hvalid
    refine ⟨hmem, ?_⟩
    unfold egressSkips
    rw [hfirst, hsecond]
    rfl

/-- The internet gateway B with the endpoint 10.1.1.1: its egress IPs are computed
and list parsed ranges in input order. -/
theorem C6_egress_ranges_witness :
    ∃ ips, getEgressIPs (innerEgressStore ["10.0.0.0/8", "0.0.0.0/0"]) lanA
        (egressB ["10.0.0.0/8", "0.0.0.0/0"]) = .ok ips ∧
      ips.Sublist ((egressB ["10.0.0.0/8", "0.0.0.0/0"]).EgressGatewayRanges.filterMap ParseCIDR) := by
  obtain ⟨ips, h1, h2, _⟩ := C6_egress_ranges (innerEgressStore ["10.0.0.0/8", "0.0.0.0/0"]) lanA
    (egressB ["10.0.0.0/8", "0.0.0.0/0"]) hostA innerHostB (by decide) (by decide)
  exact ⟨ips, h1, h2⟩

/-! ### Hosts and their nodes: claims C11 to C20 -/

/-! ### `UpdateHost`: claims C18 to C20 -/

theorem string_length_zero (a : String) : a.length = 0 ↔ a = "" := by
  constructor
  · intro h
    have h1 : a.data = [] := List.length_eq_zero.mp h
    exact String.ext h1
  · intro h
    subst h
    rfl

/-- C18: after `UpdateHost(newHost, currentHost)` the fields public_key, os,
ip_forwarding, mac_address, traffic_key_public, nodes, daemon_installed,
internet_gateway and host_pass of newHost are those of currentHost, and currentHost
is as before. -/
theorem C18_protected_fields (newHost currentHost : Host) :
    (UpdateHost newHost currentHost).1.PublicKey = currentHost.PublicKey ∧
    (UpdateHost newHost currentHost).1.OS = currentHost.OS ∧
    (UpdateHost newHost currentHost).1.IPForwarding = currentHost.IPForwarding ∧
    (UpdateHost newHost currentHost).1.MacAddress = currentHost.MacAddress ∧
    (UpdateHost newHost currentHost).1.TrafficKeyPublic = currentHost.TrafficKeyPublic ∧
    (UpdateHost newHost currentHost).1.Nodes = currentHost.Nodes ∧
    (UpdateHost newHost currentHost).1.DaemonInstalled = currentHost.DaemonInstalled ∧
    (UpdateHost newHost currentHost).1.InternetGateway = currentHost.InternetGateway ∧
    (UpdateHost newHost currentHost).1.HostPass = currentHost.HostPass ∧
    (UpdateHost newHost currentHost).2 = currentHost :=
  ⟨rfl, rfl, rfl, rfl, rfl, rfl, rfl, rfl, rfl, rfl⟩

/-- C19: after `UpdateHost(newHost, currentHost)` the version and the name of
newHost are those of currentHost when newHost came with the empty string and its
own otherwise; mtu, listen_port and proxy_listen_port are those of currentHost when
newHost came with 0 and its own otherwise. -/
theorem C19_changeable_fields (newHost currentHost : Host) :
    (UpdateHost newHost currentHost).1.Version
      = (if newHost.Version = "" then currentHost.Version else newHost.Version) ∧
    (UpdateHost newHost currentHost).1.Name
      = (if newHost.Name = "" then currentHost.Name else newHost.Name) ∧
    (UpdateHost newHost currentHost).1.MTU
      = (if newHost.MTU = 0 then currentHost.MTU else newHost.MTU) ∧
    (UpdateHost newHost currentHost).1.ListenPort
      = (if newHost.ListenPort = 0 then currentHost.ListenPort else newHost.ListenPort) ∧
    (UpdateHost newHost currentHost).1.ProxyListenPort
      = (if newHost.ProxyListenPort = 0 then currentHost.ProxyListenPort
         else newHost.ProxyListenPort) := by
  refine ⟨?_, ?_, rfl, rfl, rfl⟩
  · simp only [UpdateHost, string_length_zero]
  · simp only [UpdateHost, string_length_zero]

/-- C20: `UpdateHost(h, h)` leaves every field of h as it was. -/
theorem C20_update_with_itself (h : Host) : UpdateHost h h = (h, h) := by
  cases h
  simp [UpdateHost]


/-! ### The scan of `UpdateHostNetwork`: claim C17 -/

theorem loadedNodes_cons (s : Store) (id : String) (ids : List String) :
    loadedNodes s (id :: ids)
      = (match s.GetNodeByID id with
         | .ok node => [node]
         | .error _ => []) ++ loadedNodes s ids := by
  unfold loadedNodes
  rw [List.filterMap_cons]
  cases s.GetNodeByID id <;> simp

theorem liveNodes_cons (s : Store) (id : String) (ids : List String) :
    liveNodes s (id :: ids)
      = (match s.GetNodeByID id with
         | .ok node => if node.PendingDelete then [] else [node]
         | .error _ => []) ++ liveNodes s ids := by
  unfold liveNodes
  rw [loadedNodes_cons]
  cases s.GetNodeByID id with
  | error e => simp
  | ok node => cases hp : node.PendingDelete <;> simp [hp]

theorem liveNodes_append (s : Store) (a b : List String) :
    liveNodes s (a ++ b) = liveNodes s a ++ liveNodes s b := by
  simp [liveNodes, loadedNodes, List.filterMap_append]

/-- The scan returns the first live node on the network. -/
theorem scanHostNodes_eq (s : Store) (network : String) (ids : List String) :
    scanHostNodes s network ids
      = (liveNodes s ids).find? (fun node => decide (node.Network = network)) := by
  induction ids with
  | nil => rfl
  | cons id rest ih =>
    rw [liveNodes_cons, scanHostNodes]
    cases s.GetNodeByID id with
    | error e => simpa using ih
    | ok node =>
      cases hp : node.PendingDelete with
      | true => simp [hp, ih]
      | false =>
        by_cases hn : node.Network = network
        · simp [hp, hn]
        · simp [hp, hn, ih]

/-- C17: `UpdateHostNetwork(h, network, add)` scans the nodes of h that load and are
not pending delete, in the order of h.nodes. With add = true and such a node on the
network it fails with "host already part of network" and changes neither h nor the
store; with add = false and such a node it returns the first one and changes
nothing; with add = false and no such node it fails with "host not part of the
network". -/
theorem C17_scan (d : Driver) (s : Store) (h : Host) (network : String) :
    (∀ node, (liveNodes s h.Nodes).find? (fun n => decide (n.Network = network)) = some node →
      UpdateHostNetwork d s h network true
        = { store := s, h := h, node := none
            err := some (.other ("host already part of network " ++ network)) } ∧
      UpdateHostNetwork d s h network false
        = { store := s, h := h, node := some node, err := none }) ∧
    ((liveNodes s h.Nodes).find? (fun n => decide (n.Network = network)) = none →
      UpdateHostNetwork d s h network false
        = { store := s, h := h, node := none
            err := some (.other ("host not part of the network " ++ network)) }) := by
  rw [← scanHostNodes_eq]
  constructor
  · intro node hfound
    simp [UpdateHostNetwork, hfound]
  · intro hnone
    simp [UpdateHostNetwork, hnone]

/-- C17 on the snapshot with the live node of the scenarios: adding `net1` again
fails, leaving `net1` returns the node, and leaving `net2` fails. -/
theorem C17_scan_witness :
    (liveNodes liveStore hostV.Nodes).find? (fun n => decide (n.Network = "net1")) = some nodeV ∧
    (UpdateHostNetwork tableDriver liveStore hostV "net1" true).err
      = some (.other "host already part of network net1") ∧
    (UpdateHostNetwork tableDriver liveStore hostV "net1" false).node = some nodeV ∧
    (liveNodes liveStore hostV.Nodes).find? (fun n => decide (n.Network = "net2")) = none ∧
    (UpdateHostNetwork tableDriver liveStore hostV "net2" false).err
      = some (.other "host not part of the network net2") := by
  have h1 := (C17_scan tableDriver liveStore hostV "net1").1 nodeV (by decide)
  have h2 := (C17_scan tableDriver liveStore hostV "net2").2 (by decide)
  refine ⟨by decide, ?_, ?_, by decide, ?_⟩
  · rw [h1.1]; rfl
  · rw [h1.2]
  · rw [h2]; rfl

/-! ### The guards of association and disassociation: claims C12 and C13 -/

theorem associate_run (d : Driver) (s : Store) (n : Node) (h : Host)
    (hne : h.ID ≠ "") (hnil : h.ID ≠ uuidNil) :
    AssociateNodeToHost d s n h
      = (match d.createNode s { n with HostID := h.ID } with
         | (s1, n1, some err) => { store := s1, n := n1, h := h, err := some err }
         | (s1, n1, none) =>
           match UpsertHost d s1 { h with Nodes := h.Nodes ++ [n1.ID] } with
           | (s2, err) =>
             { store := s2, n := n1, h := { h with Nodes := h.Nodes ++ [n1.ID] }, err := err }) := by
  have hlen : ¬ h.ID.length = 0 := fun h0 => hne ((string_length_zero _).mp h0)
  unfold AssociateNodeToHost
  rw [if_neg (by simp [hlen, hnil])]

/-- C12: `AssociateNodeToHost(n, h)` with the nil UUID as h.id returns
ErrInvalidHostID and changes neither the store (no node is created, no host
written) nor n nor h. Otherwise (the string of a UUID is never empty), when the
creation of the node and the upsert of the host succeed, the call succeeds,
n.host_id is h.id, h.nodes is the previous list with n.id appended at the end and
nothing else of h changes, and the host record stored under h.id is h with that
list; when the creation of the node fails, the call fails with that error, h is
unchanged and the host table is as before. -/
theorem C12_associate (d : Driver) (hd : CreatesNode d) (s : Store) (n : Node) (h : Host) :
    (h.ID = uuidNil →
      AssociateNodeToHost d s n h
        = { store := s, n := n, h := h, err := some ErrInvalidHostID }) ∧
    (h.ID ≠ "" → h.ID ≠ uuidNil →
      (d.createNode s { n with HostID := h.ID }).2.2 = none →
      d.InsertHostError (d.createNode s { n with HostID := h.ID }).1
        { h with Nodes := h.Nodes ++ [(d.createNode s { n with HostID := h.ID }).2.1.ID] } = none →
      (AssociateNodeToHost d s n h).err = none ∧
      (AssociateNodeToHost d s n h).n.HostID = h.ID ∧
      (AssociateNodeToHost d s n h).h
        = { h with Nodes := h.Nodes ++ [(AssociateNodeToHost d s n h).n.ID] } ∧
      GetHost (AssociateNodeToHost d s n h).store h.ID = .ok (AssociateNodeToHost d s n h).h) ∧
    (h.ID ≠ "" → h.ID ≠ uuidNil →
      ∀ e, (d.createNode s { n with HostID := h.ID }).2.2 = some e →
      (AssociateNodeToHost d s n h).err = some e ∧
      (AssociateNodeToHost d s n h).h = h ∧
      (AssociateNodeToHost d s n h).store.FetchHost = s.FetchHost) := by
  refine ⟨?_, ?_, ?_⟩
  · intro hnil
    simp [AssociateNodeToHost, hnil]
  · intro hne hnil hcreate hinsert
    have hk := hd.keeps_host s { n with HostID := h.ID }
    rw [associate_run d s n h hne hnil]
    rcases hc : d.createNode s { n with HostID := h.ID } with ⟨s1, n1, e1⟩
    rw [hc] at hcreate hinsert hk
    simp only at hcreate hinsert hk
    subst hcreate
    simp only [UpsertHost, hinsert]
    refine ⟨?_, ?_, ?_, ?_⟩
    · trivial
    · exact hk
    · trivial
    · simp [GetHost, insertHost]
  · intro hne hnil e hcreate
    have hh := hd.hosts s { n with HostID := h.ID }
    rw [associate_run d s n h hne hnil]
    rcases hc : d.createNode s { n with HostID := h.ID } with ⟨s1, n1, e1⟩
    rw [hc] at hcreate hh
    simp only at hcreate hh
    subst hcreate
    exact ⟨rfl, rfl, hh⟩


theorem tableDriver_creates : CreatesNode tableDriver where
  keeps_host := fun _ _ => rfl
  keeps_network := fun _ _ => rfl
  stores := by
    intro s n _
    simp [tableDriver]
  others := by
    intro s n id hid
    simp only [tableDriver] at hid ⊢
    rw [if_neg hid]
  hosts := fun _ _ => rfl

theorem failingDriver_creates : CreatesNode failingDriver where
  keeps_host := fun _ _ => rfl
  keeps_network := fun _ _ => rfl
  stores := by
    intro s n h
    simp [failingDriver] at h
  others := fun _ _ _ _ => rfl
  hosts := fun _ _ => rfl

theorem tableDriver_deletes : DeletesNode tableDriver := by
  intro s n _
  exact ⟨.emptyRecord, by simp [tableDriver]⟩

theorem tableDriver_removes : RemovesIndex tableDriver :=
  fun _ _ _ => List.Perm.refl _

/-- C12 on the snapshots: associating a node on `net2` with the host without nodes
succeeds, and fails under the driver whose `createNode` fails. -/
theorem C12_associate_witness :
    (hostU.ID ≠ "" ∧ hostU.ID ≠ uuidNil) ∧
    ((AssociateNodeToHost tableDriver liveStore { Network := "net2" } hostU).err = none ∧
      (AssociateNodeToHost tableDriver liveStore { Network := "net2" } hostU).n.HostID = hostU.ID ∧
      (AssociateNodeToHost tableDriver liveStore { Network := "net2" } hostU).h
        = { hostU with
            Nodes := hostU.Nodes
              ++ [(AssociateNodeToHost tableDriver liveStore { Network := "net2" } hostU).n.ID] } ∧
      GetHost (AssociateNodeToHost tableDriver liveStore { Network := "net2" } hostU).store hostU.ID
        = .ok (AssociateNodeToHost tableDriver liveStore { Network := "net2" } hostU).h) ∧
    ((AssociateNodeToHost failingDriver liveStore { Network := "net2" } hostU).err
        = some (.other "node creation failed") ∧
      (AssociateNodeToHost failingDriver liveStore { Network := "net2" } hostU).h = hostU ∧
      (AssociateNodeToHost failingDriver liveStore { Network := "net2" } hostU).store.FetchHost
        = liveStore.FetchHost) :=
  ⟨⟨by decide, by decide⟩,
   (C12_associate tableDriver tableDriver_creates liveStore { Network := "net2" } hostU).2.1
     (by decide) (by decide) rfl rfl,
   (C12_associate failingDriver failingDriver_creates liveStore { Network := "net2" } hostU).2.2
     (by decide) (by decide) _ rfl⟩

/-- C13: `DissasociateNodeFromHost(n, h)` returns an error and leaves h, n and the
store (node table and host table) as they were whenever h.id is the nil UUID, or
n.host_id differs from h.id, or h.nodes is empty. -/
theorem C13_dissociate_guards (d : Driver) (s : Store) (n : Node) (h : Host)
    (hbad : h.ID = uuidNil ∨ n.HostID ≠ h.ID ∨ h.Nodes = []) :
    ∃ e, DissasociateNodeFromHost d s n h = { store := s, n := n, h := h, err := some e } := by
  unfold DissasociateNodeFromHost
  by_cases h1 : h.ID.length = 0 ∨ h.ID = uuidNil
  · exact ⟨_, by rw [if_pos h1]⟩
  · rw [if_neg h1]
    by_cases h2 : n.HostID ≠ h.ID
    · exact ⟨_, by rw [if_pos h2]⟩
    · rw [if_neg h2]
      by_cases h3 : h.Nodes.length = 0
      · exact ⟨_, by rw [if_pos h3]⟩
      · exfalso
        rcases hbad with hb | hb | hb
        · exact h1 (Or.inr hb)
        · exact h2 hb
        · exact h3 (by simp [hb])

/-- C13 on the snapshots: node B is not a node of the host, the call fails and
nothing changes. -/
theorem C13_dissociate_guards_witness :
    nodeB.HostID ≠ hostV.ID ∧
    ∃ e, DissasociateNodeFromHost tableDriver liveStore nodeB hostV
      = { store := liveStore, n := nodeB, h := hostV, err := some e } :=
  ⟨by decide,
   C13_dissociate_guards tableDriver liveStore nodeB hostV (Or.inr (Or.inl (by decide)))⟩

/-! ### Disassociation: claims C14 and C15 -/

theorem nodeIndex_mem (id : String) (l : List String) (hmem : id ∈ l) :
    nodeIndex id l = some (l.indexOf id) := by
  induction l with
  | nil => simp at hmem
  | cons x rest ih =>
    by_cases hx : x = id
    · simp [nodeIndex, hx]
    · have hrest : id ∈ rest := by
        rcases List.mem_cons.mp hmem with h | h
        · exact absurd h.symm hx
        · exact h
      simp [nodeIndex, hx, ih hrest, List.indexOf_cons_ne _ hx]

/-- The run of `DissasociateNodeFromHost` once the guards are passed and the node id
is in the list. -/
theorem dissociate_run (d : Driver) (s : Store) (n : Node) (h : Host)
    (hne : h.ID ≠ "") (hnil : h.ID ≠ uuidNil) (hn : n.HostID = h.ID) (hmem : n.ID ∈ h.Nodes) :
    DissasociateNodeFromHost d s n h
      = (match d.deleteNodeByID s n with
         | (s1, some err) =>
           { store := s1, n := n
             h := { h with Nodes := d.RemoveStringSlice h.Nodes (h.Nodes.indexOf n.ID) }
             err := some err }
         | (s1, none) =>
           match UpsertHost d s1
              { h with Nodes := d.RemoveStringSlice h.Nodes (h.Nodes.indexOf n.ID) } with
           | (s2, err) =>
             { store := s2, n := n
               h := { h with Nodes := d.RemoveStringSlice h.Nodes (h.Nodes.indexOf n.ID) }
               err := err }) := by
  have hlen : ¬ h.ID.length = 0 := fun h0 => hne ((string_length_zero _).mp h0)
  have hnodes : ¬ h.Nodes.length = 0 := by
    intro h0
    rw [List.length_eq_zero.mp h0] at hmem
    simp at hmem
  unfold DissasociateNodeFromHost
  rw [if_neg (by simp [hlen, hnil]), if_neg (by simp [hn]), if_neg hnodes,
    nodeIndex_mem _ _ hmem]

theorem upsert_nodes (d : Driver) (s : Store) (h : Host) :
    (UpsertHost d s h).1.GetNodeByID = s.GetNodeByID := by
  unfold UpsertHost
  cases d.InsertHostError s h <;> rfl

theorem removed_perm (d : Driver) (hrm : RemovesIndex d) (l : List String) (id : String)
    (hmem : id ∈ l) : (d.RemoveStringSlice l (l.indexOf id)).Perm (l.erase id) := by
  have h := hrm l (l.indexOf id) (List.indexOf_lt_length.mpr hmem)
  rwa [List.eraseIdx_indexOf_eq_erase] at h

/-- C14: for a host h whose id is not the nil UUID (and, as the string of a UUID,
not empty) and a node n with n.host_id = h.id whose id occurs in h.nodes, when the
deletion of the node and the upsert of the host succeed,
`DissasociateNodeFromHost(n, h)` succeeds, h.nodes has one element fewer and is, up
to order, the previous list with one occurrence of n.id removed, nothing else of h
changes, the id of n no longer loads from the node table, and the host record
stored under h.id is h with the reduced list. -/
theorem C14_dissociate (d : Driver) (hdel : DeletesNode d) (hrm : RemovesIndex d)
    (s : Store) (n : Node) (h : Host)
    (hne : h.ID ≠ "") (hnil : h.ID ≠ uuidNil) (hn : n.HostID = h.ID) (hmem : n.ID ∈ h.Nodes)
    (hdelete : (d.deleteNodeByID s n).2 = none)
    (hupsert : d.InsertHostError (d.deleteNodeByID s n).1
      { h with Nodes := d.RemoveStringSlice h.Nodes (h.Nodes.indexOf n.ID) } = none) :
    (DissasociateNodeFromHost d s n h).err = none ∧
    (DissasociateNodeFromHost d s n h).h.Nodes.length + 1 = h.Nodes.length ∧
    (DissasociateNodeFromHost d s n h).h.Nodes.Perm (h.Nodes.erase n.ID) ∧
    (DissasociateNodeFromHost d s n h).h
      = { h with Nodes := (DissasociateNodeFromHost d s n h).h.Nodes } ∧
    (∃ e, (DissasociateNodeFromHost d s n h).store.GetNodeByID n.ID = .error e) ∧
    GetHost (DissasociateNodeFromHost d s n h).store h.ID
      = .ok (DissasociateNodeFromHost d s n h).h := by
  have hgone := hdel s n hdelete
  have hperm := removed_perm d hrm h.Nodes n.ID hmem
  rw [dissociate_run d s n h hne hnil hn hmem]
  rcases hc : d.deleteNodeByID s n with ⟨s1, e1⟩
  rw [hc] at hdelete hupsert hgone
  simp only at hdelete hupsert hgone
  subst hdelete
  simp only [UpsertHost, hupsert]
  refine ⟨trivial, ?_, hperm, trivial, hgone, ?_⟩
  · rw [hperm.length_eq, List.length_erase_of_mem hmem]
    have : 0 < h.Nodes.length := List.length_pos_of_mem hmem
    omega
  · simp [GetHost, insertHost]

/-- C14 on the snapshot with the live node: the node leaves the host. -/
theorem C14_dissociate_witness :
    (hostV.ID ≠ "" ∧ hostV.ID ≠ uuidNil ∧ nodeV.HostID = hostV.ID ∧ nodeV.ID ∈ hostV.Nodes) ∧
    ((DissasociateNodeFromHost tableDriver liveStore nodeV hostV).err = none ∧
    (DissasociateNodeFromHost tableDriver liveStore nodeV hostV).h.Nodes.length + 1
      = hostV.Nodes.length ∧
    (DissasociateNodeFromHost tableDriver liveStore nodeV hostV).h.Nodes.Perm
      (hostV.Nodes.erase nodeV.ID) ∧
    (DissasociateNodeFromHost tableDriver liveStore nodeV hostV).h
      = { hostV with Nodes := (DissasociateNodeFromHost tableDriver liveStore nodeV hostV).h.Nodes } ∧
    (∃ e, (DissasociateNodeFromHost tableDriver liveStore nodeV hostV).store.GetNodeByID nodeV.ID
      = .error e) ∧
    GetHost (DissasociateNodeFromHost tableDriver liveStore nodeV hostV).store hostV.ID
      = .ok (DissasociateNodeFromHost tableDriver liveStore nodeV hostV).h) :=
  ⟨⟨by decide, by decide, by decide, by decide⟩,
   C14_dissociate tableDriver tableDriver_deletes tableDriver_removes liveStore nodeV hostV
     (by decide) (by decide) (by decide) (by decide) rfl rfl⟩


theorem associate_ok (d : Driver) (s : Store) (n : Node) (h : Host)
    (hok : (AssociateNodeToHost d s n h).err = none) :
    h.ID ≠ "" ∧ h.ID ≠ uuidNil ∧
    AssociateNodeToHost d s n h
      = { store := insertHost (d.createNode s { n with HostID := h.ID }).1
            { h with Nodes := h.Nodes ++ [(d.createNode s { n with HostID := h.ID }).2.1.ID] }
          n := (d.createNode s { n with HostID := h.ID }).2.1
          h := { h with Nodes := h.Nodes ++ [(d.createNode s { n with HostID := h.ID }).2.1.ID] }
          err := none } := by
  by_cases hg : h.ID.length = 0 ∨ h.ID = uuidNil
  · simp [AssociateNodeToHost, hg, ErrInvalidHostID] at hok
  · have hne : h.ID ≠ "" := fun h0 => hg (Or.inl (by simp [h0]))
    have hnil : h.ID ≠ uuidNil := fun h0 => hg (Or.inr h0)
    refine ⟨hne, hnil, ?_⟩
    rw [associate_run d s n h hne hnil] at hok ⊢
    rcases hc : d.createNode s { n with HostID := h.ID } with ⟨s1, n1, e1⟩
    rw [hc] at hok
    cases e1 with
    | some e => simp at hok
    | none =>
      simp only [UpsertHost] at hok ⊢
      cases hi : d.InsertHostError s1 { h with Nodes := h.Nodes ++ [n1.ID] } with
      | some e => rw [hi] at hok; simp at hok
      | none => rfl

theorem dissociate_ok (d : Driver) (s : Store) (n : Node) (h : Host) (hmem : n.ID ∈ h.Nodes)
    (hok : (DissasociateNodeFromHost d s n h).err = none) :
    DissasociateNodeFromHost d s n h
      = { store := insertHost (d.deleteNodeByID s n).1
            { h with Nodes := d.RemoveStringSlice h.Nodes (h.Nodes.indexOf n.ID) }
          n := n
          h := { h with Nodes := d.RemoveStringSlice h.Nodes (h.Nodes.indexOf n.ID) }
          err := none } ∧
    (d.deleteNodeByID s n).2 = none := by
  by_cases hg : h.ID.length = 0 ∨ h.ID = uuidNil
  · simp [DissasociateNodeFromHost, hg, ErrInvalidHostID] at hok
  · have hne : h.ID ≠ "" := fun h0 => hg (Or.inl (by simp [h0]))
    have hnil : h.ID ≠ uuidNil := fun h0 => hg (Or.inr h0)
    by_cases hn : n.HostID = h.ID
    · rw [dissociate_run d s n h hne hnil hn hmem] at hok ⊢
      rcases hc : d.deleteNodeByID s n with ⟨s1, e1⟩
      rw [hc] at hok
      cases e1 with
      | some e => simp at hok
      | none =>
        simp only [UpsertHost] at hok ⊢
        cases hi : d.InsertHostError s1
            { h with Nodes := d.RemoveStringSlice h.Nodes (h.Nodes.indexOf n.ID) } with
        | some e => rw [hi] at hok; simp at hok
        | none => exact ⟨rfl, trivial⟩
    · simp [DissasociateNodeFromHost, hg, hn] at hok

/-- C15: `AssociateNodeToHost(n, h)` followed by `DissasociateNodeFromHost(n, h)`,
both succeeding, gives the host back: h.nodes is the list from before the pair up
to order, every other field of h is unchanged, the host record stored under h.id is
that h, and the id of n does not load from the node table. -/
theorem C15_round_trip (d : Driver) (hdel : DeletesNode d) (hrm : RemovesIndex d)
    (s : Store) (n : Node) (h : Host)
    (h1 : (AssociateNodeToHost d s n h).err = none)
    (h2 : (DissasociateNodeFromHost d (AssociateNodeToHost d s n h).store
        (AssociateNodeToHost d s n h).n (AssociateNodeToHost d s n h).h).err = none) :
    (DissasociateNodeFromHost d (AssociateNodeToHost d s n h).store
        (AssociateNodeToHost d s n h).n (AssociateNodeToHost d s n h).h).h.Nodes.Perm h.Nodes ∧
    (DissasociateNodeFromHost d (AssociateNodeToHost d s n h).store
        (AssociateNodeToHost d s n h).n (AssociateNodeToHost d s n h).h).h
      = { h with
          Nodes := (DissasociateNodeFromHost d (AssociateNodeToHost d s n h).store
            (AssociateNodeToHost d s n h).n (AssociateNodeToHost d s n h).h).h.Nodes } ∧
    GetHost (DissasociateNodeFromHost d (AssociateNodeToHost d s n h).store
        (AssociateNodeToHost d s n h).n (AssociateNodeToHost d s n h).h).store h.ID
      = .ok (DissasociateNodeFromHost d (AssociateNodeToHost d s n h).store
        (AssociateNodeToHost d s n h).n (AssociateNodeToHost d s n h).h).h ∧
    ∃ e, (DissasociateNodeFromHost d (AssociateNodeToHost d s n h).store
        (AssociateNodeToHost d s n h).n (AssociateNodeToHost d s n h).h).store.GetNodeByID
          (AssociateNodeToHost d s n h).n.ID = .error e := by
  obtain ⟨_, _, hr1⟩ := associate_ok d s n h h1
  rw [hr1] at h2 ⊢
  simp only at h2 ⊢
  generalize d.createNode s { n with HostID := h.ID } = c at h2 ⊢
  rcases c with ⟨s1, n1, e1⟩
  simp only at h2 ⊢
  have hmem : n1.ID ∈ h.Nodes ++ [n1.ID] := by simp
  obtain ⟨hr2, hdelete⟩ := dissociate_ok d _ n1 { h with Nodes := h.Nodes ++ [n1.ID] } hmem h2
  have hgone := hdel _ n1 hdelete
  have hperm := removed_perm d hrm (h.Nodes ++ [n1.ID]) n1.ID hmem
  rw [hr2]
  refine ⟨?_, rfl, ?_, hgone⟩
  · refine hperm.trans ?_
    have hp : ((h.Nodes ++ [n1.ID]).erase n1.ID).Perm ((n1.ID :: h.Nodes).erase n1.ID) :=
      (List.perm_append_singleton n1.ID h.Nodes).erase n1.ID
    simpa using hp
  · simp [GetHost, insertHost]

/-- C15 on the snapshots: a node on `net2` is associated with the host of the live
node and disassociated again. -/
theorem C15_round_trip_witness :
    ((AssociateNodeToHost tableDriver liveStore { Network := "net2" } hostV).err = none ∧
     (DissasociateNodeFromHost tableDriver
        (AssociateNodeToHost tableDriver liveStore { Network := "net2" } hostV).store
        (AssociateNodeToHost tableDriver liveStore { Network := "net2" } hostV).n
        (AssociateNodeToHost tableDriver liveStore { Network := "net2" } hostV).h).err = none) ∧
    ((DissasociateNodeFromHost tableDriver
        (AssociateNodeToHost tableDriver liveStore { Network := "net2" } hostV).store
        (AssociateNodeToHost tableDriver liveStore { Network := "net2" } hostV).n
        (AssociateNodeToHost tableDriver liveStore { Network := "net2" } hostV).h).h.Nodes.Perm
          hostV.Nodes ∧
    (DissasociateNodeFromHost tableDriver
        (AssociateNodeToHost tableDriver liveStore { Network := "net2" } hostV).store
        (AssociateNodeToHost tableDriver liveStore { Network := "net2" } hostV).n
        (AssociateNodeToHost tableDriver liveStore { Network := "net2" } hostV).h).h
      = { hostV with
          Nodes := (DissasociateNodeFromHost tableDriver
            (AssociateNodeToHost tableDriver liveStore { Network := "net2" } hostV).store
            (AssociateNodeToHost tableDriver liveStore { Network := "net2" } hostV).n
            (AssociateNodeToHost tableDriver liveStore { Network := "net2" } hostV).h).h.Nodes } ∧
    GetHost (DissasociateNodeFromHost tableDriver
        (AssociateNodeToHost tableDriver liveStore { Network := "net2" } hostV).store
        (AssociateNodeToHost tableDriver liveStore { Network := "net2" } hostV).n
        (AssociateNodeToHost tableDriver liveStore { Network := "net2" } hostV).h).store hostV.ID
      = .ok (DissasociateNodeFromHost tableDriver
        (AssociateNodeToHost tableDriver liveStore { Network := "net2" } hostV).store
        (AssociateNodeToHost tableDriver liveStore { Network := "net2" } hostV).n
        (AssociateNodeToHost tableDriver liveStore { Network := "net2" } hostV).h).h ∧
    ∃ e, (DissasociateNodeFromHost tableDriver
        (AssociateNodeToHost tableDriver liveStore { Network := "net2" } hostV).store
        (AssociateNodeToHost tableDriver liveStore { Network := "net2" } hostV).n
        (AssociateNodeToHost tableDriver liveStore { Network := "net2" } hostV).h).store.GetNodeByID
          (AssociateNodeToHost tableDriver liveStore { Network := "net2" } hostV).n.ID = .error e) :=
  ⟨⟨by decide, by decide⟩,
   C15_round_trip tableDriver tableDriver_deletes tableDriver_removes liveStore
     { Network := "net2" } hostV (by decide) (by decide)⟩


/-! ### One node per network: claim C16 -/

theorem liveNodes_congr (s1 s : Store) (ids : List String)
    (h : ∀ id ∈ ids, s1.GetNodeByID id = s.GetNodeByID id) :
    liveNodes s1 ids = liveNodes s ids := by
  induction ids with
  | nil => rfl
  | cons id rest ih =>
    rw [liveNodes_cons, liveNodes_cons, h id (List.mem_cons_self _ _),
      ih (fun x hx => h x (List.mem_cons_of_mem _ hx))]

theorem scan_none (s : Store) (network : String) (ids : List String)
    (hscan : scanHostNodes s network ids = none) :
    network ∉ (liveNodes s ids).map (fun node => node.Network) := by
  rw [scanHostNodes_eq, List.find?_eq_none] at hscan
  intro hmem
  obtain ⟨node, hnode, hnet⟩ := List.mem_map.mp hmem
  exact hscan node hnode (by simpa using hnet)

/-- The run of `UpdateHostNetwork` that adds a network. -/
theorem updateHostNetwork_add (d : Driver) (s : Store) (h : Host) (network : String)
    (hscan : scanHostNodes s network h.Nodes = none)
    (hne : h.ID ≠ "") (hnil : h.ID ≠ uuidNil) :
    (UpdateHostNetwork d s h network true).store
      = (match (d.createNode s (newHostNode d h network)).2.2 with
         | some _ => (d.createNode s (newHostNode d h network)).1
         | none =>
           (UpsertHost d (d.createNode s (newHostNode d h network)).1
             { h with
               Nodes := h.Nodes ++ [(d.createNode s (newHostNode d h network)).2.1.ID] }).1) ∧
    (UpdateHostNetwork d s h network true).h.Nodes
      = (match (d.createNode s (newHostNode d h network)).2.2 with
         | some _ => h.Nodes
         | none => h.Nodes ++ [(d.createNode s (newHostNode d h network)).2.1.ID]) := by
  have hnode : ({ ({ ({ } : Node) with Server := d.GetServer } : Node) with
      Network := network, HostID := h.ID } : Node) = newHostNode d h network := rfl
  unfold UpdateHostNetwork
  rw [hscan]
  simp only [Bool.not_true, Bool.false_eq_true, if_false]
  rw [associate_run d s _ h hne hnil]
  simp only [hnode]
  rcases hc : d.createNode s (newHostNode d h network) with ⟨s1, n1, e1⟩
  cases e1 with
  | some e => exact ⟨rfl, rfl⟩
  | none =>
    simp only
    rcases hu : UpsertHost d s1 { h with Nodes := h.Nodes ++ [n1.ID] } with ⟨s2, e2⟩
    cases e2 <;> exact ⟨rfl, rfl⟩


/-- C16 as stated fails: the one node of the host is on `net1` and pending delete,
the scan skips it, and adding `net1` succeeds and lists a second node on `net1`. -/
theorem C16_counterexample :
    OneNodePerNetwork pendingStore hostV.Nodes ∧
    (UpdateHostNetwork tableDriver pendingStore hostV "net1" true).err = none ∧
    (loadedNodes (UpdateHostNetwork tableDriver pendingStore hostV "net1" true).store
      (UpdateHostNetwork tableDriver pendingStore hostV "net1" true).h.Nodes).map
        (fun node => node.Network) = ["net1", "net1"] ∧
    ¬ OneNodePerNetwork (UpdateHostNetwork tableDriver pendingStore hostV "net1" true).store
        (UpdateHostNetwork tableDriver pendingStore hostV "net1" true).h.Nodes := by
  unfold OneNodePerNetwork
  decide

/-- C16, amended: if no two nodes listed in h.nodes that load and are not pending
delete are on the same network, the same holds after any call
`UpdateHostNetwork(h, network, add)`, whether it succeeds or fails, provided the id
the created node gets is not yet in h.nodes. -/
theorem C16_live_nodes (d : Driver) (hd : CreatesNode d) (s : Store) (h : Host)
    (network : String) (add : Bool)
    (hinv : OneLiveNodePerNetwork s h.Nodes)
    (hfresh : (d.createNode s (newHostNode d h network)).2.1.ID ∉ h.Nodes) :
    OneLiveNodePerNetwork (UpdateHostNetwork d s h network add).store
      (UpdateHostNetwork d s h network add).h.Nodes := by
  have hsame : ∀ r : HostNetworkResult, r.store = s → r.h = h →
      OneLiveNodePerNetwork r.store r.h.Nodes := by
    intro r h1 h2
    rw [h1, h2]
    exact hinv
  cases hscan : scanHostNodes s network h.Nodes with
  | some node =>
    apply hsame <;> (unfold UpdateHostNetwork; rw [hscan]; cases add <;> rfl)
  | none =>
    cases add with
    | false => apply hsame <;> (unfold UpdateHostNetwork; rw [hscan]; rfl)
    | true =>
      by_cases hg : h.ID.length = 0 ∨ h.ID = uuidNil
      · apply hsame <;>
          (unfold UpdateHostNetwork; rw [hscan]; simp [AssociateNodeToHost, hg])
      · have hne : h.ID ≠ "" := fun h0 => hg (Or.inl (by simp [h0]))
        have hnil : h.ID ≠ uuidNil := fun h0 => hg (Or.inr h0)
        obtain ⟨hs, hn⟩ := updateHostNetwork_add d s h network hscan hne hnil
        unfold OneLiveNodePerNetwork at hinv ⊢
        rw [hs, hn]
        have hothers := hd.others s (newHostNode d h network)
        have hstores := hd.stores s (newHostNode d h network)
        have hkeep : (d.createNode s (newHostNode d h network)).2.1.Network = network :=
          hd.keeps_network s (newHostNode d h network)
        generalize d.createNode s (newHostNode d h network) = c at hfresh hothers hstores hkeep ⊢
        rcases c with ⟨s1, n1, e1⟩
        simp only at hfresh hothers hstores hkeep ⊢
        have hold : liveNodes s1 h.Nodes = liveNodes s h.Nodes :=
          liveNodes_congr _ _ _ (fun id hid => hothers id (fun heq => hfresh (heq ▸ hid)))
        cases e1 with
        | some e =>
          simp only
          rw [hold]
          exact hinv
        | none =>
          simp only
          have hnew : liveNodes s1 [n1.ID] = if n1.PendingDelete then [] else [n1] := by
            rw [liveNodes_cons, hstores rfl]
            simp [liveNodes, loadedNodes]
          rw [liveNodes_congr _ s1 _ (fun id _ => by rw [upsert_nodes]), liveNodes_append,
            hold, hnew, List.map_append]
          by_cases hp : n1.PendingDelete = true
          · simpa [hp] using hinv
          · have habsent := scan_none s network h.Nodes hscan
            simp only [hp, if_false, Bool.false_eq_true, List.map_cons, List.map_nil, hkeep]
            rw [List.nodup_append]
            refine ⟨hinv, List.nodup_singleton _, ?_⟩
            intro a ha hb
            rw [List.mem_singleton] at hb
            exact habsent (hb ▸ ha)

/-- C16, amended, on the snapshot with the live node: adding `net2` gives the host a
second live node, on another network. -/
theorem C16_live_nodes_witness :
    (OneLiveNodePerNetwork liveStore hostV.Nodes ∧
      (tableDriver.createNode liveStore (newHostNode tableDriver hostV "net2")).2.1.ID
        ∉ hostV.Nodes) ∧
    OneLiveNodePerNetwork (UpdateHostNetwork tableDriver liveStore hostV "net2" true).store
      (UpdateHostNetwork tableDriver liveStore hostV "net2" true).h.Nodes :=
  ⟨⟨by unfold OneLiveNodePerNetwork; decide, by decide⟩,
   C16_live_nodes tableDriver tableDriver_creates liveStore hostV "net2" true
     (by unfold OneLiveNodePerNetwork; decide) (by decide)⟩


/-! ### The relay of a relayed host: claim C11 -/

theorem relayedBlock_loaded (s : Store) (host relayHost : Host) (p : ProxyManagerPayload)
    (hrel : host.IsRelayed = true) (hload : GetHost s host.RelayedBy = .ok relayHost) :
    relayedBlock s host p
      = { p with
          IsRelayed := true
          RelayedTo := udpPtr (s.ResolveUDPAddr
            (hostPort relayHost.EndpointIP (proxyListenPort s relayHost))) } := by
  simp [relayedBlock, hrel, hload]

theorem relayBlock_fields (s : Store) (host : Host) (p q : ProxyManagerPayload)
    (h : relayBlock s host p = .ok q) :
    q.IsRelayed = p.IsRelayed ∧ q.RelayedTo = p.RelayedTo := by
  unfold relayBlock at h
  by_cases hr : host.IsRelay = true
  · rw [if_pos hr] at h
    cases hl : relayLoop s (s.GetRelayedHosts host) [] with
    | error e => rw [hl] at h; simp at h
    | ok m =>
      rw [hl] at h
      simp only [Except.ok.injEq] at h
      subst h
      exact ⟨rfl, rfl⟩
  · rw [if_neg hr] at h
    simp only [Except.ok.injEq] at h
    subst h
    exact ⟨rfl, rfl⟩

theorem relayLoop_returns (s : Store) (l : List Host)
    (hsafe : ∀ r ∈ l, GetPeerUpdateForHost s (some r) ≠ .error .nilDereference ∧
      GetPeerUpdateForHost s (some r) ≠ .error .indexOutOfRange) :
    ∀ m, ∃ m1, relayLoop s l m = .ok m1 := by
  induction l with
  | nil => exact fun m => ⟨m, rfl⟩
  | cons r rest ih =>
    intro m
    have hr := hsafe r (List.mem_cons_self _ _)
    have hstep : ∃ m1, relayStep s m r = .ok m1 := by
      unfold relayStep
      cases hu : GetPeerUpdateForHost s (some r) with
      | error e =>
        cases e with
        | nilDereference => exact absurd hu hr.1
        | indexOutOfRange => exact absurd hu hr.2
        | emptyRecord => exact ⟨_, rfl⟩
        | other msg => exact ⟨_, rfl⟩
      | ok payload =>
        simp only
        cases s.ResolveUDPAddr (hostPort r.EndpointIP (proxyListenPort s r)) with
        | error e => exact ⟨_, rfl⟩
        | ok a => exact ⟨_, rfl⟩
    obtain ⟨m1, hm1⟩ := hstep
    obtain ⟨m2, hm2⟩ := ih (fun x hx => hsafe x (List.mem_cons_of_mem _ hx)) m1
    exact ⟨m2, by rw [relayLoop, hm1]; exact hm2⟩

/-- C11 as stated fails: the relay R of scenario S4 has no proxy, listen port 51820
and local listen port 51821; the proxy update of the relayed host A points at
3.3.3.3:51821, not at 3.3.3.3:51820. -/
theorem C11_counterexample :
    relayedA.IsRelayed = true ∧ GetHost scenarioS4 relayedA.RelayedBy = .ok relayR ∧
    relayR.ProxyEnabled = false ∧ relayR.ListenPort = 51820 ∧
    ∃ p, GetProxyUpdateForHost scenarioS4 (some relayedA) = .ok p ∧ p.IsRelayed = true ∧
      p.RelayedTo = some { IP := ParseIP "3.3.3.3", Port := 51821 } ∧
      p.RelayedTo ≠ udpPtr (scenarioS4.ResolveUDPAddr
        (hostPort relayR.EndpointIP (specRelayPort scenarioS4 relayR))) :=
  ⟨by decide, by decide, by decide, by decide, _, rfl, by decide, by decide, by decide⟩

/-- C11, amended: for a host H with is_relayed = true whose relay host R loads and
has an IPv4 endpoint_ip, `GetProxyUpdateForHost(H)` returns a payload with
is_relayed = true and relayed_to = R.endpoint_ip : port, where port is
R.proxy_listen_port (the canonical proxy port when that is zero) if
R.proxy_enabled, and otherwise R.local_listen_port, or R.listen_port when
R.local_listen_port is zero. The resolver is taken to resolve the literal text of
that address, and the peer updates of the hosts H relays are taken not to panic. -/
theorem C11_relayed_to (s : Store) (host relayHost : Host)
    (hrel : host.IsRelayed = true) (hload : GetHost s host.RelayedBy = .ok relayHost)
    (hres : ResolvesLiteral s relayHost.EndpointIP
      (if relayHost.ProxyEnabled = true then
        (if relayHost.ProxyListenPort = 0 then s.NmProxyPort else relayHost.ProxyListenPort)
       else if relayHost.LocalListenPort = 0 then relayHost.ListenPort
       else relayHost.LocalListenPort))
    (hsafe : host.IsRelay = true → ∀ r ∈ s.GetRelayedHosts host,
        GetPeerUpdateForHost s (some r) ≠ .error .nilDereference ∧
        GetPeerUpdateForHost s (some r) ≠ .error .indexOutOfRange) :
    ∃ p, GetProxyUpdateForHost s (some host) = .ok p ∧
      p.IsRelayed = true ∧
      p.RelayedTo = some
        { IP := ParseIP relayHost.EndpointIP.String
          Port :=
            if relayHost.ProxyEnabled = true then
              (if relayHost.ProxyListenPort = 0 then s.NmProxyPort
               else relayHost.ProxyListenPort)
            else if relayHost.LocalListenPort = 0 then relayHost.ListenPort
            else relayHost.LocalListenPort } := by
  have hb : ∃ q, relayBlock s host (relayedBlock s host { Action := .ProxyUpdate }) = .ok q := by
    unfold relayBlock
    by_cases hr : host.IsRelay = true
    · rw [if_pos hr]
      obtain ⟨m, hm⟩ := relayLoop_returns s (s.GetRelayedHosts host) (hsafe hr) []
      rw [hm]
      exact ⟨_, rfl⟩
    · rw [if_neg hr]
      exact ⟨_, rfl⟩
  obtain ⟨q, hq⟩ := hb
  refine ⟨_, by simp only [GetProxyUpdateForHost]; rw [hq], ?_⟩
  obtain ⟨h1, h2⟩ := relayBlock_fields s host _ q hq
  rw [relayedBlock_loaded s host relayHost _ hrel hload] at h1 h2
  refine ⟨h1, ?_⟩
  rw [h2]
  have hp : proxyListenPort s relayHost =
      (if relayHost.ProxyEnabled = true then
        (if relayHost.ProxyListenPort = 0 then s.NmProxyPort else relayHost.ProxyListenPort)
       else if relayHost.LocalListenPort = 0 then relayHost.ListenPort
       else relayHost.LocalListenPort) := rfl
  rw [hp, hres.2]
  rfl

/-- C11, amended, on scenario S4 with a second hop: A is relayed by R and relays B;
the resolver reads the text 3.3.3.3:51821, the peer update of B does not panic, and
the payload of A is returned and points at the local listen port of R. -/
theorem C11_relayed_to_witness :
    (relayingA.IsRelayed = true ∧ relayingA.IsRelay = true ∧
      GetHost scenarioS4R relayingA.RelayedBy = .ok relayR ∧
      scenarioS4R.GetRelayedHosts relayingA = [relayedB] ∧
      ResolvesLiteral scenarioS4R relayR.EndpointIP 51821) ∧
    ∃ p, GetProxyUpdateForHost scenarioS4R (some relayingA) = .ok p ∧ p.IsRelayed = true ∧
      p.RelayedTo = some { IP := ParseIP "3.3.3.3", Port := 51821 } :=
  ⟨⟨by decide, by decide, by decide, by decide, by unfold ResolvesLiteral; decide⟩,
   C11_relayed_to scenarioS4R relayingA relayR (by decide) (by decide)
     (by unfold ResolvesLiteral; decide) (by decide)⟩

/-! ### Hosts, keys and handlers: claims C21 to C30 -/

/-! ### `UpdateHost` and the local range: claim C28 -/

/-- C28: after `UpdateHost(newHost, currentHost)` the string form of
newHost.local_range is the string form of currentHost.local_range, whatever
local_range newHost came with. -/
theorem C28_local_range_kept (newHost currentHost : Host) :
    (UpdateHost newHost currentHost).1.LocalRange.String = currentHost.LocalRange.String := by
  simp only [UpdateHost]
  by_cases h : newHost.LocalRange.String = currentHost.LocalRange.String
  · simp [h]
  · simp [h]

/-! ### Enrollment keys: claim C23 -/

/-- C23: at a time `now` later than the zero time, a non-nil key is valid exactly if
it is unlimited, or has uses remaining, or `now` is strictly before its expiration;
a nil key is not valid; a key that is not unlimited, has no uses remaining and no
expiration set is not valid. -/
theorem C23_is_valid (now : Time) (hnow : 0 < now) (k : EnrollmentKey) :
    (EnrollmentKey.IsValid now (some k) = true ↔
      k.Unlimited = true ∨ k.UsesRemaining > 0 ∨ now < k.Expiration) ∧
    EnrollmentKey.IsValid now none = false ∧
    (k.Unlimited = false → k.UsesRemaining = 0 → k.Expiration = 0 →
      EnrollmentKey.IsValid now (some k) = false) := by
  have hzero : k.Expiration = 0 → ¬ now < k.Expiration := by
    intro hz hb
    rw [hz] at hb
    exact lt_asymm hnow hb
  refine ⟨?_, rfl, ?_⟩
  · unfold EnrollmentKey.IsValid
    by_cases hu : k.UsesRemaining > 0
    · simp [hu]
    · by_cases hb : now < k.Expiration
      · have hz : ¬ k.Expiration = 0 := fun hz => hzero hz hb
        simp [hu, hz, hb]
      · by_cases hz : k.Expiration = 0
        · simp only [hu, hz, hb, if_false, false_or, or_false]
          simp
          intro h
          exact absurd h (lt_asymm hnow)
        · simp only [hu, hz, hb, if_false, false_or, or_false]
          simp
  · intro h1 h2 h3
    have hb := hzero h3
    have hu : ¬ k.UsesRemaining > 0 := by rw [h2]; exact lt_irrefl _
    unfold EnrollmentKey.IsValid
    simp [h1, hu, h3]

/-- C23 at time 1000: a key with one use left is valid, the key of scenario S6 after
its one use is not. -/
theorem C23_is_valid_witness :
    (0 : Time) < 1000 ∧
    EnrollmentKey.IsValid 1000 (some { UsesRemaining := 1 }) = true ∧
    EnrollmentKey.IsValid 1000 (some { UsesRemaining := 0 }) = false :=
  ⟨by decide,
   ((C23_is_valid 1000 (by decide) { UsesRemaining := 1 }).1).mpr (Or.inr (Or.inl (by decide))),
   (C23_is_valid 1000 (by decide) { UsesRemaining := 0 }).2.2 rfl rfl rfl⟩

/-! ### `CreateHost`: claim C21 -/

/-- C21: when the store holds a record under h.id (the read does not report an
empty record), `CreateHost(h)` returns ErrHostExists and changes neither the store
nor h, so host_pass is not hashed. When no record exists, hashing succeeds and the
upsert succeeds, the call succeeds and the record stored under h.id is h with the
hash as host_pass, which is not the plaintext whenever the hash differs from it. -/
theorem C21_create_host (d : Driver) (s : Store) (h : Host) :
    (GetHost s h.ID ≠ .error .emptyRecord →
      CreateHost d s h = { store := s, h := h, err := some ErrHostExists }) ∧
    (GetHost s h.ID = .error .emptyRecord →
      ∀ hash, d.GenerateFromPassword h.HostPass 5 = .ok hash →
      d.InsertHostError s { h with HostPass := hash } = none →
      (CreateHost d s h).err = none ∧
      (CreateHost d s h).h = { h with HostPass := hash } ∧
      GetHost (CreateHost d s h).store h.ID = .ok { h with HostPass := hash } ∧
      (hash ≠ h.HostPass →
        ∀ g, GetHost (CreateHost d s h).store h.ID = .ok g → g.HostPass ≠ h.HostPass)) := by
  constructor
  · intro hrec
    unfold CreateHost
    cases hg : GetHost s h.ID with
    | ok g => rfl
    | error err =>
      have hne : err ≠ .emptyRecord := fun he => hrec (by rw [hg, he])
      simp [hne]
  · intro hrec hash hhash hins
    have hrun : CreateHost d s h
        = { store := insertHost s { h with HostPass := hash }
            h := { h with HostPass := hash }, err := none } := by
      unfold CreateHost
      rw [hrec]
      simp [hhash, UpsertHost, hins]
    rw [hrun]
    refine ⟨rfl, rfl, ?_, ?_⟩
    · simp [GetHost, insertHost]
    · intro hne g hg
      simp [GetHost, insertHost] at hg
      rw [← hg]
      exact hne

/-- C21 on the snapshots: the host of the live node exists already; the new host W
is stored with the hash of its password. -/
theorem C21_create_host_witness :
    (GetHost liveStore hostV.ID ≠ .error .emptyRecord ∧
      (CreateHost tableDriver liveStore hostV).err = some ErrHostExists ∧
      (CreateHost tableDriver liveStore hostV).h.HostPass = hostV.HostPass) ∧
    (GetHost liveStore hostW.ID = .error .emptyRecord ∧
      (CreateHost tableDriver liveStore hostW).err = none ∧
      GetHost (CreateHost tableDriver liveStore hostW).store hostW.ID
        = .ok { hostW with HostPass := "$2a$5$secret" }) := by
  have h1 := (C21_create_host tableDriver liveStore hostV).1 (by decide)
  have h2 := (C21_create_host tableDriver liveStore hostW).2 (by decide) "$2a$5$secret"
    (by decide) rfl
  refine ⟨⟨by decide, ?_, ?_⟩, by decide, h2.1, h2.2.2.1⟩
  · rw [h1]
  · rw [h1]

/-! ### The missing node id: claim C30 -/

theorem nodeIndex_not_mem (id : String) (l : List String) (hmem : id ∉ l) :
    nodeIndex id l = none := by
  induction l with
  | nil => rfl
  | cons x rest ih =>
    have hx : x ≠ id := fun h => hmem (by simp [h])
    have hr : id ∉ rest := fun h => hmem (List.mem_cons_of_mem _ h)
    simp [nodeIndex, hx, ih hr]

/-- C30: for a host h with a valid id and a non-empty node list and a node n with
n.host_id = h.id whose id is not in h.nodes, `DissasociateNodeFromHost(n, h)` does
not stop at the "not found in host" error: it calls `deleteNodeByID` and then upserts
h with h.nodes unchanged; its error is that of the deletion, else that of the
upsert, and it succeeds when both succeed. -/
theorem C30_missing_node_id (d : Driver) (s : Store) (n : Node) (h : Host)
    (hne : h.ID ≠ "") (hnil : h.ID ≠ uuidNil) (hn : n.HostID = h.ID)
    (hnodes : h.Nodes ≠ []) (hmem : n.ID ∉ h.Nodes) :
    (DissasociateNodeFromHost d s n h).h = h ∧
    (∀ e, (d.deleteNodeByID s n).2 = some e →
      DissasociateNodeFromHost d s n h
        = { store := (d.deleteNodeByID s n).1, n := n, h := h, err := some e }) ∧
    ((d.deleteNodeByID s n).2 = none →
      DissasociateNodeFromHost d s n h
        = { store := (UpsertHost d (d.deleteNodeByID s n).1 h).1, n := n, h := h
            err := d.InsertHostError (d.deleteNodeByID s n).1 h }) ∧
    ((d.deleteNodeByID s n).2 = none → d.InsertHostError (d.deleteNodeByID s n).1 h = none →
      (DissasociateNodeFromHost d s n h).err = none ∧
      GetHost (DissasociateNodeFromHost d s n h).store h.ID = .ok h) := by
  have hlen : ¬ h.ID.length = 0 := fun h0 => hne ((string_length_zero _).mp h0)
  have hnl : ¬ h.Nodes.length = 0 := fun h0 => hnodes (List.length_eq_zero.mp h0)
  have hrun : DissasociateNodeFromHost d s n h
      = (match d.deleteNodeByID s n with
         | (s1, some err) => { store := s1, n := n, h := h, err := some err }
         | (s1, none) =>
           match UpsertHost d s1 h with
           | (s2, err) => { store := s2, n := n, h := h, err := err }) := by
    unfold DissasociateNodeFromHost
    rw [if_neg (by simp [hlen, hnil]), if_neg (by simp [hn]), if_neg hnl,
      nodeIndex_not_mem _ _ hmem]
    simp only [hnl, if_false]
  rw [hrun]
  rcases hc : d.deleteNodeByID s n with ⟨s1, e1⟩
  cases e1 with
  | some e =>
    refine ⟨rfl, ?_, ?_, ?_⟩
    · intro e2 he
      simp only [Option.some.injEq] at he
      subst he
      rfl
    · intro he
      simp at he
    · intro he
      simp at he
  | none =>
    simp only [UpsertHost]
    cases hi : d.InsertHostError s1 h with
    | some e =>
      refine ⟨trivial, ?_, ?_, ?_⟩
      · intro e2 he
        simp at he
      · intro _
        rfl
      · intro _ he
        simp at he
    | none =>
      refine ⟨trivial, ?_, ?_, ?_⟩
      · intro e2 he
        simp at he
      · intro _
        rfl
      · intro _ _
        exact ⟨rfl, by simp [GetHost, insertHost]⟩

/-- C30 on the snapshot with the live node: node B, given the host id of the host,
is not in its node list; the call succeeds and the list is as before. -/
theorem C30_missing_node_id_witness :
    (hostV.ID ≠ "" ∧ hostV.ID ≠ uuidNil ∧ ({ nodeB with HostID := uuidA } : Node).HostID = hostV.ID ∧
      hostV.Nodes ≠ [] ∧ ({ nodeB with HostID := uuidA } : Node).ID ∉ hostV.Nodes) ∧
    (DissasociateNodeFromHost tableDriver liveStore { nodeB with HostID := uuidA } hostV).h
      = hostV ∧
    (DissasociateNodeFromHost tableDriver liveStore { nodeB with HostID := uuidA } hostV).err
      = none :=
  ⟨⟨by decide, by decide, by decide, by decide, by decide⟩,
   (C30_missing_node_id tableDriver liveStore { nodeB with HostID := uuidA } hostV
     (by decide) (by decide) (by decide) (by decide) (by decide)).1,
   ((C30_missing_node_id tableDriver liveStore { nodeB with HostID := uuidA } hostV
     (by decide) (by decide) (by decide) (by decide) (by decide)).2.2.2 rfl rfl).1⟩

/-! ### Related hosts: claim C22 -/

theorem mapSet_keys {β : Type} (m : GoMap β) (k : String) (v : β) :
    (mapSet m k v).map (fun kv => kv.1)
      = if k ∈ m.map (fun kv => kv.1) then m.map (fun kv => kv.1)
        else m.map (fun kv => kv.1) ++ [k] := by
  induction m with
  | nil => simp [mapSet]
  | cons hd tl ih =>
    obtain ⟨a, b⟩ := hd
    by_cases h : a = k
    · subst h
      simp [mapSet]
    · have h1 : ¬ k = a := fun e => h e.symm
      simp only [mapSet, h, if_false, List.map_cons, ih, List.mem_cons, h1, false_or]
      by_cases hk : k ∈ tl.map (fun kv => kv.1)
      · simp [hk]
      · simp [hk]

theorem mapSet_keys_nodup {β : Type} (m : GoMap β) (k : String) (v : β)
    (h : (m.map (fun kv => kv.1)).Nodup) : ((mapSet m k v).map (fun kv => kv.1)).Nodup := by
  rw [mapSet_keys]
  by_cases hk : k ∈ m.map (fun kv => kv.1)
  · simpa [hk] using h
  · rw [if_neg hk, List.nodup_append]
    refine ⟨h, List.nodup_singleton _, ?_⟩
    intro a ha hb
    rw [List.mem_singleton] at hb
    exact hk (hb ▸ ha)

theorem mem_mapSet {β : Type} (m : GoMap β) (k : String) (v : β) (e : String × β)
    (h : e ∈ mapSet m k v) : e = (k, v) ∨ e ∈ m := by
  induction m with
  | nil =>
    simp [mapSet] at h
    exact Or.inl h
  | cons hd tl ih =>
    obtain ⟨a, b⟩ := hd
    by_cases hk : a = k
    · simp only [mapSet, hk, if_true, List.mem_cons] at h
      rcases h with h | h
      · exact Or.inl h
      · exact Or.inr (List.mem_cons_of_mem _ h)
    · simp only [mapSet, hk, if_false, List.mem_cons] at h
      rcases h with h | h
      · exact Or.inr (by rw [h]; exact List.mem_cons_self _ _)
      · rcases ih h with h1 | h1
        · exact Or.inl h1
        · exact Or.inr (List.mem_cons_of_mem _ h1)

/-- The map of `GetHostsMap` has one entry per id, each under the id of its host. -/
theorem hostsMapLoop_keys (records : List (String × Except Error Host)) :
    ∀ (m m1 : GoMap Host), hostsMapLoop records m = .ok m1 →
      (m.map (fun kv => kv.1)).Nodup → (∀ e ∈ m, e.2.ID = e.1) →
      (m1.map (fun kv => kv.1)).Nodup ∧ (∀ e ∈ m1, e.2.ID = e.1) := by
  induction records with
  | nil =>
    intro m m1 h hn hid
    simp only [hostsMapLoop, Except.ok.injEq] at h
    subst h
    exact ⟨hn, hid⟩
  | cons r rest ih =>
    intro m m1 h hn hid
    obtain ⟨key, rec⟩ := r
    cases rec with
    | error e => simp [hostsMapLoop] at h
    | ok g =>
      simp only [hostsMapLoop] at h
      refine ih _ m1 h (mapSet_keys_nodup m g.ID g hn) ?_
      intro e he
      rcases mem_mapSet m g.ID g e he with h1 | h1
      · rw [h1]
      · exact hid e h1

/-- The hosts of `GetAllHosts` have distinct ids. -/
theorem allHosts_nodup (s : Store) (hosts : List Host) (h : GetAllHosts s = .ok hosts) :
    (hosts.map (fun g => g.ID)).Nodup := by
  unfold GetAllHosts at h
  cases hm : GetHostsMap s with
  | error e => simp [hm] at h
  | ok m =>
    rw [hm] at h
    simp only [Except.ok.injEq] at h
    subst h
    have hk : (m.map (fun kv => kv.1)).Nodup ∧ (∀ e ∈ m, e.2.ID = e.1) := by
      unfold GetHostsMap at hm
      cases hf : s.FetchHosts with
      | error e =>
        rw [hf] at hm
        by_cases he : e = .emptyRecord
        · simp [he] at hm
          subst hm
          simp
        · simp [he] at hm
      | ok records =>
        rw [hf] at hm
        exact hostsMapLoop_keys records [] m hm (by simp) (by simp)
    have heq : (m.map (fun kv => kv.2)).map (fun g => g.ID) = m.map (fun kv => kv.1) := by
      rw [List.map_map]
      exact List.map_congr_left (fun e he => hk.2 e he)
    rw [heq]
    exact hk.1

theorem hostNetworksLoop_resolved (s : Store) (ids : List String)
    (hres : ∀ id ∈ ids, ∃ n, s.GetNodeByID id = .ok n) :
    ∀ nets, hostNetworksLoop s ids nets
      = some (nets ++ (loadedNodes s ids).map (fun node => node.Network)) := by
  induction ids with
  | nil => intro nets; simp [hostNetworksLoop, loadedNodes]
  | cons id rest ih =>
    intro nets
    obtain ⟨n, hn⟩ := hres id (List.mem_cons_self _ _)
    rw [hostNetworksLoop, hn, loadedNodes_cons, hn]
    simp only
    rw [ih (fun x hx => hres x (List.mem_cons_of_mem _ hx))]
    simp

theorem getHostNetworks_resolved (s : Store) (g : Host) (hg : GetHost s g.ID = .ok g)
    (hres : ∀ id ∈ g.Nodes, ∃ n, s.GetNodeByID id = .ok n) :
    GetHostNetworks s g.ID = hostNodeNetworks s g := by
  unfold GetHostNetworks
  rw [hg]
  simp only
  rw [hostNetworksLoop_resolved s g.Nodes hres]
  simp [hostNodeNetworks]

theorem networkMap_mem (networks : List String) (network : String) :
    ∀ m : GoMap Unit,
      (mapGet (networks.foldl (fun m network => mapSet m network ()) m) network).isSome
        = true ↔ network ∈ networks ∨ (mapGet m network).isSome = true := by
  induction networks with
  | nil => intro m; simp
  | cons a rest ih =>
    intro m
    rw [List.foldl_cons, ih, mapGet_mapSet]
    by_cases h : a = network
    · simp [h]
    · have h1 : ¬ network = a := fun e => h e.symm
      simp [h, h1]

theorem related_filter (s : Store) (hostID : String) (networkMap : GoMap Unit)
    (hosts : List Host) :
    ∀ acc, hosts.foldl (relatedStep s hostID networkMap) acc
      = acc ++ hosts.filter (fun host =>
          decide (host.ID ≠ hostID) &&
            (GetHostNetworks s host.ID).any
              (fun network => (mapGet networkMap network).isSome)) := by
  induction hosts with
  | nil => intro acc; simp
  | cons g rest ih =>
    intro acc
    rw [List.foldl_cons, ih]
    unfold relatedStep
    by_cases hid : g.ID = hostID
    · simp [hid]
    · by_cases hany : (GetHostNetworks s g.ID).any
          (fun network => (mapGet networkMap network).isSome) = true
      · simp [hid, hany, List.filter_cons]
      · simp only [Bool.not_eq_true] at hany
        simp [hid, hany, List.filter_cons]

/-- Over the hosts `GetAllHosts` gives, each stored under its id and with node ids
that load, `GetRelatedHosts(h.id)` holds the hosts with another id that share a
network with h, each once. -/
theorem relatedHosts_of_all (s : Store) (h : Host) (hosts : List Host)
    (hall : GetAllHosts s = .ok hosts)
    (hh : GetHost s h.ID = .ok h)
    (hstored : ∀ g ∈ hosts, GetHost s g.ID = .ok g)
    (hres : ∀ g ∈ hosts, ∀ id ∈ g.Nodes, ∃ n, s.GetNodeByID id = .ok n)
    (hresh : ∀ id ∈ h.Nodes, ∃ n, s.GetNodeByID id = .ok n) :
    (∀ g, g ∈ GetRelatedHosts s h.ID ↔
      g ∈ hosts ∧ g.ID ≠ h.ID ∧
        ∃ network, network ∈ hostNodeNetworks s g ∧ network ∈ hostNodeNetworks s h) ∧
    (GetRelatedHosts s h.ID).Nodup ∧
    h ∉ GetRelatedHosts s h.ID := by
  have hrun : GetRelatedHosts s h.ID
      = hosts.filter (fun host =>
          decide (host.ID ≠ h.ID) &&
            (GetHostNetworks s host.ID).any
              (fun network =>
                (mapGet ((hostNodeNetworks s h).foldl (fun m network => mapSet m network ()) [])
                  network).isSome)) := by
    unfold GetRelatedHosts
    simp only [hall, getHostNetworks_resolved s h hh hresh]
    rw [related_filter]
    simp
  have hiff : ∀ g, g ∈ GetRelatedHosts s h.ID ↔
      g ∈ hosts ∧ g.ID ≠ h.ID ∧
        ∃ network, network ∈ hostNodeNetworks s g ∧ network ∈ hostNodeNetworks s h := by
    intro g
    rw [hrun, List.mem_filter]
    constructor
    · rintro ⟨hg, hp⟩
      rw [getHostNetworks_resolved s g (hstored g hg) (hres g hg)] at hp
      simp only [Bool.and_eq_true, decide_eq_true_eq, List.any_eq_true] at hp
      obtain ⟨hne, network, hn1, hn2⟩ := hp
      rw [networkMap_mem] at hn2
      refine ⟨hg, hne, network, hn1, ?_⟩
      rcases hn2 with h2 | h2
      · exact h2
      · simp [mapGet] at h2
    · rintro ⟨hg, hne, network, hn1, hn2⟩
      refine ⟨hg, ?_⟩
      rw [getHostNetworks_resolved s g (hstored g hg) (hres g hg)]
      simp only [Bool.and_eq_true, decide_eq_true_eq, List.any_eq_true]
      exact ⟨hne, network, hn1, (networkMap_mem _ _ _).mpr (Or.inl hn2)⟩
  refine ⟨hiff, ?_, ?_⟩
  · rw [hrun]
    exact ((allHosts_nodup s hosts hall).of_map _).filter _
  · intro hmem
    exact ((hiff h).mp hmem).2.1 rfl

theorem mapSet_fresh {β : Type} (m : GoMap β) (k : String) (v : β)
    (hk : k ∉ m.map (fun kv => kv.1)) : mapSet m k v = m ++ [(k, v)] := by
  induction m with
  | nil => rfl
  | cons e rest ih =>
    obtain ⟨k1, v1⟩ := e
    simp only [List.map_cons, List.mem_cons, not_or] at hk
    have h1 : ¬ k1 = k := fun e => hk.1 e.symm
    simp [mapSet, h1, ih hk.2]

/-- Over records that hold each host under its id, with distinct ids not yet in the
map, the loop of `GetHostsMap` appends the hosts in record order. -/
theorem hostsMapLoop_table (hosts : List Host) :
    ∀ m : GoMap Host, (m.map (fun kv => kv.1) ++ hosts.map (fun g => g.ID)).Nodup →
      hostsMapLoop (hosts.map (fun g => (g.ID, Except.ok g))) m
        = .ok (m ++ hosts.map (fun g => (g.ID, g))) := by
  induction hosts with
  | nil => intro m _; simp [hostsMapLoop]
  | cons g rest ih =>
    intro m hn
    have hfresh : g.ID ∉ m.map (fun kv => kv.1) := by
      intro hmem
      exact (List.nodup_append.mp hn).2.2 hmem (by simp)
    simp only [List.map_cons, hostsMapLoop]
    rw [mapSet_fresh m g.ID g hfresh, ih]
    · simp
    · simpa [List.append_assoc] using hn

/-- `GetAllHosts` over a table that holds each host of a list under its id, the ids
distinct, gives the hosts of the table. -/
theorem getAllHosts_table (s : Store) (hosts : List Host)
    (hfetch : s.FetchHosts = .ok (hosts.map (fun g => (g.ID, Except.ok g))))
    (hids : (hosts.map (fun g => g.ID)).Nodup) :
    GetAllHosts s = .ok hosts := by
  unfold GetAllHosts GetHostsMap
  rw [hfetch]
  simp only
  rw [hostsMapLoop_table hosts [] (by simpa using hids)]
  simp [Function.comp_def]

/-- C22: in a store whose hosts table holds the hosts `hosts`, one record for each
under its id, which `GetHost` reads back, and in which every node id listed by a
host loads, a host g is in `GetRelatedHosts(h.id)` for a host h of the table exactly
if g is a host of the table, its id differs from h.id and some network holds both a
node of g and a node of h; no host is in the result twice, and h is not in it. -/
theorem C22_related_hosts (s : Store) (h : Host) (hosts : List Host)
    (hfetch : s.FetchHosts = .ok (hosts.map (fun g => (g.ID, Except.ok g))))
    (hids : (hosts.map (fun g => g.ID)).Nodup)
    (hstored : ∀ g ∈ hosts, GetHost s g.ID = .ok g)
    (hh : h ∈ hosts)
    (hres : ∀ g ∈ hosts, ∀ id ∈ g.Nodes, ∃ n, s.GetNodeByID id = .ok n) :
    (∀ g, g ∈ GetRelatedHosts s h.ID ↔
      g ∈ hosts ∧ g.ID ≠ h.ID ∧
        ∃ network, network ∈ hostNodeNetworks s g ∧ network ∈ hostNodeNetworks s h) ∧
    (GetRelatedHosts s h.ID).Nodup ∧
    h ∉ GetRelatedHosts s h.ID :=
  relatedHosts_of_all s h hosts (getAllHosts_table s hosts hfetch hids) (hstored h hh) hstored
    hres (hres h hh)

/-- C22 on scenario S5: the table holds A, B and C; A has nodes in `net1` and `net2`,
B in `net1` and `net2`, C in `net1`, so B and C are the hosts related to A, and A
and B those related to C. -/
theorem C22_related_hosts_witness :
    (scenarioS5.FetchHosts = .ok ([dualA, dualB, hostC].map (fun g => (g.ID, Except.ok g))) ∧
      hostNodeNetworks scenarioS5 dualA = ["net1", "net2"] ∧
      hostNodeNetworks scenarioS5 hostC = ["net1"]) ∧
    (hostC ∈ GetRelatedHosts scenarioS5 dualA.ID ↔
      hostC ∈ [dualA, dualB, hostC] ∧ hostC.ID ≠ dualA.ID ∧
        ∃ network, network ∈ hostNodeNetworks scenarioS5 hostC ∧
          network ∈ hostNodeNetworks scenarioS5 dualA) ∧
    GetRelatedHosts scenarioS5 dualA.ID = [dualB, hostC] ∧
    GetRelatedHosts scenarioS5 hostC.ID = [dualA, dualB] :=
  ⟨⟨by decide, by decide, by decide⟩,
   (C22_related_hosts scenarioS5 dualA [dualA, dualB, hostC] (by decide) (by decide)
     (by decide) (by decide)
     (by
       intro g hg id hid
       simp only [List.mem_cons, List.mem_singleton, List.not_mem_nil, or_false] at hg
       rcases hg with hg | hg | hg
       · subst hg
         simp only [dualA, List.mem_cons, List.mem_singleton, List.not_mem_nil,
           or_false] at hid
         rcases hid with hid | hid
         · subst hid
           exact ⟨nodeA, by decide⟩
         · subst hid
           exact ⟨nodeA2, by decide⟩
       · subst hg
         simp only [dualB, List.mem_cons, List.mem_singleton, List.not_mem_nil,
           or_false] at hid
         rcases hid with hid | hid
         · subst hid
           exact ⟨nodeB, by decide⟩
         · subst hid
           exact ⟨nodeB2, by decide⟩
       · subst hg
         simp only [hostC, List.mem_singleton] at hid
         subst hid
         exact ⟨nodeC, by decide⟩)).1 hostC,
   by decide, by decide⟩

/-! ### The legacy update of a connected node: claim C29 -/

theorem legacyStep_connected (s : Store) (node : Node) (metrics : Metrics)
    (udppeers : GoMap String) (hc : node.Connected = true) (st st1 : LegacyLoop) (peer : Node)
    (h : legacyStep s node metrics udppeers st peer = .ok st1) : st1 = st := by
  unfold legacyStep at h
  cases hg : GetHost s peer.HostID with
  | error e => simp [hg] at h
  | ok peerHost =>
    rw [hg] at h
    simp only [hc, if_true] at h
    by_cases hid : peer.ID = node.ID
    · simp only [hid, if_true, Except.ok.injEq] at h
      exact h.symm
    · simp only [hid, if_false, Except.ok.injEq] at h
      exact h.symm

theorem legacyLoop_connected (s : Store) (node : Node) (metrics : Metrics)
    (udppeers : GoMap String) (hc : node.Connected = true) (peers : List Node) :
    ∀ st st1, legacyLoop s node metrics udppeers peers st = .ok st1 → st1 = st := by
  induction peers with
  | nil =>
    intro st st1 h
    simp only [legacyLoop, Except.ok.injEq] at h
    exact h.symm
  | cons peer rest ih =>
    intro st st1 h
    rw [legacyLoop] at h
    cases hs : legacyStep s node metrics udppeers st peer with
    | error e => simp [hs] at h
    | ok st2 =>
      rw [hs] at h
      have h2 := legacyStep_connected s node metrics udppeers hc st st2 peer hs
      subst h2
      exact ih _ _ h

/-- C29: when `GetPeerUpdateLegacy` succeeds for a node with connected = true, the
peer loop has added nothing: Peers is the sorted list of the external-client peers
of an ingress gateway and peer_ids holds their entries only; both are empty for a
node that is not an ingress gateway. -/
theorem C29_connected_node_no_host_peers (s : Store) (node : Node) (u : PeerUpdate)
    (hc : node.Connected = true) (h : GetPeerUpdateLegacy s node = .ok u) :
    u.Peers = sliceStable keyLess
      (if node.IsIngressGateway = true then
        (match getExtPeers s node true with
         | .ok (extPeers, _) => extPeers
         | .error _ => [])
       else []) ∧
    u.PeerIDs =
      (if node.IsIngressGateway = true then
        (match getExtPeers s node true with
         | .ok (_, idsAndAddr) => idsAndAddr.foldl (fun m e => mapSet m e.ID e) []
         | .error _ => [])
       else []) ∧
    (node.IsIngressGateway = false → u.Peers = [] ∧ u.PeerIDs = []) := by
  unfold GetPeerUpdateLegacy at h
  cases hcol : legacyCollect s node with
  | error e => simp [hcol] at h
  | ok st =>
    rw [hcol] at h
    simp only [Except.ok.injEq] at h
    subst h
    simp only
    unfold legacyCollect at hcol
    cases hps : s.GetNetworkNodes node.Network with
    | error e => simp [hps] at hcol
    | ok ps =>
      simp only [hps] at hcol
      cases hl : legacyLoop s node (legacyMetrics s node) (s.GetPeers node.Network) ps
          { peers := [], peerMap := [] } with
      | error e => simp [hl] at hcol
      | ok hostSt =>
        simp only [hl] at hcol
        have h0 := legacyLoop_connected s node _ _ hc ps _ _ hl
        subst h0
        by_cases hi : node.IsIngressGateway = true
        · simp only [hi, if_true] at hcol ⊢
          cases he : getExtPeers s node true with
          | error e =>
            simp only [he, Except.ok.injEq] at hcol
            subst hcol
            simp [sliceStable]
          | ok r =>
            obtain ⟨extPeers, idsAndAddr⟩ := r
            simp only [he, Except.ok.injEq] at hcol
            subst hcol
            simp
        · have hf : node.IsIngressGateway = false := by simpa using hi
          simp only [hf, Bool.false_eq_true, if_false, Except.ok.injEq] at hcol ⊢
          subst hcol
          simp [sliceStable]

/-- C29 on scenario S3: the connected ingress gateway A has the external client as
its only peer, and a connected node that is no gateway has none. -/
theorem C29_connected_node_no_host_peers_witness :
    (ingressA.Connected = true ∧ GetPeerUpdateLegacy scenarioS3 ingressA = .ok s3LegacyA) ∧
    (s3LegacyA.Peers = sliceStable keyLess
      (if ingressA.IsIngressGateway = true then
        (match getExtPeers scenarioS3 ingressA true with
         | .ok (extPeers, _) => extPeers
         | .error _ => [])
       else []) ∧
    s3LegacyA.PeerIDs =
      (if ingressA.IsIngressGateway = true then
        (match getExtPeers scenarioS3 ingressA true with
         | .ok (_, idsAndAddr) => idsAndAddr.foldl (fun m e => mapSet m e.ID e) []
         | .error _ => [])
       else []) ∧
    (ingressA.IsIngressGateway = false → s3LegacyA.Peers = [] ∧ s3LegacyA.PeerIDs = [])) ∧
    (GetPeerUpdateLegacy scenarioS1 nodeA).map (fun u => (u.Peers, u.PeerIDs)) = .ok ([], []) :=
  ⟨⟨by decide, by decide⟩,
   C29_connected_node_no_host_peers scenarioS3 ingressA s3LegacyA (by decide) (by decide),
   by decide⟩

/-! ### Failover peers: claims C24 and C27 -/

theorem accumulate_fields (s : Store) (c o : Metric) :
    (accumulate s c o).Connected = c.Connected ∧ (accumulate s c o).NodeName = c.NodeName := by
  unfold accumulate
  by_cases h : c.CollectedByProxy = true
  · simp [h]
  · simp [h]

theorem metricFold_fields (s : Store) (ks : List String) :
    ∀ (st : GoMap Metric × Option (GoMap Metric)) (j : String),
      ((mapGet (ks.foldl (metricStep s) st).1 j).getD {}).Connected
          = ((mapGet st.1 j).getD {}).Connected ∧
      ((mapGet (ks.foldl (metricStep s) st).1 j).getD {}).NodeName
          = ((mapGet st.1 j).getD {}).NodeName := by
  induction ks with
  | nil => intro st j; exact ⟨rfl, rfl⟩
  | cons k rest ih =>
    intro st j
    rw [List.foldl_cons]
    obtain ⟨h1, h2⟩ := ih (metricStep s st k) j
    rw [h1, h2]
    simp only [metricStep, mapGet_mapSet]
    by_cases hk : k = j
    · subst hk
      simp only [if_true, Option.getD_some]
      exact accumulate_fields s _ _
    · simp [hk]

theorem needsFailover_metricLoop (s : Store) (conn oldConn : Option (GoMap Metric))
    (node : Node) :
    needsFailover (metricLoop s conn oldConn).1 node = needsFailover conn node := by
  cases conn with
  | none => rfl
  | some m =>
    obtain ⟨h1, h2⟩ := metricFold_fields s (m.map (fun kv => kv.1)) (m, oldConn) node.ID
    simp only [needsFailover, metricLoop, connGet, h1, h2]

theorem failoverFold_other (conn : Option (GoMap Metric)) (k : String) (nodes : List Node)
    (hnot : ∀ node ∈ nodes, node.ID = k → needsFailover conn node = false) :
    ∀ fp, mapGet (nodes.foldl (failoverPeersStep conn) fp) k = mapGet fp k := by
  induction nodes with
  | nil => intro fp; rfl
  | cons node rest ih =>
    intro fp
    rw [List.foldl_cons, ih (fun x hx => hnot x (List.mem_cons_of_mem _ hx))]
    unfold failoverPeersStep
    by_cases hn : needsFailover conn node = true
    · have hid : node.ID ≠ k := by
        intro hid
        rw [hnot node (List.mem_cons_self _ _) hid] at hn
        exact Bool.false_ne_true hn
      rw [if_pos hn, mapGet_mapSet, if_neg hid]
    · rw [if_neg hn]

theorem mergeFold_kept (k v : String) (hv : v ≠ "") (l : List (String × String)) :
    ∀ (fp : GoMap String) (b : Bool), mapGet fp k = some v →
      mapGet (l.foldl mergeStep (fp, b)).1 k = some v := by
  have hlen : ¬ v.length = 0 := fun h => hv ((string_length_zero _).mp h)
  induction l with
  | nil => intro fp b h; exact h
  | cons kv rest ih =>
    intro fp b h
    rw [List.foldl_cons]
    unfold mergeStep
    by_cases hc : kv.2.length > 0 ∧ ((mapGet fp kv.1).getD "").length = 0
    · rw [if_pos hc]
      apply ih
      rw [mapGet_mapSet]
      by_cases hk : kv.1 = k
      · exfalso
        rw [hk, h] at hc
        exact hlen hc.2
      · rw [if_neg hk]
        exact h
    · rw [if_neg hc]
      exact ih _ _ h

theorem mergeFold_carried (k v : String) (hv : v ≠ "") (l : List (String × String)) :
    ∀ (fp : GoMap String) (b : Bool), mapGet l k = some v → mapGet fp k = none →
      mapGet (l.foldl mergeStep (fp, b)).1 k = some v := by
  have hlen : 0 < v.length := by
    rcases Nat.eq_zero_or_pos v.length with h | h
    · exact absurd ((string_length_zero _).mp h) hv
    · exact h
  induction l with
  | nil => intro fp b h; simp [mapGet] at h
  | cons kv rest ih =>
    intro fp b hl hfp
    obtain ⟨k1, v1⟩ := kv
    rw [List.foldl_cons]
    by_cases hk : k1 = k
    · subst hk
      simp only [mapGet, if_true, Option.some.injEq] at hl
      subst hl
      have hstep : mergeStep (fp, b) (k1, v1) = (mapSet fp k1 v1, b) := by
        simp [mergeStep, hfp, hlen]
      rw [hstep]
      exact mergeFold_kept k1 v1 hv rest _ _ (by rw [mapGet_mapSet]; simp)
    · simp only [mapGet, hk, if_false] at hl
      unfold mergeStep
      by_cases hc : v1.length > 0 ∧ ((mapGet fp k1).getD "").length = 0
      · simp only [hc, and_self, if_true]
        exact ih _ _ hl (by rw [mapGet_mapSet, if_neg hk]; exact hfp)
      · simp only [hc, if_false]
        exact ih _ _ hl hfp

/-- C24 (the code fails the claim): the test for a node that needs failover reads
`len(node.FailoverNode) > 0` on a UUID, an array of 16 bytes, so it does not depend
on the failover node at all. With nothing in the stored and in the incoming
failover peers, node B without a failover node (the nil UUID), connected, no
failover itself and reported as not connected under the name B, gets the entry
`node-b` with the nil UUID as its value. -/
theorem C24_unset_failover_node_listed :
    (∀ (conn : Option (GoMap Metric)) (node : Node) (id : String),
      needsFailover conn { node with FailoverNode := id } = needsFailover conn node) ∧
    (plainB.FailoverNode = uuidNil ∧ plainB.Connected = true ∧ plainB.Failover = false ∧
      connGet downB.Connectivity plainB.ID = { NodeName := "B", Connected := false } ∧
      downB.FailoverPeers = [] ∧
      (metricsStore [nodeA, plainB] {}).GetMetrics nodeA.ID = (some {}, none)) ∧
    (updateNodeMetrics (metricsStore [nodeA, plainB] {}) nodeA downB).map
      (fun r => r.1.FailoverPeers) = .ok [("node-b", uuidNil)] := by
  refine ⟨fun _ _ _ => rfl, by decide, by decide⟩

/-- C27 as stated fails: the stored metrics assign B to the failover node A, the
incoming metrics list no failover peer and report B as connected, so B does not
need failover; the entry for B is still in the resulting failover peers. -/
theorem C27_counterexample :
    (metricsStore [nodeA, failoverB] staleMetrics).GetMetrics nodeA.ID
      = (some staleMetrics, none) ∧
    mapGet staleMetrics.FailoverPeers "node-b" = some "node-a" ∧
    mapGet upB.FailoverPeers "node-b" = none ∧
    needsFailover upB.Connectivity failoverB = false ∧
    (updateNodeMetrics (metricsStore [nodeA, failoverB] staleMetrics) nodeA upB).map
      (fun r => mapGet r.1.FailoverPeers "node-b") = .ok (some "node-a") := by
  decide

/-- C27, amended: when the stored metrics and the nodes of the network load, a
failover peers entry of the stored metrics with a non-empty value, whose key is not
listed in the incoming metrics and whose node does not meet the needs-failover test
in this update, is carried over into the resulting failover peers of newMetrics
with its value. -/
theorem C27_stale_entry_carried_over (s : Store) (currentNode : Node)
    (newMetrics oldMetrics : Metrics) (conn : Option (GoMap Metric)) (nodes : List Node)
    (k v : String)
    (hold : s.GetMetrics currentNode.ID = (some oldMetrics, none))
    (hconn : attachClients newMetrics.Connectivity (attachedClients s currentNode) = .ok conn)
    (hnodes : s.GetNetworkNodes currentNode.Network = .ok nodes)
    (hentry : mapGet oldMetrics.FailoverPeers k = some v) (hv : v ≠ "")
    (hnew : mapGet newMetrics.FailoverPeers k = none)
    (hnot : ∀ node ∈ nodes, node.ID = k → needsFailover conn node = false) :
    ∃ r, updateNodeMetrics s currentNode newMetrics = .ok r ∧
      mapGet r.1.FailoverPeers k = some v := by
  unfold updateNodeMetrics
  rw [hold]
  simp only [hconn, hnodes]
  have hnot1 : ∀ node ∈ nodes, node.ID = k →
      needsFailover (metricLoop s conn oldMetrics.Connectivity).1 node = false := by
    intro node hn hid
    rw [needsFailover_metricLoop]
    exact hnot node hn hid
  have hfp := failoverFold_other (metricLoop s conn oldMetrics.Connectivity).1 k nodes hnot1
    newMetrics.FailoverPeers
  rw [hnew] at hfp
  refine ⟨_, rfl, ?_⟩
  exact mergeFold_carried k v hv oldMetrics.FailoverPeers _ _ hentry hfp

/-- C27, amended, on the counterexample: the stale entry of B is carried over. -/
theorem C27_stale_entry_carried_over_witness :
    ((metricsStore [nodeA, failoverB] staleMetrics).GetMetrics nodeA.ID
        = (some staleMetrics, none) ∧
      mapGet staleMetrics.FailoverPeers "node-b" = some "node-a" ∧
      mapGet upB.FailoverPeers "node-b" = none) ∧
    ∃ r, updateNodeMetrics (metricsStore [nodeA, failoverB] staleMetrics) nodeA upB = .ok r ∧
      mapGet r.1.FailoverPeers "node-b" = some "node-a" :=
  ⟨⟨by decide, by decide, by decide⟩,
   C27_stale_entry_carried_over (metricsStore [nodeA, failoverB] staleMetrics) nodeA upB
     staleMetrics upB.Connectivity [nodeA, failoverB] "node-b" "node-a"
     (by decide) (by decide) (by decide) (by decide) (by decide) (by decide) (by decide)⟩

/-! ### The checkin of a node: claim C25 -/

theorem pingCheckin_hosts (b : Broker) (d : Driver) (s : Store) (node : Node)
    (payload : List Byte)
    (hupdate : ∀ (s : Store) (a c : Node), (d.UpdateNode s a c).1.FetchHost = s.FetchHost) :
    (pingCheckin b d s node payload).store.FetchHost = s.FetchHost := by
  unfold pingCheckin
  cases b.decryptMsg node payload with
  | error e => rfl
  | ok decrypted =>
    simp only
    cases b.UnmarshalCheckin decrypted with
    | error e => rfl
    | ok checkin =>
      simp only
      cases GetHost s node.HostID with
      | error e => rfl
      | ok host => exact hupdate _ _ _

/-- C25 (the code fails the claim): `Ping` writes the version and the interfaces of
the checkin into the host record it has loaded and never stores that record; the
one write it makes is `logic.UpdateNode` on the node. As long as `UpdateNode` and
`NodeUpdate` write no host record, the host table after `Ping` is the host table
before. On scenario S1 a checkin of version v0.18.1 with one interface for node A
leaves the stored host A with its empty version and no interfaces, while the stored
node has the connected flag and the check-in time of the checkin. -/
theorem C25_host_not_stored :
    (∀ (b : Broker) (d : Driver) (s : Store) (topic : String) (payload : List Byte),
      (∀ (s : Store) (a c : Node), (d.UpdateNode s a c).1.FetchHost = s.FetchHost) →
      (∀ (s : Store) (n : Node), (b.NodeUpdate s n).1.FetchHost = s.FetchHost) →
      (Ping b d s topic payload).store.FetchHost = s.FetchHost) ∧
    (tableBroker.UnmarshalCheckin [0]).map (fun c => (c.Version, c.Connected, c.Ifaces.length))
      = .ok ("v0.18.1", false, 1) ∧
    (Ping tableBroker tableDriver scenarioS1 "node-a" [0]).host.map
      (fun h => (h.Version, h.Interfaces.length)) = some ("v0.18.1", 1) ∧
    GetHost (Ping tableBroker tableDriver scenarioS1 "node-a" [0]).store "host-a" = .ok hostA ∧
    (hostA.Version, hostA.Interfaces) = ("", []) ∧
    ((Ping tableBroker tableDriver scenarioS1 "node-a" [0]).store.GetNodeByID "node-a").map
      (fun n => (n.Connected, n.LastCheckIn)) = .ok (false, tableBroker.Now) := by
  refine ⟨?_, by decide, by decide, by decide, by decide, by decide⟩
  intro b d s topic payload hupdate hpublish
  unfold Ping
  cases b.getID topic with
  | error e => rfl
  | ok id =>
    simp only
    cases hn : s.GetNodeByID id with
    | error e =>
      simp only
      by_cases he : e = .emptyRecord
      · rw [if_pos he]
        cases s.GetHostByNodeID id with
        | none => rfl
        | some h => exact hpublish _ _
      · rw [if_neg he]
    | ok node => exact pingCheckin_hosts b d s node payload hupdate

/-! ### The relay of a peer: claim C26 -/

/-- C26 (the code fails the claim): for a peer host P relayed by a host R other than
H, the loop resolves the IP of R together with the port computed from P (the block
that starts from `peerHost.LocalListenPort`), not with a port of R. On scenario S4
as B sees it, A listens on 51830 and its relay R (3.3.3.3) on 51820: the entry for
the key of A has is_relayed = true and relayed_to = 3.3.3.3:51830, while the endpoint
of R is 3.3.3.3:51820. -/
theorem C26_relayed_to_uses_peer_port :
    (∀ (s : Store) (host : Host) (node peer : Node) (peerConfMap : GoMap PeerConf)
        (peerHost relayHost : Host) (relayTo : UDPAddr),
      peer.ID ≠ node.ID → GetHost s peer.HostID = .ok peerHost →
      peerHost.IsRelayed = true → peerHost.RelayedBy ≠ host.ID →
      GetHost s peerHost.RelayedBy = .ok relayHost →
      s.ResolveUDPAddr (hostPort relayHost.EndpointIP (proxyListenPort s peerHost))
        = .ok relayTo →
      ∃ conf, mapGet (proxyPeerStep s host node peerConfMap peer) peerHost.PublicKey
          = some conf ∧ conf.IsRelayed = true ∧ conf.RelayedTo = some relayTo) ∧
    (GetHost scenarioS4B nodeA.HostID = .ok relayedP ∧ relayedP.IsRelayed = true ∧
      relayedP.RelayedBy ≠ hostB.ID ∧ GetHost scenarioS4B relayedP.RelayedBy = .ok relayQ ∧
      relayedP.ListenPort = 51830 ∧ relayQ.ProxyEnabled = false ∧ relayQ.ListenPort = 51820 ∧
      relayQ.LocalListenPort = 0 ∧ specRelayPort scenarioS4B relayQ = 51820) ∧
    (GetProxyUpdateForHost scenarioS4B (some hostB)).map
        (fun p => (mapGet p.PeerMap relayedP.PublicKey).map (fun c => (c.IsRelayed, c.RelayedTo)))
      = .ok (some (true, some { IP := ParseIP "3.3.3.3", Port := 51830 })) := by
  refine ⟨?_, by decide, by decide⟩
  intro s host node peer peerConfMap peerHost relayHost relayTo hid hpeer hrel hby hrelay hres
  unfold proxyPeerStep
  rw [if_neg hid, hpeer]
  simp [hrel, hby, hrelay, hres, mapGet_mapSet]

end Netmaker
